import Mathlib

/-!
# ContainerWidget of the Advanced Docking System

A shallow embedding of `AdvancedDockingSystem/src/ContainerWidget.cpp`: the splitter tree held
by the container's layout, the drop operations that edit it, content extraction, and the binary
save / restore protocol written through `QDataStream`.

Pointers are object identities (`Nat`), allocated from a counter kept in the container.
The widget tree under the layout is a value; `QSplitter` calls that name a splitter by pointer
are edits of the node with that identity. The stream is a list of bytes in the format of
`QDataStream`.

The classes `SectionWidget` and `FloatingWidget` and the helpers declared in `ads/Internal.h`
are not part of the sources; their definitions follow the specification and say so.
-/

namespace ADS

/-! ## QDataStream, version Qt_4_5, big endian -/

abbrev Byte := Fin 256
abbrev QByteArray := List Byte
/-- A `QChar` is one UTF-16 code unit. -/
abbrev QChar := Fin 65536
abbrev QString := List QChar

def toByte (n : Nat) : Byte := ⟨n % 256, Nat.mod_lt _ (by decide)⟩

/-- The stream operator `out << (quint32) v`. -/
def writeUInt32 (v : Nat) : QByteArray :=
  [toByte (v / 16777216), toByte (v / 65536), toByte (v / 256), toByte v]

/-- The stream operator `in >> (quint32&) v`: a short read yields 0 and drains the device. -/
def readUInt32 : QByteArray → Nat × QByteArray
  | b0 :: b1 :: b2 :: b3 :: rest =>
      (b0.val * 16777216 + b1.val * 65536 + b2.val * 256 + b3.val, rest)
  | _ => (0, [])

/-- The stream operator `out << (int) v`, two's complement on 32 bits. -/
def writeInt32 (v : Int) : QByteArray := writeUInt32 (v % 4294967296).toNat

/-- The stream operator `in >> (int&) v`. -/
def readInt32 (s : QByteArray) : Int × QByteArray :=
  let r := readUInt32 s
  (if r.1 < 2147483648 then (r.1 : Int) else (r.1 : Int) - 4294967296, r.2)

/-- The stream operator `out << (bool) b`: one byte. -/
def writeBool (b : Bool) : QByteArray := [toByte (if b then 1 else 0)]

/-- The stream operator `in >> (bool&) b`: one byte, non-zero is true; false past the end. -/
def readBool : QByteArray → Bool × QByteArray
  | b :: rest => (decide (b.val ≠ 0), rest)
  | [] => (false, [])

/-- The stream operator `out << QByteArray`: byte count, then the bytes. -/
def writeQByteArray (ba : QByteArray) : QByteArray := writeUInt32 ba.length ++ ba

/-- The stream operator `in >> QByteArray&`: the length 0xFFFFFFFF is the null array; a short
read clears the array and drains the device. -/
def readQByteArray (s : QByteArray) : QByteArray × QByteArray :=
  let r := readUInt32 s
  if r.1 = 4294967295 then ([], r.2)
  else if r.1 ≤ r.2.length then (r.2.take r.1, r.2.drop r.1)
  else ([], [])

def writeUtf16 : QString → QByteArray
  | [] => []
  | ch :: rest => toByte (ch.val / 256) :: toByte ch.val :: writeUtf16 rest

def readUtf16 : QByteArray → QString
  | hi :: lo :: rest => ⟨(hi.val * 256 + lo.val) % 65536, Nat.mod_lt _ (by decide)⟩ :: readUtf16 rest
  | _ => []

/-- The stream operator `out << QString`: byte count, then the UTF-16 code units. -/
def writeQString (str : QString) : QByteArray := writeUInt32 (2 * str.length) ++ writeUtf16 str

/-- The stream operator `in >> QString&`: the length 0xFFFFFFFF is the null string; an odd byte
count is corrupt data and reads nothing more; a short read clears the string and drains the
device. -/
def readQString (s : QByteArray) : QString × QByteArray :=
  let r := readUInt32 s
  if r.1 = 4294967295 then ([], r.2)
  else if r.1 % 2 = 1 then ([], r.2)
  else if r.1 ≤ r.2.length then (readUtf16 (r.2.take r.1), r.2.drop r.1)
  else ([], [])

def writeInts : List Int → QByteArray
  | [] => []
  | v :: rest => writeInt32 v ++ writeInts rest

/-- The stream operator `out << QList<int>`: element count, then the elements. -/
def writeIntList (l : List Int) : QByteArray := writeUInt32 l.length ++ writeInts l

/-- The element loop of `in >> QList<int>&`: it stops early once the device is at its end. -/
def readInts : Nat → QByteArray → List Int × QByteArray
  | 0, s => ([], s)
  | n + 1, s =>
      let r := readInt32 s
      if r.2.isEmpty then ([r.1], r.2)
      else
        let q := readInts n r.2
        (r.1 :: q.1, q.2)

/-- The stream operator `in >> QList<int>&`. -/
def readIntList (s : QByteArray) : List Int × QByteArray :=
  let r := readUInt32 s
  readInts r.1 r.2

/-! ## Data model -/

/-- The two values of `Qt::Orientation`; a splitter stores whatever integer it was given. -/
def Qt.Horizontal : Int := 1
def Qt.Vertical : Int := 2

/-- The drop areas named by `dropContent`; every other value of the enumeration takes the
`default` branch of its switches. -/
inductive DropArea where
  | TopDropArea
  | RightDropArea
  | BottomDropArea
  | LeftDropArea
  | CenterDropArea
  | InvalidDropArea
deriving DecidableEq

structure SectionContent where
  uid : Int
  uniqueName : QString
deriving DecidableEq

/-- The triple handed between owners. The two view pointers are tracked as null (`false`) or
set (`true`). A default constructed `InternalContentData` is `none` where one is passed. -/
structure InternalContentData where
  content : SectionContent
  titleWidget : Bool
  contentWidget : Bool
deriving DecidableEq

/-- Modelled from the spec: the class `SectionWidget` is not part of the sources. A Section is
a tabbed group holding an ordered sequence of content triples plus the index of the current
one, which stays within bounds, or is -1 when the section is empty. -/
structure SectionWidget where
  id : Nat
  contents : List InternalContentData
  currentIndex : Int
deriving DecidableEq

/-- Modelled from the spec: the class `FloatingWidget` is not part of the sources. A floating
window owns one content triple, a geometry blob and a visibility flag. -/
structure FloatingWidget where
  id : Nat
  content : SectionContent
  titleWidget : Bool
  contentWidget : Bool
  geometry : QByteArray
  visible : Bool
deriving DecidableEq

/-- The widgets managed by the layout: a `SectionWidget` (by pointer) or a `QSplitter` with
its orientation and its child widgets in order. -/
inductive Widget where
  | section (id : Nat)
  | splitter (id : Nat) (orientation : Int) (children : List Widget)

def Widget.id : Widget → Nat
  | .section id => id
  | .splitter id _ _ => id

structure ContainerWidget where
  _mainLayout : List Widget
  _orientation : Int
  _splitter : Option Nat
  _sections : List SectionWidget
  _floatings : List FloatingWidget
  /-- Allocation counter: the identity given to the next object created with `new`. -/
  nextId : Nat

/-- The constructor `ContainerWidget::ContainerWidget`. -/
def ContainerWidget.new : ContainerWidget :=
  { _mainLayout := [], _orientation := Qt.Horizontal, _splitter := none,
    _sections := [], _floatings := [], nextId := 0 }

/-! ## SectionWidget and FloatingWidget -/

/-- Modelled from the spec: the constructor of `SectionWidget`, which is not part of the
sources. A new Section holds no content and its current index is -1. -/
def SectionWidget.new (id : Nat) : SectionWidget :=
  { id := id, contents := [], currentIndex := -1 }

/-- Modelled from the spec: `SectionWidget::contents`, which is not part of the sources; the
contents of the Section in tab order. -/
def SectionWidget.contentRefs (sw : SectionWidget) : List SectionContent :=
  sw.contents.map fun d => d.content

/-- Modelled from the spec: `SectionWidget::setCurrentIndex`, which is not part of the sources.
The current index must stay within bounds, so an index outside the tab sequence is ignored. -/
def SectionWidget.setCurrentIndex (sw : SectionWidget) (index : Int) : SectionWidget :=
  if 0 ≤ index ∧ index < sw.contents.length then { sw with currentIndex := index } else sw

/-- Modelled from the spec: `SectionWidget::addContent(data, autoActivate)`, which is not part
of the sources. The content is appended to the tab sequence; it becomes current when it is the
first one or when `autoActivate` is set. -/
def SectionWidget.addContent (sw : SectionWidget) (data : InternalContentData)
    (autoActivate : Bool) : SectionWidget :=
  { sw with
    contents := sw.contents ++ [data]
    currentIndex :=
      if autoActivate ∨ sw.contents = [] then (sw.contents.length : Int) else sw.currentIndex }

/-- Modelled from the spec: `SectionWidget::addContent(sc)`, which is not part of the sources.
The view construction hooks produce a title view and a body view for the placement. -/
def SectionWidget.addContentRef (sw : SectionWidget) (sc : SectionContent) : SectionWidget :=
  sw.addContent { content := sc, titleWidget := true, contentWidget := true } false

/-- Modelled from the spec: the search of `SectionWidget::takeContent`, which is not part of
the sources. The first triple of the tab sequence with the given content id: its index, the
triple, and the sequence without it. -/
def takeFirst (uid : Int) :
    List InternalContentData → Option (Nat × InternalContentData × List InternalContentData)
  | [] => none
  | d :: rest =>
      if d.content.uid = uid then some (0, d, rest)
      else
        match takeFirst uid rest with
        | none => none
        | some (i, x, rest') => some (i + 1, x, d :: rest')

/-- Modelled from the spec: `SectionWidget::takeContent(uid, data)`, which is not part of the
sources. The Section removes the matching content from its tab sequence if present and adjusts
its current index: -1 when it becomes empty, one less when a tab before the current one left,
and the last tab when the current index would fall off the end. `none` is the result `false`,
with `data` untouched. -/
def SectionWidget.takeContent (sw : SectionWidget) (uid : Int) :
    Option (InternalContentData × SectionWidget) :=
  match takeFirst uid sw.contents with
  | none => none
  | some (i, d, rest) =>
      let cur : Int :=
        if rest = [] then -1
        else if (i : Int) < sw.currentIndex then sw.currentIndex - 1
        else if (rest.length : Int) ≤ sw.currentIndex then (rest.length : Int) - 1
        else sw.currentIndex
      some (d, { sw with contents := rest, currentIndex := cur })

/-- Modelled from the spec: `FloatingWidget::takeContent(data)`, which is not part of the
sources. The extraction step hands the window's triple to `data`; the window no longer owns the
view pair afterwards. -/
def FloatingWidget.takeContent (fw : FloatingWidget) : InternalContentData × FloatingWidget :=
  ({ content := fw.content, titleWidget := fw.titleWidget, contentWidget := fw.contentWidget },
   { fw with titleWidget := false, contentWidget := false })

/-! ## The widget tree and QSplitter -/

/-- The function `QSplitter::indexOf` on the child list: -1 when the widget is not a child. -/
def indexOf (wid : Nat) : List Widget → Int
  | [] => -1
  | w :: ws => if w.id = wid then 0 else
      let i := indexOf wid ws
      if i = -1 then -1 else i + 1

/-- The function `QSplitter::insertWidget(index, widget)` on the child list, for a widget that
is not yet a child of this splitter: an invalid index inserts at the end. -/
def insertWidget (index : Int) (w : Widget) (cs : List Widget) : List Widget :=
  if 0 ≤ index ∧ index ≤ cs.length then cs.take index.toNat ++ w :: cs.drop index.toNat
  else cs ++ [w]

/-- The function `QSplitter::addWidget(widget)` on the child list. -/
def addWidget (w : Widget) (cs : List Widget) : List Widget := cs ++ [w]

mutual
/-- The splitter with the given identity below a widget: its orientation and children. -/
def Widget.findSplitter (sid : Nat) : Widget → Option (Int × List Widget)
  | .section _ => none
  | .splitter id o cs => if id = sid then some (o, cs) else findSplitterList sid cs
def findSplitterList (sid : Nat) : List Widget → Option (Int × List Widget)
  | [] => none
  | w :: ws =>
      match w.findSplitter sid with
      | some r => some r
      | none => findSplitterList sid ws
end

mutual
/-- An edit, through a `QSplitter*`, of the orientation and children of the splitter with the
given identity. -/
def Widget.modifySplitter (sid : Nat) (f : Int × List Widget → Int × List Widget) :
    Widget → Widget
  | .section id => .section id
  | .splitter id o cs =>
      if id = sid then .splitter id (f (o, cs)).1 (f (o, cs)).2
      else .splitter id o (modifySplitterList sid f cs)
def modifySplitterList (sid : Nat) (f : Int × List Widget → Int × List Widget) :
    List Widget → List Widget
  | [] => []
  | w :: ws => w.modifySplitter sid f :: modifySplitterList sid f ws
end

mutual
/-- A widget leaves its parent (it is given a new parent, or deleted): it is removed from the
child list of the splitter that held it, or from the layout. -/
def Widget.removeWidget (wid : Nat) : Widget → Widget
  | .section id => .section id
  | .splitter id o cs => .splitter id o (removeWidgetList wid cs)
def removeWidgetList (wid : Nat) : List Widget → List Widget
  | [] => []
  | w :: ws =>
      if w.id = wid then removeWidgetList wid ws
      else w.removeWidget wid :: removeWidgetList wid ws
end

mutual
/-- The widget with the given identity, with the tree below it. -/
def Widget.findWidget (wid : Nat) : Widget → Option Widget
  | .section id => if id = wid then some (.section id) else none
  | .splitter id o cs =>
      if id = wid then some (.splitter id o cs) else findWidgetList wid cs
def findWidgetList (wid : Nat) : List Widget → Option Widget
  | [] => none
  | w :: ws =>
      match w.findWidget wid with
      | some r => some r
      | none => findWidgetList wid ws
end

mutual
/-- Modelled from the spec: `findParentSplitter`, declared in `ads/Internal.h`, is not part of
the sources. It locates the target's parent split node: the splitter that has the widget as a
child. `none` is the null pointer. -/
def Widget.findParentSplitter (wid : Nat) : Widget → Option Nat
  | .section _ => none
  | .splitter id _ cs =>
      if indexOf wid cs ≠ -1 then some id else findParentSplitterList wid cs
def findParentSplitterList (wid : Nat) : List Widget → Option Nat
  | [] => none
  | w :: ws =>
      match w.findParentSplitter wid with
      | some r => some r
      | none => findParentSplitterList wid ws
end

/-- Modelled from the spec: `findImmediateSplitter`, declared in `ads/Internal.h`, is not part
of the sources. It yields the single top-level split node: the first splitter among the items
of the container's layout. `none` is the null pointer. -/
def findImmediateSplitter : List Widget → Option (Nat × Int × List Widget)
  | [] => none
  | .splitter id o cs :: _ => some (id, o, cs)
  | .section _ :: rest => findImmediateSplitter rest

/-- The function `QLayout::replaceWidget(from, to)` on the items of the layout. -/
def replaceWidget (src : Nat) (dst : Widget) : List Widget → List Widget
  | [] => []
  | w :: ws => if w.id = src then dst :: ws else w :: replaceWidget src dst ws

/-! ## QSplitter calls through a pointer into the layout tree -/

/-- The static helper `newSplitter(orientation)`: a fresh splitter without children. -/
def newSplitter (id : Nat) (orientation : Int) : Widget := .splitter id orientation []

/-- The call `sp->orientation()`; `none` when the pointer designates no splitter. -/
def spOrientation (sp : Nat) (layout : List Widget) : Option Int :=
  (findSplitterList sp layout).map fun p => p.1

/-- The call `sp->count()`. -/
def spCount (sp : Nat) (layout : List Widget) : Option Nat :=
  (findSplitterList sp layout).map fun p => p.2.length

/-- The call `sp->indexOf(widget)`. -/
def spIndexOf (sp : Nat) (wid : Nat) (layout : List Widget) : Option Int :=
  (findSplitterList sp layout).map fun p => indexOf wid p.2

/-- The call `sp->setOrientation(orientation)`. -/
def spSetOrientation (sp : Nat) (orientation : Int) (layout : List Widget) :
    List Widget :=
  modifySplitterList sp (fun p => (orientation, p.2)) layout

/-- The call `sp->insertWidget(index, w)` for a widget `w` that has no parent splitter. -/
def spInsertWidget (sp : Nat) (index : Int) (w : Widget) (layout : List Widget) :
    List Widget :=
  modifySplitterList sp (fun p => (p.1, insertWidget index w p.2)) layout

/-- The call `sp->addWidget(w)` for a widget `w` that has no parent splitter. -/
def spAddWidget (sp : Nat) (w : Widget) (layout : List Widget) : List Widget :=
  modifySplitterList sp (fun p => (p.1, addWidget w p.2)) layout

/-- The call `sp->addWidget(w)` on a splitter that is not in the layout yet. -/
def Widget.addChild (sp : Widget) (w : Widget) : Widget :=
  match sp with
  | .splitter id o cs => .splitter id o (addWidget w cs)
  | .section id => .section id

/-! ## ContainerWidget -/

/-- A call through a `SectionWidget*` that changes the section. -/
def updateSection (id : Nat) (f : SectionWidget → SectionWidget) (l : List SectionWidget) :
    List SectionWidget :=
  l.map fun s => if s.id = id then f s else s

/-- The method `ContainerWidget::newSectionWidget`. -/
def ContainerWidget.newSectionWidget (c : ContainerWidget) : Nat × ContainerWidget :=
  (c.nextId,
   { c with _sections := c._sections ++ [SectionWidget.new c.nextId], nextId := c.nextId + 1 })

/-- The method `ContainerWidget::dropContentOuterHelper`, with the layout calls of the branch
for Qt 5 (`replaceWidget`). `none` is a call through the null pointer that
`findImmediateSplitter` returned. -/
def ContainerWidget.dropContentOuterHelper (c : ContainerWidget) (data : InternalContentData)
    (orientation : Int) (append : Bool) : Option (Nat × ContainerWidget) :=
  let n := c.newSectionWidget
  let sw := n.1
  let c1 := { n.2 with _sections := updateSection sw (fun s => s.addContent data true) n.2._sections }
  match findImmediateSplitter c1._mainLayout with
  | none => none
  | some (oldsp, o, cs) =>
      if o = orientation ∨ cs.length = 1 then
        let l1 := spSetOrientation oldsp orientation c1._mainLayout
        if append then
          some (sw, { c1 with _mainLayout := spAddWidget oldsp (.section sw) l1 })
        else
          some (sw, { c1 with _mainLayout := spInsertWidget oldsp 0 (.section sw) l1 })
      else
        let sp := c1.nextId
        let c2 := { c1 with nextId := c1.nextId + 1 }
        if append then
          let spw := ((newSplitter sp orientation).addChild (.splitter oldsp o cs)).addChild
            (.section sw)
          some (sw, { c2 with _mainLayout := replaceWidget oldsp spw c2._mainLayout })
        else
          let spw := ((newSplitter sp orientation).addChild (.section sw)).addChild
            (.splitter oldsp o cs)
          some (sw, { c2 with _mainLayout := replaceWidget oldsp spw c2._mainLayout })

/-- The branch of `dropContent` for a target whose parent splitter already has the
orientation of the drop: `targetSectionSplitter->insertWidget(index + offset, sw)`. -/
def ContainerWidget.dropSibling (c : ContainerWidget) (tss target sw : Nat) (offset : Int) :
    Option ContainerWidget :=
  match spIndexOf tss target c._mainLayout with
  | none => none
  | some index =>
      some { c with _mainLayout := spInsertWidget tss (index + offset) (.section sw)
                                     c._mainLayout }

/-- The method `ContainerWidget::dropContent`. The first component of the result is the
returned pointer (`none` is `NULL`); the result `none` is a call through a null pointer, or
through a target that is not one of the sections of the container. -/
def ContainerWidget.dropContent (c : ContainerWidget) (data : InternalContentData)
    (targetSection : Option Nat) (area : DropArea) (autoActive : Bool) :
    Option (Option Nat × ContainerWidget) :=
  match targetSection with
  | none =>
      -- Drop on outer area
      match area with
      | .TopDropArea =>
          (c.dropContentOuterHelper data Qt.Vertical false).map fun r => (none, r.2)
      | .RightDropArea =>
          (c.dropContentOuterHelper data Qt.Horizontal true).map fun r => (none, r.2)
      | .BottomDropArea =>
          (c.dropContentOuterHelper data Qt.Vertical true).map fun r => (none, r.2)
      | .LeftDropArea =>
          (c.dropContentOuterHelper data Qt.Horizontal false).map fun r => (none, r.2)
      | _ => some (none, c)
  | some target =>
      let targetSectionSplitter := findParentSplitterList target c._mainLayout
      match area with
      | .TopDropArea =>
          let n := c.newSectionWidget
          let sw := n.1
          let c1 := { n.2 with
            _sections := updateSection sw (fun s => s.addContent data true) n.2._sections }
          match targetSectionSplitter with
          | none => none
          | some tss =>
              match spOrientation tss c1._mainLayout with
              | none => none
              | some o =>
                  if o = Qt.Vertical then
                    (c1.dropSibling tss target sw 0).map fun c2 => (some sw, c2)
                  else
                    match spIndexOf tss target c1._mainLayout with
                    | none => none
                    | some index =>
                        let s := ((newSplitter c1.nextId Qt.Vertical).addChild
                          (.section sw)).addChild (.section target)
                        let l1 := removeWidgetList target c1._mainLayout
                        some (some sw, { c1 with
                          _mainLayout := spInsertWidget tss index s l1
                          nextId := c1.nextId + 1 })
      | .RightDropArea =>
          let n := c.newSectionWidget
          let sw := n.1
          let c1 := { n.2 with
            _sections := updateSection sw (fun s => s.addContent data true) n.2._sections }
          match targetSectionSplitter with
          | none => none
          | some tss =>
              match spOrientation tss c1._mainLayout with
              | none => none
              | some o =>
                  if o = Qt.Horizontal then
                    (c1.dropSibling tss target sw 1).map fun c2 => (some sw, c2)
                  else
                    match spIndexOf tss target c1._mainLayout with
                    | none => none
                    | some index =>
                        let s := ((newSplitter c1.nextId Qt.Horizontal).addChild
                          (.section target)).addChild (.section sw)
                        let l1 := removeWidgetList target c1._mainLayout
                        some (some sw, { c1 with
                          _mainLayout := spInsertWidget tss index s l1
                          nextId := c1.nextId + 1 })
      | .BottomDropArea =>
          let n := c.newSectionWidget
          let sw := n.1
          let c1 := { n.2 with
            _sections := updateSection sw (fun s => s.addContent data true) n.2._sections }
          match targetSectionSplitter with
          | none => none
          | some tss =>
              match spOrientation tss c1._mainLayout with
              | none => none
              | some o =>
                  if o = Qt.Vertical then
                    (c1.dropSibling tss target sw 1).map fun c2 => (some sw, c2)
                  else
                    match spIndexOf tss target c1._mainLayout with
                    | none => none
                    | some index =>
                        let s := ((newSplitter c1.nextId Qt.Vertical).addChild
                          (.section target)).addChild (.section sw)
                        let l1 := removeWidgetList target c1._mainLayout
                        some (some sw, { c1 with
                          _mainLayout := spInsertWidget tss index s l1
                          nextId := c1.nextId + 1 })
      | .LeftDropArea =>
          let n := c.newSectionWidget
          let sw := n.1
          let c1 := { n.2 with
            _sections := updateSection sw (fun s => s.addContent data true) n.2._sections }
          match targetSectionSplitter with
          | none => none
          | some tss =>
              match spOrientation tss c1._mainLayout with
              | none => none
              | some o =>
                  if o = Qt.Horizontal then
                    (c1.dropSibling tss target sw 0).map fun c2 => (some sw, c2)
                  else
                    let s := (newSplitter c1.nextId Qt.Horizontal).addChild (.section sw)
                    match spIndexOf tss target c1._mainLayout with
                    | none => none
                    | some index =>
                        let l1 := spInsertWidget tss index s c1._mainLayout
                        let l2 := removeWidgetList target l1
                        some (some sw, { c1 with
                          _mainLayout := spAddWidget c1.nextId (.section target) l2
                          nextId := c1.nextId + 1 })
      | .CenterDropArea =>
          if c._sections.any (fun s => s.id = target) then
            some (some target, { c with
              _sections := updateSection target (fun s => s.addContent data autoActive)
                c._sections })
          else none
      | _ => some (none, c)

/-- The method `ContainerWidget::addSection`. `none` is a call through a `_splitter` that
designates no splitter of the layout. -/
def ContainerWidget.addSection (c : ContainerWidget) (sw : Nat) : Option ContainerWidget :=
  let c1 : ContainerWidget :=
    match c._splitter with
    | some _ => c
    | none =>
        { c with
          _splitter := some c.nextId
          _mainLayout := c._mainLayout ++ [newSplitter c.nextId c._orientation]
          nextId := c.nextId + 1 }
  match c1._splitter with
  | none => none
  | some sp =>
      match spIndexOf sp sw c1._mainLayout with
      | none => none
      | some i =>
          if i ≠ -1 then some c1
          else
            some { c1 with
              _mainLayout := spAddWidget sp (.section sw)
                (removeWidgetList sw c1._mainLayout) }

/-- The method `ContainerWidget::addSectionContent`. -/
def ContainerWidget.addSectionContent (c : ContainerWidget) (sc : SectionContent)
    (sw : Option Nat) (area : DropArea) : Option (Option Nat × ContainerWidget) :=
  let r : Option (Option Nat × ContainerWidget) :=
    match sw with
    | some t => some (some t, c)
    | none =>
        if c._sections.isEmpty then
          let n := c.newSectionWidget
          (n.2.addSection n.1).map fun c2 => (some n.1, c2)
        else if area = .CenterDropArea then
          some (c._sections.head?.map fun s => s.id, c)
        else some (none, c)
  match r with
  | none => none
  | some (sw1, c1) =>
      c1.dropContent { content := sc, titleWidget := true, contentWidget := true } sw1 area false

/-- The first loop of `ContainerWidget::takeContent`: the sections are asked in order until
one of them holds the content. -/
def takeContentSections (uid : Int) :
    List SectionWidget → Option (InternalContentData × List SectionWidget)
  | [] => none
  | s :: rest =>
      match s.takeContent uid with
      | some (d, s') => some (d, s' :: rest)
      | none =>
          match takeContentSections uid rest with
          | some (d, rest') => some (d, s :: rest')
          | none => none

/-- The second loop of `ContainerWidget::takeContent`: `found` is the comparison of the
content ids, and `takeContent(data)` is called on every floating widget the loop visits. -/
def takeContentFloatings (uid : Int) (data : Option InternalContentData) :
    List FloatingWidget → Bool × Option InternalContentData × List FloatingWidget
  | [] => (false, data, [])
  | fw :: rest =>
      let found := decide (fw.content.uid = uid)
      let r := fw.takeContent
      if found then (true, some r.1, r.2 :: rest)
      else
        let q := takeContentFloatings uid (some r.1) rest
        (q.1, q.2.1, r.2 :: q.2.2)

/-- The method `ContainerWidget::takeContent(sc, data)`: the result, the value left in `data`
(`none` while it is still default constructed), and the container afterwards. -/
def ContainerWidget.takeContent (c : ContainerWidget) (sc : SectionContent) :
    Bool × Option InternalContentData × ContainerWidget :=
  match takeContentSections sc.uid c._sections with
  | some (d, secs) => (true, some d, { c with _sections := secs })
  | none =>
      let q := takeContentFloatings sc.uid none c._floatings
      (q.1, q.2.1, { c with _floatings := q.2.2 })

/-! ## Save -/

def writeNames : List InternalContentData → QByteArray
  | [] => []
  | d :: rest => writeQString d.content.uniqueName ++ writeNames rest

mutual
/-- The method `ContainerWidget::saveGeometryWalk` on a widget of the layout. `sizes` is the
result of `QSplitter::sizes` for each splitter, which the toolkit owns. A widget that is
neither a splitter nor one of the sections writes nothing. -/
def saveGeometryWalk (sizes : Nat → List Int) (secs : List SectionWidget) : Widget → QByteArray
  | .splitter id o cs =>
      writeInt32 1 ++ writeInt32 (if o = Qt.Horizontal then 1 else 2) ++ writeInt32 cs.length
        ++ writeIntList (sizes id) ++ saveGeometryWalkList sizes secs cs
  | .section id =>
      match secs.find? (fun s => s.id = id) with
      | some sw =>
          writeInt32 2 ++ writeInt32 sw.currentIndex ++ writeInt32 sw.contents.length
            ++ writeNames sw.contents
      | none => []
def saveGeometryWalkList (sizes : Nat → List Int) (secs : List SectionWidget) :
    List Widget → QByteArray
  | [] => []
  | w :: ws => saveGeometryWalk sizes secs w ++ saveGeometryWalkList sizes secs ws
end

def saveFloatings : List FloatingWidget → QByteArray
  | [] => []
  | fw :: rest =>
      writeQString fw.content.uniqueName ++ writeQByteArray fw.geometry ++ writeBool fw.visible
        ++ saveFloatings rest

/-- The method `ContainerWidget::saveState`, with the `int` counts of Qt 4 and Qt 5. -/
def ContainerWidget.saveState (sizes : Nat → List Int) (c : ContainerWidget) : QByteArray :=
  writeUInt32 0x00001337 ++ writeUInt32 1 ++ writeInt32 c._floatings.length
    ++ saveFloatings c._floatings ++ saveGeometryWalkList sizes c._sections c._mainLayout

/-! ## Restore -/

/-- The loop of `ContainerWidget::restoreFloatingWidgets`. `reg` is
`SectionContent::LookupMapByName`. `none` is the store through `data.titleWidget` when that
pointer is null. -/
def restoreFloatingLoop (reg : QString → Option SectionContent) :
    Nat → QByteArray → List FloatingWidget → ContainerWidget →
      Option (QByteArray × List FloatingWidget × ContainerWidget)
  | 0, inp, floatings, c => some (inp, floatings, c)
  | n + 1, inp, floatings, c =>
      let uname := readQString inp
      let geom := readQByteArray uname.2
      let visible := readBool geom.2
      match reg uname.1 with
      | none => restoreFloatingLoop reg n visible.2 floatings c
      | some sc =>
          let t := c.takeContent sc
          if t.1 then
            match t.2.1 with
            | none => none
            | some data =>
                if data.titleWidget then
                  let fw : FloatingWidget :=
                    { id := t.2.2.nextId, content := sc, titleWidget := data.titleWidget,
                      contentWidget := data.contentWidget, geometry := geom.1,
                      visible := visible.1 }
                  restoreFloatingLoop reg n visible.2 (floatings ++ [fw])
                    { t.2.2 with nextId := t.2.2.nextId + 1 }
                else none
          else restoreFloatingLoop reg n visible.2 floatings t.2.2

/-- The method `ContainerWidget::restoreFloatingWidgets`, called with an empty list: the
result, the stream, the list and the container afterwards. -/
def ContainerWidget.restoreFloatingWidgets (reg : QString → Option SectionContent)
    (inp : QByteArray) (c : ContainerWidget) :
    Option (Bool × QByteArray × List FloatingWidget × ContainerWidget) :=
  let fwCount := readInt32 inp
  if fwCount.1 ≤ 0 then some (true, fwCount.2, [], c)
  else
    (restoreFloatingLoop reg fwCount.1.toNat fwCount.2 [] c).map fun r => (true, r)

/-- What a call of `restoreSectionWidgets` reads and writes: the stream, the splitter that
`currentSplitter` points to (it is under construction, outside the layout), the list
`sections`, the container, and the detached splitter `_splitter` was set to. -/
structure RestoreFrame where
  inp : QByteArray
  currentSplitter : Option Widget
  sections : List SectionWidget
  c : ContainerWidget
  root : Option Widget

/-- The content loop of `restoreSectionWidgets` for a section. -/
def restoreContents (reg : QString → Option SectionContent) :
    Nat → QByteArray → SectionWidget → ContainerWidget →
      QByteArray × SectionWidget × ContainerWidget
  | 0, inp, sw, c => (inp, sw, c)
  | n + 1, inp, sw, c =>
      let uname := readQString inp
      match reg uname.1 with
      | none => restoreContents reg n uname.2 sw c
      | some sc =>
          let t := c.takeContent sc
          if t.1 then restoreContents reg n uname.2 (sw.addContentRef sc) t.2.2
          else restoreContents reg n uname.2 sw t.2.2

/-- The child loop of `restoreSectionWidgets` for a splitter: it returns false at the first
child that fails. -/
def restoreChildren (f : RestoreFrame → Option (Bool × RestoreFrame)) :
    Nat → RestoreFrame → Option (Bool × RestoreFrame)
  | 0, fr => some (true, fr)
  | n + 1, fr =>
      match f fr with
      | none => none
      | some (false, fr1) => some (false, fr1)
      | some (true, fr1) => restoreChildren f n fr1

/-- The method `ContainerWidget::restoreSectionWidgets`. The recursion follows the stream; the
first argument bounds its depth, and `none` is a depth beyond that bound. -/
def restoreSectionWidgets (reg : QString → Option SectionContent) :
    Nat → RestoreFrame → Option (Bool × RestoreFrame)
  | 0, _ => none
  | fuel + 1, fr =>
      let type := readInt32 fr.inp
      if type.1 = 1 then
        -- Splitter
        let orientation := readInt32 type.2
        let count := readInt32 orientation.2
        let sizes := readIntList count.2
        let sp := newSplitter fr.c.nextId orientation.1
        match restoreChildren (restoreSectionWidgets reg fuel) count.1.toNat
            { fr with
              inp := sizes.2
              currentSplitter := some sp
              c := { fr.c with nextId := fr.c.nextId + 1 } } with
        | none => none
        | some (false, fr1) => some (false, { fr1 with currentSplitter := fr.currentSplitter })
        | some (true, fr1) =>
            let spw := fr1.currentSplitter.getD sp
            match fr.currentSplitter with
            | none =>
                some (true, { fr1 with
                  currentSplitter := none
                  c := { fr1.c with _splitter := some spw.id }
                  root := some spw })
            | some cur => some (true, { fr1 with currentSplitter := some (cur.addChild spw) })
      else if type.1 = 2 then
        -- Section
        match fr.currentSplitter with
        | none => some (false, { fr with inp := type.2 })
        | some cur =>
            let currentIndex := readInt32 type.2
            let count := readInt32 currentIndex.2
            let sw := SectionWidget.new fr.c.nextId
            let r := restoreContents reg count.1.toNat count.2 sw
              { fr.c with nextId := fr.c.nextId + 1 }
            let sw1 := r.2.1.setCurrentIndex currentIndex.1
            some (true, { fr with
              inp := r.1
              currentSplitter := some (cur.addChild (.section sw1.id))
              sections := fr.sections ++ [sw1]
              c := r.2.2 })
      else
        -- Unknown
        some (true, { fr with inp := type.2 })

/-- The deletion of the old section widgets: a deleted widget leaves its parent. -/
def deleteSections (old : List SectionWidget) (layout : List Widget) : List Widget :=
  old.foldl (fun l s => removeWidgetList s.id l) layout

/-- The method `ContainerWidget::restoreState`. `reg` is `SectionContent::LookupMapByName`.
`none` is a call through a null or dangling pointer. The bound given to
`restoreSectionWidgets` is above the length of the stream, which its recursion never
exceeds (`restoreSectionWidgets_total`). -/
def ContainerWidget.restoreState (reg : QString → Option SectionContent) (data : QByteArray)
    (c : ContainerWidget) : Option (Bool × ContainerWidget) :=
  let magic := readUInt32 data
  if magic.1 ≠ 0x00001337 then some (false, c)
  else
    let version := readUInt32 magic.2
    if version.1 ≠ 1 then some (false, c)
    else
      let oldSections := c._sections
      -- Restore floating widgets
      match c.restoreFloatingWidgets reg version.2 with
      | none => none
      | some (_, in1, floatings, c1) =>
          -- Restore splitters and section widgets
          match restoreSectionWidgets reg (in1.length + 1)
              { inp := in1, currentSplitter := none, sections := [], c := c1, root := none } with
          | none => none
          | some (success, fr) =>
              let c2 := { fr.c with _floatings := floatings, _sections := fr.sections }
              -- takeAt(0)
              let old := c2._mainLayout.head?
              let l1 := c2._mainLayout.tail
              -- addWidget(_splitter)
              let l2 : Option (List Widget) :=
                match c2._splitter with
                | none => some l1
                | some sp =>
                    match findWidgetList sp (fr.root.toList ++ old.toList ++ l1) with
                    | none => none
                    | some w => some (removeWidgetList sp l1 ++ [w])
              match l2 with
              | none => none
              | some l2 =>
                  some (success, { c2 with _mainLayout := deleteSections oldSections l2 })

/-! ## Identities in the widget tree -/

mutual
/-- The identities of the widgets of a tree, parents first. -/
def Widget.ids : Widget → List Nat
  | .section id => [id]
  | .splitter id _ cs => id :: idsList cs
def idsList : List Widget → List Nat
  | [] => []
  | w :: ws => w.ids ++ idsList ws
end

mutual
/-- The identities of the splitters of a tree, parents first. -/
def Widget.splitterIds : Widget → List Nat
  | .section _ => []
  | .splitter id _ cs => id :: splitterIdsList cs
def splitterIdsList : List Widget → List Nat
  | [] => []
  | w :: ws => w.splitterIds ++ splitterIdsList ws
end

mutual
/-- No splitter of the tree has fewer than two children. -/
def Widget.noDegenerate : Widget → Prop
  | .section _ => True
  | .splitter _ _ cs => 2 ≤ cs.length ∧ noDegenerateList cs
def noDegenerateList : List Widget → Prop
  | [] => True
  | w :: ws => w.noDegenerate ∧ noDegenerateList ws
end


/-! ## Well-formed containers -/

/-- Object identities in the layout tree are distinct, and every identity in use is older
than the allocation counter. -/
structure ContainerWidget.WF (c : ContainerWidget) : Prop where
  nodup : (idsList c._mainLayout).Nodup
  fresh : ∀ i ∈ idsList c._mainLayout, i < c.nextId
  sectionsFresh : ∀ s ∈ c._sections, s.id < c.nextId

/-- The orientation of the splitter that a drop on the given edge asks for. -/
def DropArea.axis : DropArea → Int
  | .TopDropArea => Qt.Vertical
  | .BottomDropArea => Qt.Vertical
  | .LeftDropArea => Qt.Horizontal
  | .RightDropArea => Qt.Horizontal
  | _ => 0

/-- The edges on which the dropped content comes before the target. -/
def DropArea.before : DropArea → Bool
  | .TopDropArea => true
  | .LeftDropArea => true
  | _ => false

/-- The four edges of a directional drop. -/
def DropArea.directional : DropArea → Bool
  | .TopDropArea => true
  | .RightDropArea => true
  | .BottomDropArea => true
  | .LeftDropArea => true
  | _ => false

/-! ## Operations and reachable states -/

/-- The operations on a container. -/
inductive Op where
  | addSection (sw : Nat)
  | addSectionContent (sc : SectionContent) (sw : Option Nat) (area : DropArea)
  | dropContent (data : InternalContentData) (targetSection : Option Nat) (area : DropArea)
      (autoActive : Bool)
  | takeContent (sc : SectionContent)
  | restoreState (reg : QString → Option SectionContent) (data : QByteArray)

/-- The container after an operation; `none` when the operation goes through a null
pointer. -/
def ContainerWidget.step (c : ContainerWidget) : Op → Option ContainerWidget
  | .addSection sw => c.addSection sw
  | .addSectionContent sc sw area => (c.addSectionContent sc sw area).map fun r => r.2
  | .dropContent data target area autoActive =>
      (c.dropContent data target area autoActive).map fun r => r.2
  | .takeContent sc => some (c.takeContent sc).2.2
  | .restoreState reg data => (c.restoreState reg data).map fun r => r.2

/-- The drop operations and the take operation. -/
def Op.isDropOrTake : Op → Bool
  | .addSectionContent _ _ _ => true
  | .dropContent _ _ _ _ => true
  | .takeContent _ => true
  | _ => false

/-- The operations that build or replace the tree: addSection, the drop operations and
restoreState. -/
def Op.isBuild : Op → Bool
  | .addSection _ => true
  | .addSectionContent _ _ _ => true
  | .dropContent _ _ _ _ => true
  | .restoreState _ _ => true
  | _ => false

/-- The states reachable from the empty container by operations of the given kind. -/
inductive Reachable (allowed : Op → Bool) : ContainerWidget → Prop where
  | init : Reachable allowed ContainerWidget.new
  | step (c : ContainerWidget) (op : Op) (c' : ContainerWidget) :
      Reachable allowed c → allowed op = true → c.step op = some c' → Reachable allowed c'

/-- A widget that, if it is a splitter, has at least `k` children, and below which no splitter
has fewer than two. -/
def Widget.atLeast (k : Nat) : Widget → Prop
  | .section _ => True
  | .splitter _ _ cs => k ≤ cs.length ∧ noDegenerateList cs

/-- The layout is empty, or holds one top-level splitter with at least one child below which
no splitter has fewer than two children. -/
def ContainerWidget.treeOk (c : ContainerWidget) : Prop :=
  c._mainLayout = [] ∨
    ∃ id o cs, c._mainLayout = [.splitter id o cs] ∧ 1 ≤ cs.length ∧ noDegenerateList cs

/-- The degeneracy invariant as the specification words it: no split node has fewer than two
children, except a top-level split node without any child. -/
def ContainerWidget.degeneracyInvariant (c : ContainerWidget) : Prop :=
  ∀ w ∈ c._mainLayout, w.noDegenerate ∨ ∃ id o, w = .splitter id o []

/-- The invariant of the states reached by drop and take operations. -/
structure ContainerWidget.Inv (c : ContainerWidget) : Prop where
  wf : c.WF
  empty : c._sections = [] → c._mainLayout = [] ∧ c._splitter = none
  tree : c.treeOk

/-! ## Example states -/

/-- A content with the given id, named by the one code unit of the same value. -/
def exampleContent (n : Nat) : SectionContent :=
  { uid := n, uniqueName := [⟨n % 65536, Nat.mod_lt _ (by decide)⟩] }

def exampleData (n : Nat) : InternalContentData :=
  { content := exampleContent n, titleWidget := true, contentWidget := true }

/-- A registry that resolves the names of the contents 0 to 9. -/
def exampleRegistry : QString → Option SectionContent
  | [x] => if x.val < 10 then some (exampleContent x.val) else none
  | _ => none

/-- The container after the first content is dropped onto the empty container. -/
def firstDrop : ContainerWidget :=
  { _mainLayout := [.splitter 1 Qt.Horizontal [.section 0]]
    _orientation := Qt.Horizontal
    _splitter := some 1
    _sections := [{ id := 0, contents := [exampleData 1], currentIndex := 0 }]
    _floatings := []
    nextId := 2 }

/-- A container with two sections side by side. -/
def twoSections : ContainerWidget :=
  { _mainLayout := [.splitter 1 Qt.Horizontal [.section 0, .section 2]]
    _orientation := Qt.Horizontal
    _splitter := some 1
    _sections := [{ id := 0, contents := [exampleData 1], currentIndex := 0 },
                  { id := 2, contents := [exampleData 2], currentIndex := 0 }]
    _floatings := []
    nextId := 3 }

/-- A container without sections that holds two floating widgets. -/
def twoFloatings : ContainerWidget :=
  { _mainLayout := []
    _orientation := Qt.Horizontal
    _splitter := none
    _sections := []
    _floatings :=
      [{ id := 0, content := exampleContent 1, titleWidget := true, contentWidget := true,
         geometry := [], visible := true },
       { id := 1, content := exampleContent 2, titleWidget := true, contentWidget := true,
         geometry := [], visible := true }]
    nextId := 2 }

/-- The container after three contents are added: the first into the default section, the
second against the right boundary, the third against the top boundary. -/
def staleRoot : ContainerWidget :=
  { _mainLayout :=
      [.splitter 4 Qt.Vertical
        [.section 3, .splitter 1 Qt.Horizontal [.section 0, .section 2]]]
    _orientation := Qt.Horizontal
    _splitter := some 1
    _sections := [{ id := 0, contents := [exampleData 1], currentIndex := 0 },
                  { id := 2, contents := [exampleData 2], currentIndex := 0 },
                  { id := 3, contents := [exampleData 3], currentIndex := 0 }]
    _floatings := []
    nextId := 5 }

/-- A container whose one section holds the contents 3, 1 and 2 as tabs, the last one
current. -/
def threeTabs : ContainerWidget :=
  { _mainLayout := [.splitter 1 Qt.Horizontal [.section 0]]
    _orientation := Qt.Horizontal
    _splitter := some 1
    _sections :=
      [{ id := 0, contents := [exampleData 3, exampleData 1, exampleData 2],
         currentIndex := 2 }]
    _floatings := []
    nextId := 2 }

/-- The root pointer invariant: when the layout holds a top-level splitter, the field
`_splitter` designates it. -/
def ContainerWidget.rootPointerInvariant (c : ContainerWidget) : Prop :=
  ∀ id o cs, c._mainLayout.head? = some (.splitter id o cs) → c._splitter = some id

/-! ## Contents held by the sections -/

/-- The content triples of the sections, section by section in tab order. -/
def allContents : List SectionWidget → List InternalContentData
  | [] => []
  | s :: rest => s.contents ++ allContents rest

/-- Some section holds a content with the given id. -/
def holdsContent (secs : List SectionWidget) (uid : Int) : Prop :=
  ∃ d ∈ allContents secs, d.content.uid = uid

/-- A container saved with two floating widgets; the registry of the examples does not
resolve the name of the second one. -/
def savedWithFloatings : ContainerWidget :=
  { _mainLayout := [.splitter 1 Qt.Horizontal [.section 0]]
    _orientation := Qt.Horizontal
    _splitter := some 1
    _sections := [{ id := 0, contents := [exampleData 3], currentIndex := 0 }]
    _floatings :=
      [{ id := 5, content := exampleContent 1, titleWidget := true, contentWidget := true,
         geometry := [], visible := true },
       { id := 6, content := exampleContent 11, titleWidget := true, contentWidget := true,
         geometry := [], visible := false }]
    nextId := 7 }

/-! ## The round trip of the layout -/

/-- The layout as the round trip observes it: the orientation and the children of every
split node in order, the current index and the contents in tab order of every section. -/
inductive Shape where
  | section (currentIndex : Int) (contents : List SectionContent)
  | splitter (orientation : Int) (children : List Shape)
  | other

mutual
/-- The shape of a widget, its sections looked up in the given list. -/
def Widget.shape (secs : List SectionWidget) : Widget → Shape
  | .section id =>
      match secs.find? (fun s => s.id = id) with
      | some sw => .section sw.currentIndex sw.contentRefs
      | none => .other
  | .splitter _ o cs => .splitter o (shapeList secs cs)
def shapeList (secs : List SectionWidget) : List Widget → List Shape
  | [] => []
  | w :: ws => w.shape secs :: shapeList secs ws
end

mutual
/-- The content triples that `saveGeometryWalk` names, in the order it writes them. -/
def Widget.savedContents (secs : List SectionWidget) : Widget → List InternalContentData
  | .section id =>
      match secs.find? (fun s => s.id = id) with
      | some sw => sw.contents
      | none => []
  | .splitter _ _ cs => savedContentsList secs cs
def savedContentsList (secs : List SectionWidget) : List Widget → List InternalContentData
  | [] => []
  | w :: ws => w.savedContents secs ++ savedContentsList secs ws
end

mutual
/-- Every section below the widget is one of the given sections, and every value that
`saveGeometryWalk` writes fits the machine type the source gives it: counts and indices are
`int`, the byte count of a `QString` is a `quint32` below the null marker. -/
def Widget.wellTyped (sizes : Nat → List Int) (secs : List SectionWidget) : Widget → Prop
  | .section id =>
      match secs.find? (fun s => s.id = id) with
      | some sw =>
          sw.contents.length < 2147483648 ∧
          (-2147483648 ≤ sw.currentIndex ∧ sw.currentIndex < 2147483648) ∧
          ∀ d ∈ sw.contents, 2 * d.content.uniqueName.length < 4294967295
      | none => False
  | .splitter id _ cs =>
      cs.length < 2147483648 ∧ (sizes id).length < 4294967296 ∧
      (∀ v ∈ sizes id, -2147483648 ≤ v ∧ v < 2147483648) ∧ wellTypedList sizes secs cs
def wellTypedList (sizes : Nat → List Int) (secs : List SectionWidget) : List Widget → Prop
  | [] => True
  | w :: ws => w.wellTyped sizes secs ∧ wellTypedList sizes secs ws
end

mutual
/-- Every splitter below the widget has one of the two values of `Qt::Orientation`. -/
def Widget.validOrientation : Widget → Prop
  | .section _ => True
  | .splitter _ o cs => (o = Qt.Horizontal ∨ o = Qt.Vertical) ∧ validOrientationList cs
def validOrientationList : List Widget → Prop
  | [] => True
  | w :: ws => w.validOrientation ∧ validOrientationList ws
end

/-- The current index of a section is within bounds, or -1 when the section is empty. -/
def SectionWidget.validIndex (sw : SectionWidget) : Prop :=
  (sw.contents = [] ∧ sw.currentIndex = -1) ∨
    (0 ≤ sw.currentIndex ∧ sw.currentIndex < sw.contents.length)

/-- The sections after a successful or failed `takeContent` of the given content id. -/
def sectionsAfterTake (uid : Int) (secs : List SectionWidget) : List SectionWidget :=
  match takeContentSections uid secs with
  | some (_, secs') => secs'
  | none => secs

/-- The sections after the contents with the given ids are taken one after the other. -/
def takeAll (uids : List Int) (secs : List SectionWidget) : List SectionWidget :=
  uids.foldl (fun s u => sectionsAfterTake u s) secs

/-- The section that `restoreSectionWidgets` builds from the saved form of a section. -/
def restoredSection (n : Nat) (sw : SectionWidget) : SectionWidget :=
  (sw.contents.foldl (fun s d => s.addContentRef d.content)
    (SectionWidget.new n)).setCurrentIndex sw.currentIndex

mutual
/-- The widget that `restoreSectionWidgets` builds from the saved form of a widget, the
sections it creates, and the allocation counter afterwards. -/
def Widget.rebuild (secs : List SectionWidget) : Widget → Nat → Widget × List SectionWidget × Nat
  | .section id, n =>
      match secs.find? (fun s => s.id = id) with
      | some sw => (.section n, [restoredSection n sw], n + 1)
      | none => (.section n, [], n + 1)
  | .splitter _ o cs, n =>
      let r := rebuildList secs cs (n + 1)
      (.splitter n (if o = Qt.Horizontal then 1 else 2) r.1, r.2.1, r.2.2)
def rebuildList (secs : List SectionWidget) :
    List Widget → Nat → List Widget × List SectionWidget × Nat
  | [], n => ([], [], n)
  | w :: ws, n =>
      let a := w.rebuild secs n
      let b := rebuildList secs ws a.2.2
      (a.1 :: b.1, a.2.1 ++ b.2.1, b.2.2)
end

/-! ## Theorems -/

theorem Widget.rec2 {P : Widget → Prop} {Q : List Widget → Prop}
    (hs : ∀ id, P (.section id)) (hsp : ∀ id o cs, Q cs → P (.splitter id o cs))
    (hnil : Q []) (hcons : ∀ w ws, P w → Q ws → Q (w :: ws)) :
    (∀ w, P w) ∧ (∀ l, Q l) :=
  ⟨fun w => Widget.rec (motive_1 := P) (motive_2 := Q) hs (fun id o cs h => hsp id o cs h) hnil
      (fun w ws h1 h2 => hcons w ws h1 h2) w,
   fun l => Widget.rec_1 (motive_1 := P) (motive_2 := Q) hs (fun id o cs h => hsp id o cs h) hnil
      (fun w ws h1 h2 => hcons w ws h1 h2) l⟩

@[simp] theorem idsList_nil : idsList [] = [] := by simp [idsList]
@[simp] theorem idsList_cons (w : Widget) (ws : List Widget) :
    idsList (w :: ws) = w.ids ++ idsList ws := by simp [idsList]
@[simp] theorem ids_section (id : Nat) : (Widget.section id).ids = [id] := by simp [Widget.ids]
@[simp] theorem ids_splitter (id : Nat) (o : Int) (cs : List Widget) :
    (Widget.splitter id o cs).ids = id :: idsList cs := by simp [Widget.ids]

theorem idsList_append (a b : List Widget) : idsList (a ++ b) = idsList a ++ idsList b := by
  induction a with
  | nil => simp
  | cons w ws ih => simp [ih]

theorem id_mem_ids (w : Widget) : w.id ∈ w.ids := by
  cases w <;> simp [Widget.id]

theorem findSplitter_modify (sid : Nat) (f : Int × List Widget → Int × List Widget) :
    (∀ w : Widget, (w.modifySplitter sid f).findSplitter sid = (w.findSplitter sid).map f) ∧
    (∀ l : List Widget,
      findSplitterList sid (modifySplitterList sid f l) = (findSplitterList sid l).map f) := by
  apply Widget.rec2
  · intro id; simp [Widget.modifySplitter, Widget.findSplitter]
  · intro id o cs ih
    by_cases h : id = sid
    · simp [Widget.modifySplitter, Widget.findSplitter, h]
    · simp [Widget.modifySplitter, Widget.findSplitter, h, ih]
  · simp [modifySplitterList, findSplitterList]
  · intro w ws ihw ihws
    simp only [modifySplitterList, findSplitterList, ihw]
    cases h : w.findSplitter sid <;> simp [ihws]

theorem removeWidget_of_not_mem (t : Nat) :
    (∀ w : Widget, t ∉ w.ids → w.removeWidget t = w) ∧
    (∀ l : List Widget, t ∉ idsList l → removeWidgetList t l = l) := by
  apply Widget.rec2
  · intro id _; simp [Widget.removeWidget]
  · intro id o cs ih h
    simp at h
    simp [Widget.removeWidget, ih h.2]
  · intro _; simp [removeWidgetList]
  · intro w ws ihw ihws h
    simp at h
    have hw : w.id ≠ t := fun e => h.1 (e ▸ id_mem_ids w)
    simp [removeWidgetList, hw, ihw h.1, ihws h.2]

theorem findSplitter_of_not_mem (sid : Nat) :
    (∀ w : Widget, sid ∉ w.ids → w.findSplitter sid = none) ∧
    (∀ l : List Widget, sid ∉ idsList l → findSplitterList sid l = none) := by
  apply Widget.rec2
  · intro id _; simp [Widget.findSplitter]
  · intro id o cs ih h
    simp at h
    simp [Widget.findSplitter, h.1, ih h.2]
    exact fun e => h.1 e.symm
  · intro _; simp [findSplitterList]
  · intro w ws ihw ihws h
    simp at h
    simp [findSplitterList, ihw h.1, ihws h.2]

theorem modifySplitter_of_none (sid : Nat) (f : Int × List Widget → Int × List Widget) :
    (∀ w : Widget, w.findSplitter sid = none → w.modifySplitter sid f = w) ∧
    (∀ l : List Widget, findSplitterList sid l = none → modifySplitterList sid f l = l) := by
  apply Widget.rec2
  · intro id _; simp [Widget.modifySplitter]
  · intro id o cs ih h
    by_cases e : id = sid
    · simp [Widget.findSplitter, e] at h
    · simp [Widget.findSplitter, e] at h
      simp [Widget.modifySplitter, e, ih h]
  · intro _; simp [modifySplitterList]
  · intro w ws ihw ihws h
    simp only [findSplitterList] at h
    cases hw : w.findSplitter sid with
    | some r => simp [hw] at h
    | none =>
      simp [hw] at h
      simp [modifySplitterList, ihw hw, ihws h]

theorem modifySplitterList_of_not_mem (sid : Nat) (f : Int × List Widget → Int × List Widget)
    (l : List Widget) (h : sid ∉ idsList l) : modifySplitterList sid f l = l :=
  (modifySplitter_of_none sid f).2 l ((findSplitter_of_not_mem sid).2 l h)

/-- The children of a splitter found in a tree lie strictly below the root of that tree. -/
theorem findSplitter_mem (sid : Nat) (o : Int) (cs : List Widget) :
    (∀ w : Widget, w.findSplitter sid = some (o, cs) →
      sid ∈ w.ids ∧ ∀ t ∈ idsList cs, t ∈ w.ids ∧ (w.ids.Nodup → t ≠ w.id ∧ t ≠ sid)) ∧
    (∀ l : List Widget, findSplitterList sid l = some (o, cs) →
      sid ∈ idsList l ∧ ∀ t ∈ idsList cs, t ∈ idsList l ∧ ((idsList l).Nodup → t ≠ sid)) := by
  apply Widget.rec2
  · intro id h; simp [Widget.findSplitter] at h
  · intro id o' cs' ih h
    by_cases e : id = sid
    · simp [Widget.findSplitter, e] at h
      obtain ⟨rfl, rfl⟩ := h
      subst e
      refine ⟨by simp, fun t ht => ⟨by simp [ht], fun nd => ?_⟩⟩
      simp at nd
      have : t ≠ id := fun e => nd.1 (e ▸ ht)
      exact ⟨by simpa [Widget.id] using this, this⟩
    · simp [Widget.findSplitter, e] at h
      obtain ⟨h1, h2⟩ := ih h
      refine ⟨by simp [h1], fun t ht => ⟨by simp [(h2 t ht).1], fun nd => ?_⟩⟩
      simp at nd
      refine ⟨?_, (h2 t ht).2 nd.2⟩
      intro e'
      simp [Widget.id] at e'
      exact nd.1 (e' ▸ (h2 t ht).1)
  · intro h; simp [findSplitterList] at h
  · intro w ws ihw ihws h
    simp only [findSplitterList] at h
    cases hw : w.findSplitter sid with
    | some r =>
      simp [hw] at h
      subst h
      obtain ⟨h1, h2⟩ := ihw hw
      refine ⟨by simp [h1], fun t ht => ⟨by simp [(h2 t ht).1], fun nd => ?_⟩⟩
      simp [List.nodup_append] at nd
      exact ((h2 t ht).2 nd.1).2
    | none =>
      simp [hw] at h
      obtain ⟨h1, h2⟩ := ihws h
      refine ⟨by simp [h1], fun t ht => ⟨by simp [(h2 t ht).1], fun nd => ?_⟩⟩
      simp [List.nodup_append] at nd
      exact (h2 t ht).2 nd.2.1

theorem modifySplitter_comp (sid : Nat) (f g : Int × List Widget → Int × List Widget) :
    (∀ w : Widget, (w.modifySplitter sid f).modifySplitter sid g
        = w.modifySplitter sid (fun p => g (f p))) ∧
    (∀ l : List Widget, modifySplitterList sid g (modifySplitterList sid f l)
        = modifySplitterList sid (fun p => g (f p)) l) := by
  apply Widget.rec2
  · intro id; simp [Widget.modifySplitter]
  · intro id o cs ih
    by_cases e : id = sid
    · simp [Widget.modifySplitter, e]
    · simp [Widget.modifySplitter, e, ih]
  · simp [modifySplitterList]
  · intro w ws ihw ihws
    simp [modifySplitterList, ihw, ihws]

theorem length_modifySplitterList (sid : Nat) (f : Int × List Widget → Int × List Widget)
    (l : List Widget) : (modifySplitterList sid f l).length = l.length := by
  induction l with
  | nil => simp [modifySplitterList]
  | cons w ws ih => simp [modifySplitterList, ih]

/-- An edit of one splitter changes the identities of the tree only below that splitter. -/
theorem ids_modify (sid : Nat) (o : Int) (cs : List Widget) :
    (∀ w : Widget, w.ids.Nodup → w.findSplitter sid = some (o, cs) →
      ∃ R, w.ids.Perm (R ++ idsList cs) ∧
        ∀ f, (w.modifySplitter sid f).ids.Perm (R ++ idsList (f (o, cs)).2)) ∧
    (∀ l : List Widget, (idsList l).Nodup → findSplitterList sid l = some (o, cs) →
      ∃ R, (idsList l).Perm (R ++ idsList cs) ∧
        ∀ f, (idsList (modifySplitterList sid f l)).Perm (R ++ idsList (f (o, cs)).2)) := by
  apply Widget.rec2
  · intro id _ h; simp [Widget.findSplitter] at h
  · intro id o' cs' ih nd h
    by_cases e : id = sid
    · simp [Widget.findSplitter, e] at h
      obtain ⟨rfl, rfl⟩ := h
      refine ⟨[id], by simp, fun f => ?_⟩
      simp [Widget.modifySplitter, e]
    · simp [Widget.findSplitter, e] at h
      simp at nd
      obtain ⟨R, h1, h2⟩ := ih nd.2 h
      refine ⟨id :: R, by simpa using h1, fun f => ?_⟩
      simpa [Widget.modifySplitter, e] using h2 f
  · intro _ h; simp [findSplitterList] at h
  · intro w ws ihw ihws nd h
    simp only [findSplitterList] at h
    simp [List.nodup_append] at nd
    cases hw : w.findSplitter sid with
    | some r =>
      simp [hw] at h
      subst h
      obtain ⟨R, h1, h2⟩ := ihw nd.1 hw
      have hs : sid ∉ idsList ws := fun hm => nd.2.2 ((findSplitter_mem sid o cs).1 w hw).1 hm
      refine ⟨R ++ idsList ws, ?_, fun f => ?_⟩
      · simp only [idsList_cons]
        refine (List.Perm.append_right _ h1).trans ?_
        simp only [List.append_assoc]
        exact List.Perm.append_left _ List.perm_append_comm
      · simp only [modifySplitterList, idsList_cons, modifySplitterList_of_not_mem sid f ws hs]
        refine (List.Perm.append_right _ (h2 f)).trans ?_
        simp only [List.append_assoc]
        exact List.Perm.append_left _ List.perm_append_comm
    | none =>
      simp [hw] at h
      obtain ⟨R, h1, h2⟩ := ihws nd.2.1 h
      refine ⟨w.ids ++ R, ?_, fun f => ?_⟩
      · simp only [idsList_cons, List.append_assoc]
        exact List.Perm.append_left _ h1
      · simp only [modifySplitterList, idsList_cons, (modifySplitter_of_none sid f).1 w hw,
          List.append_assoc]
        exact List.Perm.append_left _ (h2 f)

/-- A widget that leaves a splitter found in the tree leaves the tree through that splitter. -/
theorem removeWidget_focus (sid : Nat) (o : Int) (cs : List Widget) (t : Nat)
    (ht : t ∈ idsList cs) :
    (∀ w : Widget, w.ids.Nodup → w.findSplitter sid = some (o, cs) →
      w.removeWidget t = w.modifySplitter sid (fun p => (p.1, removeWidgetList t p.2))) ∧
    (∀ l : List Widget, (idsList l).Nodup → findSplitterList sid l = some (o, cs) →
      removeWidgetList t l = modifySplitterList sid (fun p => (p.1, removeWidgetList t p.2)) l) := by
  apply Widget.rec2
  · intro id _ h; simp [Widget.findSplitter] at h
  · intro id o' cs' ih nd h
    by_cases e : id = sid
    · simp [Widget.findSplitter, e] at h
      simp [Widget.removeWidget, Widget.modifySplitter, e]
    · simp [Widget.findSplitter, e] at h
      simp at nd
      simp [Widget.removeWidget, Widget.modifySplitter, e, ih nd.2 h]
  · intro _ h; simp [findSplitterList] at h
  · intro w ws ihw ihws nd h
    simp only [findSplitterList] at h
    have nd' := nd
    simp [List.nodup_append] at nd
    cases hw : w.findSplitter sid with
    | some r =>
      simp [hw] at h
      subst h
      obtain ⟨h1, h2⟩ := (findSplitter_mem sid o cs).1 w hw
      have hs : sid ∉ idsList ws := fun hm => nd.2.2 h1 hm
      have htw : t ∉ idsList ws := fun hm => nd.2.2 (h2 t ht).1 hm
      have hid : w.id ≠ t := fun e => ((h2 t ht).2 nd.1).1 e.symm
      simp [removeWidgetList, modifySplitterList, hid, ihw nd.1 hw,
        modifySplitterList_of_not_mem sid _ ws hs, (removeWidget_of_not_mem t).2 ws htw]
    | none =>
      simp [hw] at h
      obtain ⟨h1, h2⟩ := (findSplitter_mem sid o cs).2 ws h
      have htw : t ∉ w.ids := fun hm => nd.2.2 hm (h2 t ht).1
      have hid : w.id ≠ t := fun e => htw (e ▸ id_mem_ids w)
      simp [removeWidgetList, modifySplitterList, hid, ihws nd.2.1 h,
        (modifySplitter_of_none sid _).1 w hw, (removeWidget_of_not_mem t).1 w htw]

/-- An edit of a splitter below a splitter found in the tree is an edit of the children of
the latter. -/
theorem modifySplitter_focus (sid : Nat) (o : Int) (cs : List Widget) (n : Nat)
    (g : Int × List Widget → Int × List Widget) (hn : n ∈ idsList cs) :
    (∀ w : Widget, w.ids.Nodup → w.findSplitter sid = some (o, cs) →
      w.modifySplitter n g = w.modifySplitter sid (fun p => (p.1, modifySplitterList n g p.2))) ∧
    (∀ l : List Widget, (idsList l).Nodup → findSplitterList sid l = some (o, cs) →
      modifySplitterList n g l
        = modifySplitterList sid (fun p => (p.1, modifySplitterList n g p.2)) l) := by
  apply Widget.rec2
  · intro id _ h; simp [Widget.findSplitter] at h
  · intro id o' cs' ih nd h
    by_cases e : id = sid
    · simp [Widget.findSplitter, e] at h
      obtain ⟨rfl, rfl⟩ := h
      subst e
      simp at nd
      have : id ≠ n := fun e => nd.1 (e ▸ hn)
      simp [Widget.modifySplitter, this]
    · simp [Widget.findSplitter, e] at h
      have hne := (((findSplitter_mem sid o cs).1 _
        (show (Widget.splitter id o' cs').findSplitter sid = some (o, cs) by
          simp [Widget.findSplitter, e, h])).2 n hn).2 nd
      simp [Widget.id] at hne
      simp at nd
      have : id ≠ n := fun e => hne.1 e.symm
      simp [Widget.modifySplitter, e, this, ih nd.2 h]
  · intro _ h; simp [findSplitterList] at h
  · intro w ws ihw ihws nd h
    simp only [findSplitterList] at h
    simp [List.nodup_append] at nd
    cases hw : w.findSplitter sid with
    | some r =>
      simp [hw] at h
      subst h
      obtain ⟨h1, h2⟩ := (findSplitter_mem sid o cs).1 w hw
      have hs : sid ∉ idsList ws := fun hm => nd.2.2 h1 hm
      have htw : n ∉ idsList ws := fun hm => nd.2.2 (h2 n hn).1 hm
      simp [modifySplitterList, ihw nd.1 hw,
        modifySplitterList_of_not_mem sid _ ws hs, modifySplitterList_of_not_mem n _ ws htw]
    | none =>
      simp [hw] at h
      obtain ⟨h1, h2⟩ := (findSplitter_mem sid o cs).2 ws h
      have htw : n ∉ w.ids := fun hm => nd.2.2 hm (h2 n hn).1
      simp [modifySplitterList, ihws nd.2.1 h,
        (modifySplitter_of_none sid _).1 w hw,
        (modifySplitter_of_none n _).1 w ((findSplitter_of_not_mem n).1 w htw)]

theorem indexOf_ge (t : Nat) (cs : List Widget) : -1 ≤ indexOf t cs := by
  induction cs with
  | nil => simp [indexOf]
  | cons w ws ih =>
    simp only [indexOf]
    split
    · omega
    · split <;> omega

theorem indexOf_append_cons (t : Nat) (pre : List Widget) (c : Widget) (post : List Widget)
    (hpre : ∀ x ∈ pre, x.id ≠ t) (hc : c.id = t) :
    indexOf t (pre ++ c :: post) = pre.length := by
  induction pre with
  | nil => simp [indexOf, hc]
  | cons w ws ih =>
    have hw : w.id ≠ t := hpre w (by simp)
    have h1 := ih (fun x hx => hpre x (by simp [hx]))
    have h2 : indexOf t (w :: (ws ++ c :: post)) = (ws.length : Int) + 1 := by
      simp only [indexOf, hw, if_false, h1]
      split <;> omega
    simpa using h2

theorem indexOf_split (t : Nat) (cs : List Widget) (h : indexOf t cs ≠ -1) :
    ∃ pre c post, cs = pre ++ c :: post ∧ c.id = t ∧ ∀ x ∈ pre, x.id ≠ t := by
  induction cs with
  | nil => simp [indexOf] at h
  | cons w ws ih =>
    by_cases hw : w.id = t
    · exact ⟨[], w, ws, by simp, hw, by simp⟩
    · simp only [indexOf, hw, if_false] at h
      have h' : indexOf t ws ≠ -1 := by
        intro e; simp [e] at h
      obtain ⟨pre, c, post, h1, h2, h3⟩ := ih h'
      refine ⟨w :: pre, c, post, by simp [h1], h2, ?_⟩
      intro x hx
      simp at hx
      rcases hx with rfl | hx
      · exact hw
      · exact h3 x hx

theorem insertWidget_length (pre post : List Widget) (w : Widget) :
    insertWidget (pre.length : Int) w (pre ++ post) = pre ++ w :: post := by
  simp [insertWidget]

theorem insertWidget_length_succ (pre post : List Widget) (c w : Widget) :
    insertWidget ((pre.length : Int) + 1) w (pre ++ c :: post) = pre ++ c :: w :: post := by
  have h : ((pre.length : Int) + 1).toNat = (pre ++ [c]).length := by simp
  have h2 : (pre.length : Int) + 1 ≤ ((pre ++ c :: post).length : Int) := by
    simp
  have h3 : (0 : Int) ≤ (pre.length : Int) + 1 := by omega
  have e : pre ++ c :: post = (pre ++ [c]) ++ post := by simp
  simp only [insertWidget, h2, h3, and_self, if_true]
  rw [h, e, List.take_left, List.drop_left]
  simp

theorem updateSection_new (secs : List SectionWidget) (n : Nat)
    (f : SectionWidget → SectionWidget) (h : ∀ s ∈ secs, s.id ≠ n) :
    updateSection n f (secs ++ [SectionWidget.new n]) = secs ++ [f (SectionWidget.new n)] := by
  simp only [updateSection, List.map_append, List.map_cons, List.map_nil, SectionWidget.new,
    if_true]
  congr 1
  induction secs with
  | nil => rfl
  | cons s ss ih =>
    have hs : s.id ≠ n := h s (by simp)
    simp only [List.map_cons, hs, if_false]
    rw [ih (fun x hx => h x (by simp [hx]))]

theorem splitterIds_modify (sid : Nat) (f : Int × List Widget → Int × List Widget)
    (hf : ∀ p, splitterIdsList (f p).2 = splitterIdsList p.2) :
    (∀ w : Widget, (w.modifySplitter sid f).splitterIds = w.splitterIds) ∧
    (∀ l : List Widget, splitterIdsList (modifySplitterList sid f l) = splitterIdsList l) := by
  apply Widget.rec2
  · intro id; simp [Widget.modifySplitter]
  · intro id o cs ih
    by_cases e : id = sid
    · simp [Widget.modifySplitter, e, Widget.splitterIds, hf]
    · simp [Widget.modifySplitter, e, Widget.splitterIds, ih]
  · simp [modifySplitterList]
  · intro w ws ihw ihws
    simp [modifySplitterList, splitterIdsList, ihw, ihws]

theorem splitterIdsList_append (a b : List Widget) :
    splitterIdsList (a ++ b) = splitterIdsList a ++ splitterIdsList b := by
  induction a with
  | nil => simp [splitterIdsList]
  | cons w ws ih => simp [splitterIdsList, ih]

theorem splitterIdsList_insertWidget (index : Int) (n : Nat) (cs : List Widget) :
    splitterIdsList (insertWidget index (.section n) cs) = splitterIdsList cs := by
  unfold insertWidget
  split
  · rw [show (Widget.section n :: List.drop index.toNat cs)
        = [Widget.section n] ++ List.drop index.toNat cs from rfl,
      splitterIdsList_append, splitterIdsList_append]
    simp only [splitterIdsList, Widget.splitterIds, List.nil_append, List.append_nil]
    rw [← splitterIdsList_append, List.take_append_drop]
  · rw [splitterIdsList_append]
    simp [splitterIdsList, Widget.splitterIds]

theorem children_nodup (sid : Nat) (o : Int) (cs l : List Widget) (nd : (idsList l).Nodup)
    (h : findSplitterList sid l = some (o, cs)) : (idsList cs).Nodup := by
  obtain ⟨R, h1, _⟩ := (ids_modify sid o cs).2 l nd h
  have := (h1.nodup_iff).1 nd
  exact (List.nodup_append.1 this).2.1

theorem pre_ne_of_nodup (pre post : List Widget) (c : Widget)
    (nd : (idsList (pre ++ c :: post)).Nodup) : ∀ x ∈ pre, x.id ≠ c.id := by
  intro x hx e
  rw [idsList_append, idsList_cons] at nd
  have h1 : x.id ∈ idsList pre := by
    obtain ⟨a, b, rfl⟩ := List.append_of_mem hx
    rw [idsList_append, idsList_cons]
    simp [id_mem_ids]
  have h2 : c.id ∈ c.ids ++ idsList post := by simp [id_mem_ids]
  exact (List.nodup_append.1 nd).2.2 h1 (e ▸ h2)

theorem addContent_new (n : Nat) (data : InternalContentData) :
    (SectionWidget.new n).addContent data true
      = { id := n, contents := [data], currentIndex := 0 } := by
  simp [SectionWidget.addContent, SectionWidget.new]

/-- The sibling branch of a directional drop, once the parent splitter is known. -/
theorem dropSibling_spec (c : ContainerWidget) (tss target sw : Nat) (o : Int)
    (pre post : List Widget) (offset : Int)
    (nd : (idsList c._mainLayout).Nodup) (hoff : offset = 0 ∨ offset = 1)
    (hsp : findSplitterList tss c._mainLayout = some (o, pre ++ .section target :: post)) :
    ∃ c', c.dropSibling tss target sw offset = some c' ∧
      c'._sections = c._sections ∧ c'._floatings = c._floatings ∧
      c'._splitter = c._splitter ∧ c'.nextId = c.nextId ∧
      splitterIdsList c'._mainLayout = splitterIdsList c._mainLayout ∧
      findSplitterList tss c'._mainLayout = some (o,
        if offset = 0 then pre ++ .section sw :: .section target :: post
        else pre ++ .section target :: .section sw :: post) := by
  have hpre := pre_ne_of_nodup pre post (.section target)
    (children_nodup tss o _ _ nd hsp)
  have hidx : indexOf target (pre ++ .section target :: post) = pre.length :=
    indexOf_append_cons target pre _ post hpre rfl
  refine ⟨{ c with
    _mainLayout :=
      spInsertWidget tss ((pre.length : Int) + offset) (.section sw) c._mainLayout },
    ?_, rfl, rfl, rfl, rfl, ?_, ?_⟩
  · simp [ContainerWidget.dropSibling, spIndexOf, hsp, hidx]
  · simp only [spInsertWidget]
    exact (splitterIds_modify tss _ (fun p => splitterIdsList_insertWidget _ _ _)).2 _
  · simp only [spInsertWidget, (findSplitter_modify tss _).2, hsp, Option.map_some']
    rcases hoff with rfl | rfl
    · simp [insertWidget_length]
    · simp [insertWidget_length_succ]

theorem removeWidgetList_append (t : Nat) (a b : List Widget) :
    removeWidgetList t (a ++ b) = removeWidgetList t a ++ removeWidgetList t b := by
  induction a with
  | nil => simp [removeWidgetList]
  | cons w ws ih =>
    by_cases h : w.id = t <;> simp [removeWidgetList, h, ih]

theorem modifySplitterList_append (n : Nat) (g : Int × List Widget → Int × List Widget)
    (a b : List Widget) :
    modifySplitterList n g (a ++ b) = modifySplitterList n g a ++ modifySplitterList n g b := by
  induction a with
  | nil => simp [modifySplitterList]
  | cons w ws ih => simp [modifySplitterList, ih]

theorem not_mem_pre_post (pre post : List Widget) (c : Widget)
    (nd : (idsList (pre ++ c :: post)).Nodup) :
    c.id ∉ idsList pre ∧ c.id ∉ idsList post := by
  rw [idsList_append, idsList_cons] at nd
  have h := List.nodup_append.1 nd
  have h2 := List.nodup_append.1 h.2.1
  exact ⟨fun hm => h.2.2 hm (by simp [id_mem_ids]), fun hm => h2.2.2 (id_mem_ids c) hm⟩

theorem removeWidgetList_child (pre post : List Widget) (c : Widget)
    (nd : (idsList (pre ++ c :: post)).Nodup) :
    removeWidgetList c.id (pre ++ c :: post) = pre ++ post := by
  obtain ⟨h1, h2⟩ := not_mem_pre_post pre post c nd
  rw [removeWidgetList_append, (removeWidget_of_not_mem c.id).2 pre h1]
  simp [removeWidgetList, (removeWidget_of_not_mem c.id).2 post h2]

/-- The local wrap of a target: the target leaves its parent and the new splitter takes its
slot; both are edits of the parent's child list. -/
theorem wrap_eq (l : List Widget) (tss : Nat) (o : Int) (pre post : List Widget) (c s : Widget)
    (index : Int) (nd : (idsList l).Nodup)
    (hsp : findSplitterList tss l = some (o, pre ++ c :: post)) :
    spInsertWidget tss index s (removeWidgetList c.id l)
      = modifySplitterList tss
          (fun p => (p.1, insertWidget index s (removeWidgetList c.id p.2))) l := by
  have ht : c.id ∈ idsList (pre ++ c :: post) := by
    rw [idsList_append, idsList_cons]; simp [id_mem_ids]
  rw [(removeWidget_focus tss o _ c.id ht).2 l nd hsp, spInsertWidget,
    (modifySplitter_comp tss _ _).2]

theorem nodup_modify (l : List Widget) (sid : Nat) (o : Int) (cs : List Widget)
    (f : Int × List Widget → Int × List Widget) (nd : (idsList l).Nodup)
    (h : findSplitterList sid l = some (o, cs))
    (hnew : ∀ x ∈ idsList (f (o, cs)).2, x ∈ idsList cs ∨ x ∉ idsList l)
    (hnd : (idsList (f (o, cs)).2).Nodup) :
    (idsList (modifySplitterList sid f l)).Nodup := by
  obtain ⟨R, h1, h2⟩ := (ids_modify sid o cs).2 l nd h
  rw [(h2 f).nodup_iff]
  have nd' := (h1.nodup_iff).1 nd
  obtain ⟨r1, _, r3⟩ := List.nodup_append.1 nd'
  refine List.nodup_append.2 ⟨r1, hnd, ?_⟩
  intro x hx hx'
  rcases hnew x hx' with h3 | h3
  · exact r3 hx h3
  · exact h3 (h1.mem_iff.2 (by simp [hx]))

theorem mem_ids_modify (l : List Widget) (sid : Nat) (o : Int) (cs : List Widget)
    (f : Int × List Widget → Int × List Widget) (nd : (idsList l).Nodup)
    (h : findSplitterList sid l = some (o, cs)) (x : Nat)
    (hx : x ∈ idsList (modifySplitterList sid f l)) :
    x ∈ idsList l ∨ x ∈ idsList (f (o, cs)).2 := by
  obtain ⟨R, h1, h2⟩ := (ids_modify sid o cs).2 l nd h
  have := (h2 f).mem_iff.1 hx
  simp at this
  rcases this with h3 | h3
  · exact Or.inl (h1.mem_iff.2 (by simp [h3]))
  · exact Or.inr h3

theorem mem_children_ids (l : List Widget) (sid : Nat) (o : Int) (cs : List Widget)
    (h : findSplitterList sid l = some (o, cs)) : ∀ x ∈ idsList cs, x ∈ idsList l :=
  fun x hx => (((findSplitter_mem sid o cs).2 l h).2 x hx).1

/-- An edit of a splitter only depends on what it does to the splitter found in the tree. -/
theorem modifySplitter_congr (sid : Nat) (p : Int × List Widget)
    (f g : Int × List Widget → Int × List Widget) (hfg : f p = g p) :
    (∀ w : Widget, w.ids.Nodup → w.findSplitter sid = some p →
      w.modifySplitter sid f = w.modifySplitter sid g) ∧
    (∀ l : List Widget, (idsList l).Nodup → findSplitterList sid l = some p →
      modifySplitterList sid f l = modifySplitterList sid g l) := by
  apply Widget.rec2
  · intro id _ h; simp [Widget.findSplitter] at h
  · intro id o' cs' ih nd h
    by_cases e : id = sid
    · simp [Widget.findSplitter, e] at h
      subst h
      simp [Widget.modifySplitter, e, hfg]
    · simp [Widget.findSplitter, e] at h
      simp at nd
      simp [Widget.modifySplitter, e, ih nd.2 h]
  · intro _ h; simp [findSplitterList] at h
  · intro w ws ihw ihws nd h
    simp only [findSplitterList] at h
    simp [List.nodup_append] at nd
    cases hw : w.findSplitter sid with
    | some r =>
      simp [hw] at h
      subst h
      have hs : sid ∉ idsList ws :=
        fun hm => nd.2.2 ((findSplitter_mem sid r.1 r.2).1 w hw).1 hm
      simp [modifySplitterList, ihw nd.1 hw, modifySplitterList_of_not_mem sid _ ws hs]
    | none =>
      simp [hw] at h
      simp [modifySplitterList, ihws nd.2.1 h, (modifySplitter_of_none sid _).1 w hw]

/-- The wrap of a target as a single replacement of the parent's children. -/
theorem wrap_const (l : List Widget) (tss : Nat) (o : Int) (pre post : List Widget)
    (c s : Widget) (nd : (idsList l).Nodup)
    (hsp : findSplitterList tss l = some (o, pre ++ c :: post)) :
    spInsertWidget tss (pre.length : Int) s (removeWidgetList c.id l)
      = modifySplitterList tss (fun _ => (o, pre ++ s :: post)) l := by
  rw [wrap_eq l tss o pre post c s _ nd hsp]
  refine (modifySplitter_congr tss (o, pre ++ c :: post) _ _ ?_).2 l nd hsp
  have ndc := children_nodup tss o _ l nd hsp
  simp only [removeWidgetList_child pre post c ndc, insertWidget_length]

/-- The wrap of the branch for the left edge, where the new splitter enters the parent before
the target moves into it, as a single replacement of the parent's children. -/
theorem wrap_left_const (l : List Widget) (tss : Nat) (o : Int) (pre post : List Widget)
    (c : Widget) (n sw : Nat) (ax : Int) (nd : (idsList l).Nodup)
    (hsp : findSplitterList tss l = some (o, pre ++ c :: post))
    (hn : n ∉ idsList l) (hsw : sw ∉ idsList l) (hne : n ≠ sw) :
    spAddWidget n (.section c.id)
        (removeWidgetList c.id
          (spInsertWidget tss (pre.length : Int) (.splitter n ax [.section sw]) l))
      = modifySplitterList tss
          (fun _ => (o, pre ++ .splitter n ax [.section sw, .section c.id] :: post)) l := by
  have ndc := children_nodup tss o _ l nd hsp
  have hsub := mem_children_ids l tss o _ hsp
  have hcl : c.id ∈ idsList l := hsub _ (by rw [idsList_append, idsList_cons]; simp [id_mem_ids])
  have hcn : c.id ≠ n := fun e => hn (e ▸ hcl)
  have hcs : c.id ≠ sw := fun e => hsw (e ▸ hcl)
  obtain ⟨hp1, hp2⟩ := not_mem_pre_post pre post c ndc
  have hnpre : n ∉ idsList pre := fun hm => hn (hsub _ (by rw [idsList_append]; simp [hm]))
  have hnpost : n ∉ idsList post :=
    fun hm => hn (hsub _ (by rw [idsList_append, idsList_cons]; simp [hm]))
  have hswpre : sw ∉ idsList pre := fun hm => hsw (hsub _ (by rw [idsList_append]; simp [hm]))
  have hswpost : sw ∉ idsList post :=
    fun hm => hsw (hsub _ (by rw [idsList_append, idsList_cons]; simp [hm]))
  -- the splitter enters the parent
  set s1 : Widget := .splitter n ax [.section sw] with hs1
  set F1 : Int × List Widget → Int × List Widget :=
    fun p => (p.1, insertWidget (pre.length : Int) s1 p.2) with hF1
  have e1 : spInsertWidget tss (pre.length : Int) s1 l = modifySplitterList tss F1 l := rfl
  have hsp1 : findSplitterList tss (modifySplitterList tss F1 l)
      = some (o, pre ++ s1 :: c :: post) := by
    rw [(findSplitter_modify tss F1).2, hsp]
    simp [hF1, insertWidget_length]
  have nd1 : (idsList (modifySplitterList tss F1 l)).Nodup := by
    refine nodup_modify l tss o _ F1 nd hsp ?_ ?_
    · intro x hx
      simp only [hF1, insertWidget_length, idsList_append, idsList_cons, hs1, ids_splitter,
        ids_section, idsList_nil, List.append_nil, List.mem_append, List.mem_cons] at hx
      simp only [idsList_append, idsList_cons, List.mem_append]
      rcases hx with hx | (hx | hx | hx) | hx | hx
      · exact Or.inl (Or.inl hx)
      · exact Or.inr (hx ▸ hn)
      · exact Or.inr (hx ▸ hsw)
      · simp at hx
      · exact Or.inl (Or.inr (Or.inl hx))
      · exact Or.inl (Or.inr (Or.inr hx))
    · simp only [hF1, insertWidget_length, idsList_append, idsList_cons, hs1, ids_splitter,
        ids_section, idsList_nil, List.append_nil]
      rw [idsList_append, idsList_cons] at ndc
      rw [List.nodup_append] at ndc ⊢
      refine ⟨ndc.1, ?_, ?_⟩
      · simp only [List.cons_append, List.nil_append, List.nodup_cons, List.mem_cons,
          List.mem_append, not_or]
        refine ⟨⟨hne, fun h => hn (hsub _ ?_), hnpost⟩, ⟨fun h => hsw (hsub _ ?_), hswpost⟩,
          ndc.2.1⟩
        · rw [idsList_append, idsList_cons]; simp [h]
        · rw [idsList_append, idsList_cons]; simp [h]
      · intro x hx hx'
        simp only [List.cons_append, List.nil_append, List.mem_cons, List.mem_append] at hx'
        rcases hx' with rfl | rfl | hx'
        · exact hnpre hx
        · exact hswpre hx
        · exact ndc.2.2 hx (by simpa using hx')
  -- the target leaves the parent
  have ht1 : c.id ∈ idsList (pre ++ s1 :: c :: post) := by
    rw [idsList_append, idsList_cons, idsList_cons]; simp [id_mem_ids]
  have e2 := (removeWidget_focus tss o _ c.id ht1).2 _ nd1 hsp1
  have hrem : removeWidgetList c.id (pre ++ s1 :: c :: post) = pre ++ s1 :: post := by
    rw [removeWidgetList_append, (removeWidget_of_not_mem c.id).2 pre hp1]
    have h5 : s1.id ≠ c.id := by simp [hs1, Widget.id]; exact fun e => hcn e.symm
    have h6 : c.id ∉ s1.ids := by simp [hs1, hcn, hcs]
    simp [removeWidgetList, h5, (removeWidget_of_not_mem c.id).1 s1 h6,
      (removeWidget_of_not_mem c.id).2 post hp2]
  set F2 : Int × List Widget → Int × List Widget :=
    fun p => (p.1, removeWidgetList c.id p.2) with hF2
  have hsp2 : findSplitterList tss (modifySplitterList tss F2 (modifySplitterList tss F1 l))
      = some (o, pre ++ s1 :: post) := by
    rw [(findSplitter_modify tss F2).2, hsp1]
    simp [hF2, hrem]
  have nd2 : (idsList (modifySplitterList tss F2 (modifySplitterList tss F1 l))).Nodup := by
    refine nodup_modify _ tss o _ F2 nd1 hsp1 ?_ ?_
    · intro x hx
      simp only [hF2, hrem] at hx
      left
      rw [idsList_append, idsList_cons] at hx
      rw [idsList_append, idsList_cons, idsList_cons]
      simp only [List.mem_append] at hx ⊢
      tauto
    · simp only [hF2, hrem]
      have := children_nodup tss o _ _ nd1 hsp1
      rw [idsList_append, idsList_cons, idsList_cons] at this
      rw [idsList_append, idsList_cons]
      rw [List.nodup_append] at this ⊢
      refine ⟨this.1, ?_, fun x hx hx' => this.2.2 hx ?_⟩
      · have t2 := this.2.1
        rw [List.nodup_append] at t2 ⊢
        refine ⟨t2.1, (List.nodup_append.1 t2.2.1).2.1, fun x hx hx' => t2.2.2 hx ?_⟩
        simp [hx']
      · simp only [List.mem_append] at hx' ⊢
        tauto
  -- the target enters the new splitter
  have hn2 : n ∈ idsList (pre ++ s1 :: post) := by
    rw [idsList_append, idsList_cons]; simp [hs1]
  set G : Int × List Widget → Int × List Widget :=
    fun p => (p.1, addWidget (.section c.id) p.2) with hG
  have e3 := (modifySplitter_focus tss o _ n G hn2).2 _ nd2 hsp2
  rw [e1, e2, spAddWidget, e3, (modifySplitter_comp tss _ _).2, (modifySplitter_comp tss _ _).2]
  refine (modifySplitter_congr tss (o, pre ++ c :: post) _ _ ?_).2 l nd hsp
  simp only [hF1, hF2, insertWidget_length, hrem, modifySplitterList_append,
    modifySplitterList_of_not_mem n _ pre hnpre]
  simp [modifySplitterList, hs1, Widget.modifySplitter, addWidget, hG,
    modifySplitterList_of_not_mem n _ post hnpost]

/-- C5: a directional drop on a target whose parent split node already has the orientation of
the drop axis creates no split node; the parent's children afterwards are the old ones with
one new Section, holding only the dropped content, immediately before the target for Top and
Left and immediately after it for Bottom and Right. -/
theorem dropContent_matching_orientation (c : ContainerWidget) (data : InternalContentData)
    (target tss : Nat) (o : Int) (pre post : List Widget) (area : DropArea) (autoActive : Bool)
    (hwf : c.WF) (hdir : area.directional = true)
    (hpar : findParentSplitterList target c._mainLayout = some tss)
    (hsp : findSplitterList tss c._mainLayout = some (o, pre ++ .section target :: post))
    (ho : o = area.axis) :
    ∃ c', c.dropContent data (some target) area autoActive = some (some c.nextId, c') ∧
      c'._sections
        = c._sections ++ [{ id := c.nextId, contents := [data], currentIndex := 0 }] ∧
      splitterIdsList c'._mainLayout = splitterIdsList c._mainLayout ∧
      findSplitterList tss c'._mainLayout = some (o,
        if area.before then pre ++ .section c.nextId :: .section target :: post
        else pre ++ .section target :: .section c.nextId :: post) := by
  have h' : ∀ s ∈ c._sections, s.id ≠ c.nextId :=
    fun s hs => Nat.ne_of_lt (hwf.sectionsFresh s hs)
  subst ho
  cases area <;> simp [DropArea.directional] at hdir
  · -- Top
    obtain ⟨c', h1, h2, _, _, _, h3, h4⟩ := dropSibling_spec
      { c with
        _sections := c._sections ++ [{ id := c.nextId, contents := [data], currentIndex := 0 }]
        nextId := c.nextId + 1 } tss target c.nextId _ pre post 0 hwf.nodup (Or.inl rfl) hsp
    refine ⟨c', ?_, h2, h3, by simpa [DropArea.before] using h4⟩
    simp only [ContainerWidget.dropContent, ContainerWidget.newSectionWidget, hpar,
      spOrientation, hsp, Option.map_some', updateSection_new _ _ _ h', addContent_new,
      DropArea.axis, if_true, h1]
  · -- Right
    obtain ⟨c', h1, h2, _, _, _, h3, h4⟩ := dropSibling_spec
      { c with
        _sections := c._sections ++ [{ id := c.nextId, contents := [data], currentIndex := 0 }]
        nextId := c.nextId + 1 } tss target c.nextId _ pre post 1 hwf.nodup (Or.inr rfl) hsp
    refine ⟨c', ?_, h2, h3, by simpa [DropArea.before] using h4⟩
    simp only [ContainerWidget.dropContent, ContainerWidget.newSectionWidget, hpar,
      spOrientation, hsp, Option.map_some', updateSection_new _ _ _ h', addContent_new,
      DropArea.axis, if_true, h1]
  · -- Bottom
    obtain ⟨c', h1, h2, _, _, _, h3, h4⟩ := dropSibling_spec
      { c with
        _sections := c._sections ++ [{ id := c.nextId, contents := [data], currentIndex := 0 }]
        nextId := c.nextId + 1 } tss target c.nextId _ pre post 1 hwf.nodup (Or.inr rfl) hsp
    refine ⟨c', ?_, h2, h3, by simpa [DropArea.before] using h4⟩
    simp only [ContainerWidget.dropContent, ContainerWidget.newSectionWidget, hpar,
      spOrientation, hsp, Option.map_some', updateSection_new _ _ _ h', addContent_new,
      DropArea.axis, if_true, h1]
  · -- Left
    obtain ⟨c', h1, h2, _, _, _, h3, h4⟩ := dropSibling_spec
      { c with
        _sections := c._sections ++ [{ id := c.nextId, contents := [data], currentIndex := 0 }]
        nextId := c.nextId + 1 } tss target c.nextId _ pre post 0 hwf.nodup (Or.inl rfl) hsp
    refine ⟨c', ?_, h2, h3, by simpa [DropArea.before] using h4⟩
    simp only [ContainerWidget.dropContent, ContainerWidget.newSectionWidget, hpar,
      spOrientation, hsp, Option.map_some', updateSection_new _ _ _ h', addContent_new,
      DropArea.axis, if_true, h1]

/-- The layout after a directional drop on a target whose parent has another orientation:
the parent's children are replaced once, the new split node taking the target's slot. -/
theorem dropContent_wrap_layout (c : ContainerWidget) (data : InternalContentData)
    (target tss : Nat) (o : Int) (pre post : List Widget) (t : Widget) (area : DropArea)
    (autoActive : Bool) (hwf : c.WF) (hdir : area.directional = true) (ht : t.id = target)
    (hpar : findParentSplitterList target c._mainLayout = some tss)
    (hsp : findSplitterList tss c._mainLayout = some (o, pre ++ t :: post))
    (ho : o ≠ area.axis) :
    c.dropContent data (some target) area autoActive = some (some c.nextId,
      { c with
        _mainLayout := modifySplitterList tss (fun _ => (o, pre ++
          .splitter (c.nextId + 1) area.axis
            (if area.before then [.section c.nextId, .section target]
             else [.section target, .section c.nextId]) :: post)) c._mainLayout
        _sections := c._sections ++ [{ id := c.nextId, contents := [data], currentIndex := 0 }]
        nextId := c.nextId + 1 + 1 }) := by
  have h' : ∀ s ∈ c._sections, s.id ≠ c.nextId :=
    fun s hs => Nat.ne_of_lt (hwf.sectionsFresh s hs)
  have hpre : ∀ x ∈ pre, x.id ≠ target := by
    have := pre_ne_of_nodup pre post t (children_nodup tss o _ _ hwf.nodup hsp)
    rwa [ht] at this
  have hidx : indexOf target (pre ++ t :: post) = pre.length :=
    indexOf_append_cons target pre _ post hpre ht
  have hw := fun s => wrap_const c._mainLayout tss o pre post t s hwf.nodup hsp
  simp only [ht] at hw
  have hn : c.nextId + 1 ∉ idsList c._mainLayout :=
    fun hm => absurd (hwf.fresh _ hm) (by omega)
  have hsw : c.nextId ∉ idsList c._mainLayout :=
    fun hm => absurd (hwf.fresh _ hm) (by omega)
  have hwl := wrap_left_const c._mainLayout tss o pre post t (c.nextId + 1) c.nextId
    Qt.Horizontal hwf.nodup hsp hn hsw (by omega)
  simp only [ht] at hwl
  cases area <;> simp [DropArea.directional] at hdir
  · simp only [DropArea.axis] at ho
    simp only [ContainerWidget.dropContent, ContainerWidget.newSectionWidget, hpar,
      spOrientation, hsp, Option.map_some', updateSection_new _ _ _ h', addContent_new,
      if_neg ho, spIndexOf, hidx, newSplitter, Widget.addChild, addWidget, List.nil_append,
      List.cons_append, hw, DropArea.axis, DropArea.before, if_true]
  · simp only [DropArea.axis] at ho
    simp only [ContainerWidget.dropContent, ContainerWidget.newSectionWidget, hpar,
      spOrientation, hsp, Option.map_some', updateSection_new _ _ _ h', addContent_new,
      if_neg ho, spIndexOf, hidx, newSplitter, Widget.addChild, addWidget, List.nil_append,
      List.cons_append, hw, DropArea.axis, DropArea.before]
    simp
  · simp only [DropArea.axis] at ho
    simp only [ContainerWidget.dropContent, ContainerWidget.newSectionWidget, hpar,
      spOrientation, hsp, Option.map_some', updateSection_new _ _ _ h', addContent_new,
      if_neg ho, spIndexOf, hidx, newSplitter, Widget.addChild, addWidget, List.nil_append,
      List.cons_append, hw, DropArea.axis, DropArea.before]
    simp
  · simp only [DropArea.axis] at ho
    simp only [ContainerWidget.dropContent, ContainerWidget.newSectionWidget, hpar,
      spOrientation, hsp, Option.map_some', updateSection_new _ _ _ h', addContent_new,
      if_neg ho, spIndexOf, hidx, newSplitter, Widget.addChild, addWidget, List.nil_append,
      List.cons_append, hwl, DropArea.axis, DropArea.before, if_true]

/-- C6: a directional drop on a target at index i of a parent split node whose orientation
differs from the drop axis leaves the parent with the same number of children; its child at
index i is a new split node of the drop axis's orientation with exactly the two children
[new Section, target] for Top and Left and [target, new Section] for Bottom and Right, and
every other child of the parent is unchanged and in the same position. -/
theorem dropContent_other_orientation (c : ContainerWidget) (data : InternalContentData)
    (target tss : Nat) (o : Int) (pre post : List Widget) (area : DropArea) (autoActive : Bool)
    (hwf : c.WF) (hdir : area.directional = true)
    (hpar : findParentSplitterList target c._mainLayout = some tss)
    (hsp : findSplitterList tss c._mainLayout = some (o, pre ++ .section target :: post))
    (ho : o ≠ area.axis) :
    ∃ c', c.dropContent data (some target) area autoActive = some (some c.nextId, c') ∧
      c'._sections
        = c._sections ++ [{ id := c.nextId, contents := [data], currentIndex := 0 }] ∧
      findSplitterList tss c'._mainLayout = some (o,
        pre ++ .splitter (c.nextId + 1) area.axis
          (if area.before then [.section c.nextId, .section target]
           else [.section target, .section c.nextId]) :: post) := by
  refine ⟨_, dropContent_wrap_layout c data target tss o pre post (.section target) area
    autoActive hwf hdir rfl hpar hsp ho, rfl, ?_⟩
  simp only [(findSplitter_modify tss _).2, hsp, Option.map_some']

/-- The container after a drop against the outer boundary of a container whose layout holds
one top-level splitter. -/
theorem dropContent_outer_layout (c : ContainerWidget) (data : InternalContentData)
    (area : DropArea) (autoActive : Bool) (oldsp : Nat) (o : Int) (cs : List Widget)
    (hsec : ∀ s ∈ c._sections, s.id < c.nextId) (hdir : area.directional = true)
    (hl : c._mainLayout = [.splitter oldsp o cs]) :
    c.dropContent data none area autoActive = some (none,
      { c with
        _mainLayout :=
          if cs.length = 1 ∨ o = area.axis then
            [.splitter oldsp area.axis
              (if area.before then .section c.nextId :: cs else cs ++ [.section c.nextId])]
          else
            [.splitter (c.nextId + 1) area.axis
              (if area.before then [.section c.nextId, .splitter oldsp o cs]
               else [.splitter oldsp o cs, .section c.nextId])]
        _sections := c._sections ++ [{ id := c.nextId, contents := [data], currentIndex := 0 }]
        nextId := if cs.length = 1 ∨ o = area.axis then c.nextId + 1 else c.nextId + 1 + 1 }) := by
  have h' : ∀ s ∈ c._sections, s.id ≠ c.nextId := fun s hs => Nat.ne_of_lt (hsec s hs)
  have hins : ∀ w : Widget, insertWidget 0 w cs = w :: cs := by
    intro w; simp [insertWidget]
  by_cases hc : o = area.axis ∨ cs.length = 1
  · have hc' : cs.length = 1 ∨ o = area.axis := hc.symm
    cases area <;> simp [DropArea.directional] at hdir <;>
      simp only [DropArea.axis] at hc hc' <;>
      simp only [ContainerWidget.dropContent, ContainerWidget.dropContentOuterHelper,
        ContainerWidget.newSectionWidget, hl, findImmediateSplitter, hc, hc',
        updateSection_new _ _ _ h', addContent_new, spSetOrientation, spAddWidget,
        spInsertWidget, modifySplitterList, Widget.modifySplitter, addWidget, hins,
        DropArea.axis, DropArea.before, if_true, Option.map_some'] <;>
      simp
  · have hc' : ¬ (cs.length = 1 ∨ o = area.axis) := fun h => hc h.symm
    cases area <;> simp [DropArea.directional] at hdir <;>
      simp only [DropArea.axis] at hc hc' <;>
      simp only [ContainerWidget.dropContent, ContainerWidget.dropContentOuterHelper,
        ContainerWidget.newSectionWidget, hl, findImmediateSplitter, hc, hc',
        updateSection_new _ _ _ h', addContent_new, replaceWidget, Widget.id, newSplitter,
        Widget.addChild, addWidget, DropArea.axis, DropArea.before, if_true, if_false,
        Option.map_some'] <;>
      simp

/-- C7: an outer-boundary drop on a container with a top-level split node. If that node has
exactly one child or already has the drop axis's orientation, its orientation becomes the
drop axis's and the new Section is inserted at index 0 (Top, Left) or appended (Right,
Bottom), and no split node is created; otherwise a new top-level split node of the drop
axis's orientation takes the old node's place, with the two children [new Section, old node]
for Top and Left and [old node, new Section] for Right and Bottom. -/
theorem dropContent_outer_boundary (c : ContainerWidget) (data : InternalContentData)
    (area : DropArea) (autoActive : Bool) (oldsp : Nat) (o : Int) (cs : List Widget)
    (hsec : ∀ s ∈ c._sections, s.id < c.nextId) (hdir : area.directional = true)
    (hl : c._mainLayout = [.splitter oldsp o cs]) :
    ∃ c', c.dropContent data none area autoActive = some (none, c') ∧
      c'._sections
        = c._sections ++ [{ id := c.nextId, contents := [data], currentIndex := 0 }] ∧
      c'._mainLayout =
        if cs.length = 1 ∨ o = area.axis then
          [.splitter oldsp area.axis
            (if area.before then .section c.nextId :: cs else cs ++ [.section c.nextId])]
        else
          [.splitter (c.nextId + 1) area.axis
            (if area.before then [.section c.nextId, .splitter oldsp o cs]
             else [.splitter oldsp o cs, .section c.nextId])] :=
  ⟨_, dropContent_outer_layout c data area autoActive oldsp o cs hsec hdir hl, rfl, rfl⟩

theorem dropContent_outer_boundary_witness :
    ∃ c', (ContainerWidget.mk [.splitter 1 1 [.section 0, .section 2]] 1 (some 1)
        [⟨0, [], -1⟩, ⟨2, [], -1⟩] [] 3).dropContent ⟨⟨7, []⟩, true, true⟩ none
          .TopDropArea false = some (none, c') ∧
      c'._sections = [⟨0, [], -1⟩, ⟨2, [], -1⟩] ++ [⟨3, [⟨⟨7, []⟩, true, true⟩], 0⟩] ∧
      c'._mainLayout =
        if [Widget.section 0, .section 2].length = 1 ∨ (1 : Int) = DropArea.TopDropArea.axis then
          [.splitter 1 DropArea.TopDropArea.axis
            (if DropArea.TopDropArea.before then .section 3 :: [.section 0, .section 2]
             else [.section 0, .section 2] ++ [.section 3])]
        else
          [.splitter (3 + 1) DropArea.TopDropArea.axis
            (if DropArea.TopDropArea.before
             then [.section 3, .splitter 1 1 [.section 0, .section 2]]
             else [.splitter 1 1 [.section 0, .section 2], .section 3])] :=
  dropContent_outer_boundary
    (ContainerWidget.mk [.splitter 1 1 [.section 0, .section 2]] 1 (some 1)
      [⟨0, [], -1⟩, ⟨2, [], -1⟩] [] 3)
    ⟨⟨7, []⟩, true, true⟩ .TopDropArea false 1 1 [.section 0, .section 2]
    (by decide) rfl rfl

/-! ### The degeneracy invariant -/

theorem noDegenerateList_append (a b : List Widget) :
    noDegenerateList (a ++ b) ↔ noDegenerateList a ∧ noDegenerateList b := by
  induction a with
  | nil => simp [noDegenerateList]
  | cons w ws ih => simp [noDegenerateList, ih, and_assoc]

theorem findParentSplitter_spec (t tss : Nat) :
    (∀ w : Widget, w.ids.Nodup → w.findParentSplitter t = some tss →
      ∃ o cs, w.findSplitter tss = some (o, cs) ∧ indexOf t cs ≠ -1) ∧
    (∀ l : List Widget, (idsList l).Nodup → findParentSplitterList t l = some tss →
      ∃ o cs, findSplitterList tss l = some (o, cs) ∧ indexOf t cs ≠ -1) := by
  apply Widget.rec2
  · intro id _ h; simp [Widget.findParentSplitter] at h
  · intro id o cs ih nd h
    simp only [Widget.findParentSplitter] at h
    by_cases hi : indexOf t cs ≠ -1
    · simp [hi] at h
      subst h
      exact ⟨o, cs, by simp [Widget.findSplitter], hi⟩
    · simp [hi] at h
      simp at nd
      obtain ⟨o', cs', h1, h2⟩ := ih nd.2 h
      have hm := ((findSplitter_mem tss o' cs').2 cs h1).1
      have hne : id ≠ tss := fun e => nd.1 (e ▸ hm)
      exact ⟨o', cs', by simp [Widget.findSplitter, hne, h1], h2⟩
  · intro _ h; simp [findParentSplitterList] at h
  · intro w ws ihw ihws nd h
    simp only [findParentSplitterList] at h
    simp [List.nodup_append] at nd
    cases hw : w.findParentSplitter t with
    | some r =>
      simp [hw] at h
      subst h
      obtain ⟨o', cs', h1, h2⟩ := ihw nd.1 hw
      exact ⟨o', cs', by simp [findSplitterList, h1], h2⟩
    | none =>
      simp [hw] at h
      obtain ⟨o', cs', h1, h2⟩ := ihws nd.2.1 h
      have hm := ((findSplitter_mem tss o' cs').2 ws h1).1
      have hn : tss ∉ w.ids := fun hx => nd.2.2 hx hm
      exact ⟨o', cs', by simp [findSplitterList, (findSplitter_of_not_mem tss).1 w hn, h1], h2⟩

/-- Replacing the children of one splitter by at least as many children, themselves free of
degenerate splitters, keeps the tree free of degenerate splitters. -/
theorem atLeast_modify (sid : Nat) (o o' : Int) (cs cs' : List Widget)
    (hlen : cs.length ≤ cs'.length) (hnd : noDegenerateList cs → noDegenerateList cs') :
    (∀ w : Widget, ∀ k, w.ids.Nodup → w.findSplitter sid = some (o, cs) → w.atLeast k →
      (w.modifySplitter sid (fun _ => (o', cs'))).atLeast k) ∧
    (∀ l : List Widget, (idsList l).Nodup → findSplitterList sid l = some (o, cs) →
      noDegenerateList l → noDegenerateList (modifySplitterList sid (fun _ => (o', cs')) l)) := by
  apply Widget.rec2
  · intro id k _ h; simp [Widget.findSplitter] at h
  · intro id o0 cs0 ih k nd h hk
    simp only [Widget.atLeast] at hk
    by_cases e : id = sid
    · simp [Widget.findSplitter, e] at h
      obtain ⟨rfl, rfl⟩ := h
      simp only [Widget.modifySplitter, e, if_true, Widget.atLeast]
      exact ⟨le_trans hk.1 hlen, hnd hk.2⟩
    · simp [Widget.findSplitter, e] at h
      simp at nd
      simp only [Widget.modifySplitter, e, if_false, Widget.atLeast,
        length_modifySplitterList]
      exact ⟨hk.1, ih nd.2 h hk.2⟩
  · intro _ h; simp [findSplitterList] at h
  · intro w ws ihw ihws nd h hk
    simp only [findSplitterList] at h
    simp [List.nodup_append] at nd
    simp only [noDegenerateList] at hk
    have hw2 : ∀ v : Widget, v.noDegenerate ↔ v.atLeast 2 := by
      intro v; cases v <;> simp [Widget.noDegenerate, Widget.atLeast]
    cases hw : w.findSplitter sid with
    | some r =>
      simp [hw] at h
      subst h
      have hs : sid ∉ idsList ws :=
        fun hm => nd.2.2 ((findSplitter_mem sid o cs).1 w hw).1 hm
      simp only [modifySplitterList, noDegenerateList,
        modifySplitterList_of_not_mem sid _ ws hs]
      exact ⟨(hw2 _).2 (ihw 2 nd.1 hw ((hw2 _).1 hk.1)), hk.2⟩
    | none =>
      simp [hw] at h
      simp only [modifySplitterList, noDegenerateList, (modifySplitter_of_none sid _).1 w hw]
      exact ⟨hk.1, ihws nd.2.1 h hk.2⟩

/-- The tree part of the invariant after the children of one splitter are replaced. -/
theorem treeOk_modify (l : List Widget) (sid : Nat) (o o' : Int) (cs cs' : List Widget)
    (nd : (idsList l).Nodup) (h : findSplitterList sid l = some (o, cs))
    (hlen : cs.length ≤ cs'.length) (hnd : noDegenerateList cs → noDegenerateList cs')
    (ht : ∃ id o0 cs0, l = [.splitter id o0 cs0] ∧ 1 ≤ cs0.length ∧ noDegenerateList cs0) :
    ∃ id o0 cs0, modifySplitterList sid (fun _ => (o', cs')) l = [.splitter id o0 cs0] ∧
      1 ≤ cs0.length ∧ noDegenerateList cs0 := by
  obtain ⟨id, o0, cs0, rfl, h1, h2⟩ := ht
  have hw : (Widget.splitter id o0 cs0).findSplitter sid = some (o, cs) := by
    simp only [findSplitterList] at h
    cases hx : (Widget.splitter id o0 cs0).findSplitter sid with
    | some r => simpa [hx] using h
    | none => simp [hx] at h
  have nd' : (Widget.splitter id o0 cs0).ids.Nodup := by simpa using nd
  have := (atLeast_modify sid o o' cs cs' hlen hnd).1 _ 1 nd' hw ⟨h1, h2⟩
  by_cases e : id = sid
  · simp only [modifySplitterList, Widget.modifySplitter, e, if_true] at this ⊢
    exact ⟨sid, o', cs', rfl, this.1, this.2⟩
  · simp only [modifySplitterList, Widget.modifySplitter, e, if_false] at this ⊢
    exact ⟨id, o0, _, rfl, this.1, this.2⟩

theorem nodup_replace_child (pre post : List Widget) (t : Widget) (X : List Widget)
    (nd : (idsList (pre ++ t :: post)).Nodup) (hX : (idsList X).Nodup)
    (hsub : ∀ x ∈ idsList X, x ∈ t.ids ∨ x ∉ idsList (pre ++ t :: post)) :
    (idsList (pre ++ X ++ post)).Nodup := by
  rw [idsList_append, idsList_cons] at nd
  simp only [idsList_append, idsList_cons, List.mem_append, not_or] at hsub
  rw [idsList_append, idsList_append]
  obtain ⟨n1, n2, n3⟩ := List.nodup_append.1 nd
  obtain ⟨m1, m2, m3⟩ := List.nodup_append.1 n2
  rw [List.append_assoc]
  refine List.nodup_append.2 ⟨n1, List.nodup_append.2 ⟨hX, m2, ?_⟩, ?_⟩
  · intro x hx hx'
    rcases hsub x hx with h | h
    · exact m3 h hx'
    · exact h.2.2 hx'
  · intro x hx hx'
    rcases List.mem_append.1 hx' with h | h
    · rcases hsub x h with h' | h'
      · exact n3 hx (List.mem_append.2 (Or.inl h'))
      · exact h'.1 hx
    · exact n3 hx (List.mem_append.2 (Or.inr h))

/-- The invariant after the child `t` of a splitter found in the layout is replaced by the
widgets `X`, made of `t` and of new widgets. -/
theorem inv_replace_child (c : ContainerWidget) (tss : Nat) (o : Int) (pre post : List Widget)
    (t : Widget) (X : List Widget) (secs : List SectionWidget) (n : Nat)
    (hinv : c.Inv) (hsp : findSplitterList tss c._mainLayout = some (o, pre ++ t :: post))
    (hn : c.nextId ≤ n) (hsecs : secs ≠ []) (hfresh : ∀ s ∈ secs, s.id < n)
    (hX : (idsList X).Nodup) (hXne : X ≠ [])
    (hsub : ∀ x ∈ idsList X, x ∈ t.ids ∨ (c.nextId ≤ x ∧ x < n))
    (hXnd : t.noDegenerate → noDegenerateList X) :
    ({ c with
        _mainLayout := modifySplitterList tss (fun _ => (o, pre ++ X ++ post)) c._mainLayout
        _sections := secs
        nextId := n } : ContainerWidget).Inv := by
  have nd := hinv.wf.nodup
  have ndc := children_nodup tss o _ _ nd hsp
  have hmem := mem_children_ids c._mainLayout tss o _ hsp
  have hsub' : ∀ x ∈ idsList X, x ∈ t.ids ∨ x ∉ idsList (pre ++ t :: post) := by
    intro x hx
    rcases hsub x hx with h | h
    · exact Or.inl h
    · exact Or.inr (fun hm => absurd (hinv.wf.fresh x (hmem x hm)) (by omega))
  have hids : ∀ x ∈ idsList (pre ++ X ++ post),
      x ∈ idsList (pre ++ t :: post) ∨ (c.nextId ≤ x ∧ x < n) := by
    intro x hx
    simp only [idsList_append, idsList_cons, List.mem_append] at hx ⊢
    rcases hx with (h | h) | h
    · exact Or.inl (Or.inl h)
    · rcases hsub x h with h' | h'
      · exact Or.inl (Or.inr (Or.inl h'))
      · exact Or.inr h'
    · exact Or.inl (Or.inr (Or.inr h))
  refine ⟨⟨?_, ?_, hfresh⟩, fun h => absurd h hsecs, Or.inr ?_⟩
  · refine nodup_modify _ tss o _ _ nd hsp ?_ (nodup_replace_child pre post t X ndc hX hsub')
    intro x hx
    rcases hids x hx with h | h
    · exact Or.inl h
    · exact Or.inr (fun hm => absurd (hinv.wf.fresh x hm) (by omega))
  · intro i hi
    rcases mem_ids_modify _ tss o _ _ nd hsp i hi with h | h
    · exact lt_of_lt_of_le (hinv.wf.fresh i h) hn
    · rcases hids i h with h' | h'
      · exact lt_of_lt_of_le (hinv.wf.fresh i (hmem i h')) hn
      · exact h'.2
  · have htree : ∃ id o0 cs0, c._mainLayout = [.splitter id o0 cs0] ∧ 1 ≤ cs0.length ∧
        noDegenerateList cs0 := by
      rcases hinv.tree with h | h
      · rw [h] at hsp; simp [findSplitterList] at hsp
      · exact h
    refine treeOk_modify _ tss o o _ _ nd hsp ?_ ?_ htree
    · have : 1 ≤ X.length := by
        cases X with
        | nil => exact absurd rfl hXne
        | cons _ _ => simp
      simp only [List.length_append, List.length_cons]
      omega
    · intro h
      rw [noDegenerateList_append] at h
      simp only [noDegenerateList] at h
      rw [noDegenerateList_append, noDegenerateList_append]
      exact ⟨⟨h.1, hXnd h.2.1⟩, h.2.2⟩

/-- The layout after a directional drop on a target whose parent has the orientation of the
drop: the parent's children are replaced once, the new section next to the target. -/
theorem dropContent_sibling_layout (c : ContainerWidget) (data : InternalContentData)
    (target tss : Nat) (o : Int) (pre post : List Widget) (t : Widget) (area : DropArea)
    (autoActive : Bool) (hwf : c.WF) (hdir : area.directional = true) (ht : t.id = target)
    (hpar : findParentSplitterList target c._mainLayout = some tss)
    (hsp : findSplitterList tss c._mainLayout = some (o, pre ++ t :: post))
    (ho : o = area.axis) :
    c.dropContent data (some target) area autoActive = some (some c.nextId,
      { c with
        _mainLayout := modifySplitterList tss (fun _ => (o, pre ++
          (if area.before then [.section c.nextId, t] else [t, .section c.nextId]) ++ post))
          c._mainLayout
        _sections := c._sections ++ [{ id := c.nextId, contents := [data], currentIndex := 0 }]
        nextId := c.nextId + 1 }) := by
  have h' : ∀ s ∈ c._sections, s.id ≠ c.nextId :=
    fun s hs => Nat.ne_of_lt (hwf.sectionsFresh s hs)
  have hpre : ∀ x ∈ pre, x.id ≠ target := by
    have := pre_ne_of_nodup pre post t (children_nodup tss o _ _ hwf.nodup hsp)
    rwa [ht] at this
  have hidx : indexOf target (pre ++ t :: post) = pre.length :=
    indexOf_append_cons target pre _ post hpre ht
  have h0 : spInsertWidget tss ((pre.length : Int) + 0) (.section c.nextId) c._mainLayout
      = modifySplitterList tss (fun _ => (o, pre ++ [.section c.nextId, t] ++ post))
          c._mainLayout := by
    refine (modifySplitter_congr tss (o, pre ++ t :: post) _ _ ?_).2 _ hwf.nodup hsp
    simp [insertWidget_length]
  have h1 : spInsertWidget tss ((pre.length : Int) + 1) (.section c.nextId) c._mainLayout
      = modifySplitterList tss (fun _ => (o, pre ++ [t, .section c.nextId] ++ post))
          c._mainLayout := by
    refine (modifySplitter_congr tss (o, pre ++ t :: post) _ _ ?_).2 _ hwf.nodup hsp
    simp [insertWidget_length_succ]
  subst ho
  cases area <;> simp [DropArea.directional] at hdir <;>
    simp only [ContainerWidget.dropContent, ContainerWidget.newSectionWidget, hpar,
      spOrientation, hsp, Option.map_some', updateSection_new _ _ _ h', addContent_new,
      DropArea.axis, if_true, ContainerWidget.dropSibling, spIndexOf, hidx, h0, h1,
      DropArea.before] <;>
    simp

theorem takeFirst_none_or (uid : Int) (l : List InternalContentData) :
    takeFirst uid l = none ∨ ∃ i d rest, takeFirst uid l = some (i, d, rest) := by
  cases h : takeFirst uid l with
  | none => exact Or.inl rfl
  | some r => exact Or.inr ⟨r.1, r.2.1, r.2.2, rfl⟩

theorem takeContentSections_ids (uid : Int) (l : List SectionWidget) (d : InternalContentData)
    (l' : List SectionWidget) (h : takeContentSections uid l = some (d, l')) :
    l'.map (fun s => s.id) = l.map (fun s => s.id) := by
  induction l generalizing l' with
  | nil => simp [takeContentSections] at h
  | cons s rest ih =>
    simp only [takeContentSections] at h
    cases hs : s.takeContent uid with
    | some r =>
      simp only [hs, Option.some.injEq, Prod.mk.injEq] at h
      obtain ⟨_, rfl⟩ := h
      have : r.2.id = s.id := by
        simp only [SectionWidget.takeContent] at hs
        rcases takeFirst_none_or uid s.contents with h0 | ⟨i, x, rest', h0⟩
        · simp [h0] at hs
        · simp only [h0, Option.some.injEq] at hs
          rw [← hs]
      simp [this]
    | none =>
      simp only [hs] at h
      cases hr : takeContentSections uid rest with
      | none => simp [hr] at h
      | some q =>
        obtain ⟨q1, q2⟩ := q
        simp only [hr, Option.some.injEq, Prod.mk.injEq] at h
        obtain ⟨rfl, rfl⟩ := h
        simp [ih q2 hr]

theorem map_id_eq_nil {l l' : List SectionWidget}
    (h : l'.map (fun s => s.id) = l.map (fun s => s.id)) : l' = [] ↔ l = [] := by
  constructor
  · intro e; subst e; simpa using h.symm
  · intro e; subst e; simpa using h

theorem map_id_fresh {l l' : List SectionWidget} (n : Nat)
    (h : l'.map (fun s => s.id) = l.map (fun s => s.id)) (hf : ∀ s ∈ l, s.id < n) :
    ∀ s ∈ l', s.id < n := by
  intro s hs
  have : s.id ∈ l'.map (fun s => s.id) := List.mem_map.2 ⟨s, hs, rfl⟩
  rw [h] at this
  obtain ⟨s', hs', e⟩ := List.mem_map.1 this
  exact e ▸ hf s' hs'

theorem takeContent_inv (c : ContainerWidget) (sc : SectionContent) (h : c.Inv) :
    (c.takeContent sc).2.2.Inv := by
  unfold ContainerWidget.takeContent
  cases hs : takeContentSections sc.uid c._sections with
  | some r =>
    have hid := takeContentSections_ids sc.uid c._sections r.1 r.2 (by rw [hs])
    exact ⟨⟨h.wf.nodup, h.wf.fresh, map_id_fresh _ hid h.wf.sectionsFresh⟩,
      fun e => h.empty ((map_id_eq_nil hid).1 e), h.tree⟩
  | none => exact ⟨⟨h.wf.nodup, h.wf.fresh, h.wf.sectionsFresh⟩, h.empty, h.tree⟩

theorem updateSection_ids (id : Nat) (f : SectionWidget → SectionWidget)
    (hf : ∀ s, (f s).id = s.id) (l : List SectionWidget) :
    (updateSection id f l).map (fun s => s.id) = l.map (fun s => s.id) := by
  induction l with
  | nil => rfl
  | cons s rest ih =>
    simp only [updateSection, List.map_cons, List.map_map] at ih ⊢
    by_cases e : s.id = id
    · simp only [e, if_true, hf, List.cons.injEq, true_and]
      exact ih
    · simp only [e, if_false, List.cons.injEq, true_and]
      exact ih

theorem dropContent_none_target (c : ContainerWidget) (data : InternalContentData)
    (area : DropArea) (autoActive : Bool) (hdir : area.directional = true)
    (hl : c._mainLayout = []) : c.dropContent data none area autoActive = none := by
  cases area <;> simp [DropArea.directional] at hdir <;>
    simp [ContainerWidget.dropContent, ContainerWidget.dropContentOuterHelper,
      ContainerWidget.newSectionWidget, hl, findImmediateSplitter]

theorem dropContent_no_parent (c : ContainerWidget) (data : InternalContentData)
    (target : Nat) (area : DropArea) (autoActive : Bool) (hdir : area.directional = true)
    (hp : findParentSplitterList target c._mainLayout = none) :
    c.dropContent data (some target) area autoActive = none := by
  cases area <;> simp [DropArea.directional] at hdir <;>
    simp [ContainerWidget.dropContent, hp]

/-- The drop operation keeps the invariant. -/
theorem dropContent_inv (c : ContainerWidget) (data : InternalContentData)
    (target : Option Nat) (area : DropArea) (autoActive : Bool) (r : Option Nat)
    (c' : ContainerWidget) (h : c.Inv)
    (hr : c.dropContent data target area autoActive = some (r, c')) : c'.Inv := by
  by_cases hdir : area.directional = true
  · cases target with
    | none =>
      rcases h.tree with hl | ⟨oldsp, o, cs, hl, h1, h2⟩
      · rw [dropContent_none_target c data area autoActive hdir hl] at hr
        exact absurd hr (by simp)
      · rw [dropContent_outer_layout c data area autoActive oldsp o cs h.wf.sectionsFresh hdir hl]
          at hr
        simp only [Option.some.injEq, Prod.mk.injEq] at hr
        obtain ⟨_, rfl⟩ := hr
        have nd := h.wf.nodup
        have fr := h.wf.fresh
        rw [hl] at nd fr
        simp only [idsList_cons, ids_splitter, idsList_nil, List.append_nil, List.nodup_cons,
          List.mem_cons] at nd fr
        have f0 : oldsp < c.nextId := fr oldsp (Or.inl rfl)
        have f1 : ∀ i ∈ idsList cs, i < c.nextId := fun i hi => fr i (Or.inr hi)
        have g0 : c.nextId ∉ idsList cs := fun hm => absurd (f1 _ hm) (by omega)
        have g1 : c.nextId + 1 ∉ idsList cs := fun hm => absurd (f1 _ hm) (by omega)
        have hsf : ∀ s ∈ c._sections ++
            [({ id := c.nextId, contents := [data], currentIndex := 0 } : SectionWidget)],
            s.id < c.nextId + 1 := by
          intro s hs
          rcases List.mem_append.1 hs with hs | hs
          · exact Nat.lt_succ_of_lt (h.wf.sectionsFresh s hs)
          · simp at hs; subst hs; simp
        by_cases hc : cs.length = 1 ∨ o = area.axis
        · simp only [hc, if_true]
          refine ⟨⟨?_, ?_, hsf⟩, fun e => absurd e (by simp), Or.inr ⟨oldsp, area.axis, _, rfl, ?_, ?_⟩⟩
          · cases hb : area.before <;>
              simp [idsList_append, List.nodup_append, nd.1, nd.2, g0] <;> omega
          · intro i hi
            show i < c.nextId + 1
            have key : i = oldsp ∨ i = c.nextId ∨ i ∈ idsList cs := by
              cases hb : area.before <;> simp [hb, idsList_append] at hi <;> tauto
            rcases key with e | e | e
            · omega
            · omega
            · have := f1 i e; omega
          · cases hb : area.before <;> simp
          · cases hb : area.before <;>
              simp [noDegenerateList_append, noDegenerateList, Widget.noDegenerate, h2]
        · simp only [hc, if_false]
          have hcs : 2 ≤ cs.length := by
            have : cs.length ≠ 1 := fun e => hc (Or.inl e)
            omega
          refine ⟨⟨?_, ?_, fun s hs => Nat.lt_succ_of_lt (hsf s hs)⟩,
            fun e => absurd e (by simp), Or.inr ⟨c.nextId + 1, area.axis, _, rfl, ?_, ?_⟩⟩
          · cases hb : area.before <;>
              simp [idsList_append, List.nodup_append, nd.1, nd.2, g0, g1] <;> omega
          · intro i hi
            show i < c.nextId + 1 + 1
            have key : i = c.nextId + 1 ∨ i = oldsp ∨ i = c.nextId ∨ i ∈ idsList cs := by
              cases hb : area.before <;> simp [hb, idsList_append] at hi <;> tauto
            rcases key with e | e | e | e
            · omega
            · omega
            · omega
            · have := f1 i e; omega
          · cases hb : area.before <;> simp
          · cases hb : area.before <;>
              simp [noDegenerateList, Widget.noDegenerate, h2, hcs]
    | some t =>
      cases hp : findParentSplitterList t c._mainLayout with
      | none =>
        rw [dropContent_no_parent c data t area autoActive hdir hp] at hr
        exact absurd hr (by simp)
      | some tss =>
        obtain ⟨o, cs, hsp, hidx⟩ := (findParentSplitter_spec t tss).2 _ h.wf.nodup hp
        obtain ⟨pre, x, post, rfl, hx, _⟩ := indexOf_split t cs hidx
        have hxl : x.id < c.nextId :=
          h.wf.fresh _ (mem_children_ids _ tss o _ hsp _
            (by rw [idsList_append, idsList_cons]; simp [id_mem_ids]))
        have hxn : (idsList (pre ++ x :: post)).Nodup := children_nodup tss o _ _ h.wf.nodup hsp
        have hxx : x.ids.Nodup := by
          rw [idsList_append, idsList_cons] at hxn
          exact (List.nodup_append.1 (List.nodup_append.1 hxn).2.1).1
        have hxf : ∀ i ∈ x.ids, i < c.nextId := fun i hi =>
          h.wf.fresh _ (mem_children_ids _ tss o _ hsp _
            (by rw [idsList_append, idsList_cons]; simp [hi]))
        have hsf : ∀ n, c.nextId + 1 ≤ n → ∀ s ∈ c._sections ++
            [({ id := c.nextId, contents := [data], currentIndex := 0 } : SectionWidget)],
            s.id < n := by
          intro n hn s hs
          rcases List.mem_append.1 hs with hs | hs
          · exact lt_of_lt_of_le (Nat.lt_succ_of_lt (h.wf.sectionsFresh s hs)) hn
          · simp at hs; subst hs; exact hn
        by_cases ho : o = area.axis
        · rw [dropContent_sibling_layout c data t tss o pre post x area autoActive h.wf hdir hx
            hp hsp ho] at hr
          simp only [Option.some.injEq, Prod.mk.injEq] at hr
          obtain ⟨_, rfl⟩ := hr
          refine inv_replace_child c tss o pre post x _ _ _ h hsp (by omega) (by simp)
            (hsf _ (le_refl _)) ?_ ?_ ?_ ?_
          · have : c.nextId ∉ x.ids := fun hm => absurd (hxf _ hm) (by omega)
            cases hb : area.before <;> simp [List.nodup_append, hxx, this]
          · cases hb : area.before <;> simp
          · intro i hi
            cases hb : area.before <;> simp [hb] at hi <;> rcases hi with hi | hi <;>
              first | exact Or.inl hi | (right; omega)
          · intro hx
            cases hb : area.before <;> simp [noDegenerateList, Widget.noDegenerate, hx]
        · rw [dropContent_wrap_layout c data t tss o pre post x area autoActive h.wf hdir hx
            hp hsp ho] at hr
          simp only [Option.some.injEq, Prod.mk.injEq] at hr
          obtain ⟨_, rfl⟩ := hr
          have hcons : ∀ X : Widget, pre ++ X :: post = pre ++ [X] ++ post := by
            intro X; simp
          rw [hcons]
          refine inv_replace_child c tss o pre post x _ _ _ h hsp (by omega) (by simp)
            (hsf _ (by omega)) ?_ ?_ ?_ ?_
          · cases hb : area.before <;> simp <;> omega
          · simp
          · intro i hi
            cases hb : area.before <;> simp [hb] at hi <;>
              rcases hi with hi | hi | hi <;>
              first | (left; rw [hi, ← hx]; exact id_mem_ids x) | (right; omega)
          · intro _
            cases hb : area.before <;> simp [noDegenerateList, Widget.noDegenerate]
  · cases target with
    | none =>
      cases area <;> simp [DropArea.directional] at hdir <;>
        simp [ContainerWidget.dropContent] at hr <;> (obtain ⟨_, rfl⟩ := hr; exact h)
    | some t =>
      cases area <;> simp [DropArea.directional] at hdir
      · simp only [ContainerWidget.dropContent] at hr
        split at hr
        · simp only [Option.some.injEq, Prod.mk.injEq] at hr
          obtain ⟨_, rfl⟩ := hr
          have hid := updateSection_ids t (fun s => s.addContent data autoActive)
            (fun s => rfl) c._sections
          exact ⟨⟨h.wf.nodup, h.wf.fresh, map_id_fresh _ hid h.wf.sectionsFresh⟩,
            fun e => h.empty ((map_id_eq_nil hid).1 e), h.tree⟩
        · exact absurd hr (by simp)
      · simp [ContainerWidget.dropContent] at hr
        obtain ⟨_, rfl⟩ := hr
        exact h

/-- The operation `addSectionContent` keeps the invariant. -/
theorem addSectionContent_inv (c : ContainerWidget) (sc : SectionContent) (sw : Option Nat)
    (area : DropArea) (r : Option Nat) (c' : ContainerWidget) (h : c.Inv)
    (hr : c.addSectionContent sc sw area = some (r, c')) : c'.Inv := by
  unfold ContainerWidget.addSectionContent at hr
  cases sw with
  | some t => exact dropContent_inv c _ _ _ _ r c' h hr
  | none =>
    by_cases he : c._sections = []
    · obtain ⟨hl, hs⟩ := h.empty he
      have hstate : (c.newSectionWidget.2.addSection c.newSectionWidget.1)
          = some { c with
              _mainLayout := [.splitter (c.nextId + 1) c._orientation [.section c.nextId]]
              _splitter := some (c.nextId + 1)
              _sections := [SectionWidget.new c.nextId]
              nextId := c.nextId + 1 + 1 } := by
        simp [ContainerWidget.addSection, ContainerWidget.newSectionWidget, hs, hl, he,
          spIndexOf, findSplitterList, Widget.findSplitter, newSplitter, indexOf, spAddWidget,
          removeWidgetList, Widget.removeWidget, Widget.id, modifySplitterList,
          Widget.modifySplitter, addWidget]
      simp only [he, List.isEmpty_nil, if_true, hstate, Option.map_some'] at hr
      refine dropContent_inv _ _ _ _ _ r c' ⟨⟨?_, ?_, ?_⟩, ?_, Or.inr ⟨_, _, _, rfl, ?_, ?_⟩⟩ hr
      · simp
      · intro i hi
        simp at hi
        show i < c.nextId + 1 + 1
        omega
      · intro s hs
        simp [SectionWidget.new] at hs
        subst hs
        show c.nextId < c.nextId + 1 + 1
        omega
      · intro e; simp at e
      · simp
      · simp [noDegenerateList, Widget.noDegenerate]
    · have hne : c._sections.isEmpty = false := by
        cases hc : c._sections with
        | nil => exact absurd hc he
        | cons _ _ => rfl
      simp only [hne, Bool.false_eq_true, if_false] at hr
      by_cases ha : area = .CenterDropArea
      · simp only [ha, if_true] at hr
        exact dropContent_inv c _ _ _ _ r c' h hr
      · simp only [ha, if_false] at hr
        exact dropContent_inv c _ _ _ _ r c' h hr

theorem reachable_inv (c : ContainerWidget) (h : Reachable Op.isDropOrTake c) : c.Inv := by
  induction h with
  | init =>
    exact ⟨⟨by simp [ContainerWidget.new], by simp [ContainerWidget.new],
      by simp [ContainerWidget.new]⟩, fun _ => ⟨rfl, rfl⟩, Or.inl rfl⟩
  | step c op c' _ hop hstep ih =>
    cases op with
    | addSection sw => simp [Op.isDropOrTake] at hop
    | restoreState reg data => simp [Op.isDropOrTake] at hop
    | addSectionContent sc sw area =>
      simp only [ContainerWidget.step] at hstep
      cases hx : c.addSectionContent sc sw area with
      | none => simp [hx] at hstep
      | some q =>
        simp only [hx, Option.map_some', Option.some.injEq] at hstep
        subst hstep
        exact addSectionContent_inv c sc sw area q.1 q.2 ih hx
    | dropContent data target area autoActive =>
      simp only [ContainerWidget.step] at hstep
      cases hx : c.dropContent data target area autoActive with
      | none => simp [hx] at hstep
      | some q =>
        simp only [hx, Option.map_some', Option.some.injEq] at hstep
        subst hstep
        exact dropContent_inv c data target area autoActive q.1 q.2 ih hx
    | takeContent sc =>
      simp only [ContainerWidget.step, Option.some.injEq] at hstep
      subst hstep
      exact takeContent_inv c sc ih

/-- C8, as amended: in every state reachable from the empty container by drop operations
(addSectionContent, dropContent) and take operations (takeContent), the layout is empty or
holds one top-level split node with at least one child, and every split node below the
top-level one has at least two children. -/
theorem reachable_split_nodes (c : ContainerWidget) (h : Reachable Op.isDropOrTake c) :
    c._mainLayout = [] ∨
      ∃ id o cs, c._mainLayout = [.splitter id o cs] ∧ 1 ≤ cs.length ∧ noDegenerateList cs :=
  (reachable_inv c h).tree

theorem firstDrop_reachable : Reachable Op.isDropOrTake firstDrop :=
  Reachable.step ContainerWidget.new (.addSectionContent (exampleContent 1) none .CenterDropArea)
    firstDrop Reachable.init rfl rfl

theorem reachable_split_nodes_witness :
    Reachable Op.isDropOrTake firstDrop ∧
      (firstDrop._mainLayout = [] ∨
        ∃ id o cs, firstDrop._mainLayout = [.splitter id o cs] ∧ 1 ≤ cs.length ∧
          noDegenerateList cs) :=
  ⟨firstDrop_reachable,
   reachable_split_nodes firstDrop
     (Reachable.step ContainerWidget.new
       (.addSectionContent (exampleContent 1) none .CenterDropArea) firstDrop
       Reachable.init rfl rfl)⟩

/-- C8, as the claim states it, fails: after the first content is dropped onto the empty
container, the top-level split node wraps the one Section as its single child. -/
theorem first_drop_single_child_root :
    Reachable Op.isDropOrTake firstDrop ∧
      firstDrop._mainLayout = [.splitter 1 Qt.Horizontal [.section 0]] ∧
      ¬ firstDrop.degeneracyInvariant := by
  refine ⟨firstDrop_reachable, rfl, ?_⟩
  intro h
  have := h (.splitter 1 Qt.Horizontal [.section 0]) (by simp [firstDrop])
  simp [Widget.noDegenerate] at this

/-! ### Claims settled on a concrete state -/

/-- C2: a stream whose first 32-bit word is not the magic 0x00001337, or whose second word is
not the version 1, makes `restoreState` return false and leaves the container as it was. -/
theorem restoreState_bad_header (reg : QString → Option SectionContent) (data : QByteArray)
    (c : ContainerWidget)
    (h : (readUInt32 data).1 ≠ 0x00001337 ∨ (readUInt32 (readUInt32 data).2).1 ≠ 1) :
    c.restoreState reg data = some (false, c) := by
  unfold ContainerWidget.restoreState
  by_cases h1 : (readUInt32 data).1 ≠ 0x00001337
  · simp [h1]
  · have h2 : (readUInt32 (readUInt32 data).2).1 ≠ 1 := by
      rcases h with h | h
      · exact absurd h h1
      · exact h
    simp only [h1, h2, if_true, if_false, ne_eq, not_false_eq_true, ite_true, ite_false]

theorem restoreState_bad_header_witness :
    ((readUInt32 [0, 0, 0x13, 0x37, 0, 0, 0, 2, 0, 0, 0, 0]).1 ≠ 0x00001337 ∨
      (readUInt32 (readUInt32 [0, 0, 0x13, 0x37, 0, 0, 0, 2, 0, 0, 0, 0]).2).1 ≠ 1) ∧
    firstDrop.restoreState exampleRegistry [0, 0, 0x13, 0x37, 0, 0, 0, 2, 0, 0, 0, 0]
      = some (false, firstDrop) :=
  ⟨by decide, restoreState_bad_header _ _ _ (by decide)⟩

/-- Whatever the edge, a drop without a target returns the null pointer. -/
theorem dropContent_absent_target_null (c : ContainerWidget) (data : InternalContentData)
    (area : DropArea) (autoActive : Bool) (r : Option Nat × ContainerWidget)
    (h : c.dropContent data none area autoActive = some r) : r.1 = none := by
  cases area <;> simp only [ContainerWidget.dropContent, Option.map_eq_some'] at h <;>
    (obtain ⟨a, _, rfl⟩ := h; rfl)

/-- C4 fails on the code: a drop against the outer boundary creates the Section that holds
the dropped content (here the section 3) and returns the null pointer. -/
theorem dropContent_outer_returns_null :
    twoSections.dropContent (exampleData 3) none .TopDropArea false
      = some (none,
          { twoSections with
            _mainLayout :=
              [.splitter 4 Qt.Vertical
                [.section 3, .splitter 1 Qt.Horizontal [.section 0, .section 2]]]
            _sections := twoSections._sections ++
              [{ id := 3, contents := [exampleData 3], currentIndex := 0 }]
            nextId := 5 }) := rfl

/-- C9 fails on the code: taking the content of the second floating widget also runs the
extraction step on the first one, whose content id differs. -/
theorem takeContent_extracts_other_floating :
    twoFloatings.takeContent (exampleContent 2)
      = (true, some (exampleData 2),
          { twoFloatings with
            _floatings :=
              [{ id := 0, content := exampleContent 1, titleWidget := false,
                 contentWidget := false, geometry := [], visible := true },
               { id := 1, content := exampleContent 2, titleWidget := false,
                 contentWidget := false, geometry := [], visible := true }] }) := rfl

theorem staleRoot_reachable : Reachable Op.isBuild staleRoot :=
  Reachable.step twoSections (.addSectionContent (exampleContent 3) none .TopDropArea) staleRoot
    (Reachable.step firstDrop (.addSectionContent (exampleContent 2) none .RightDropArea)
      twoSections
      (Reachable.step ContainerWidget.new
        (.addSectionContent (exampleContent 1) none .CenterDropArea) firstDrop
        Reachable.init rfl rfl)
      rfl rfl)
    rfl rfl

/-- C10 fails on the code: after a drop against the top boundary of a horizontal top-level
splitter with two children, the layout holds the new splitter 4 while `_splitter` still
designates the old splitter 1, now a child of the new one. -/
theorem outer_drop_stale_splitter_field :
    Reachable Op.isBuild staleRoot ∧
      staleRoot._mainLayout.head?
        = some (.splitter 4 Qt.Vertical
            [.section 3, .splitter 1 Qt.Horizontal [.section 0, .section 2]]) ∧
      staleRoot._splitter = some 1 ∧
      ¬ staleRoot.rootPointerInvariant := by
  refine ⟨staleRoot_reachable, rfl, rfl, fun h => ?_⟩
  have := h 4 Qt.Vertical _ rfl
  simp [staleRoot] at this

theorem dropContent_matching_orientation_witness :
    twoSections.WF ∧
      ∃ c', twoSections.dropContent (exampleData 3) (some 0) .RightDropArea false
          = some (some twoSections.nextId, c') ∧
        c'._sections = twoSections._sections ++
          [{ id := twoSections.nextId, contents := [exampleData 3], currentIndex := 0 }] ∧
        splitterIdsList c'._mainLayout = splitterIdsList twoSections._mainLayout ∧
        findSplitterList 1 c'._mainLayout = some (Qt.Horizontal,
          if DropArea.RightDropArea.before
          then [] ++ .section twoSections.nextId :: .section 0 :: [.section 2]
          else [] ++ .section 0 :: .section twoSections.nextId :: [.section 2]) :=
  ⟨⟨by decide, by decide, by decide⟩,
   dropContent_matching_orientation twoSections (exampleData 3) 0 1 Qt.Horizontal []
     [.section 2] .RightDropArea false ⟨by decide, by decide, by decide⟩ rfl rfl rfl rfl⟩

theorem dropContent_other_orientation_witness :
    twoSections.WF ∧
      ∃ c', twoSections.dropContent (exampleData 3) (some 0) .TopDropArea false
          = some (some twoSections.nextId, c') ∧
        c'._sections = twoSections._sections ++
          [{ id := twoSections.nextId, contents := [exampleData 3], currentIndex := 0 }] ∧
        findSplitterList 1 c'._mainLayout = some (Qt.Horizontal,
          [] ++ .splitter (twoSections.nextId + 1) DropArea.TopDropArea.axis
            (if DropArea.TopDropArea.before then [.section twoSections.nextId, .section 0]
             else [.section 0, .section twoSections.nextId]) :: [.section 2]) :=
  ⟨⟨by decide, by decide, by decide⟩,
   dropContent_other_orientation twoSections (exampleData 3) 0 1 Qt.Horizontal []
     [.section 2] .TopDropArea false ⟨by decide, by decide, by decide⟩ rfl rfl rfl
     (by decide)⟩

/-! ### The stream operators -/

theorem readUInt32_write (v : Nat) (rest : QByteArray) (h : v < 4294967296) :
    readUInt32 (writeUInt32 v ++ rest) = (v, rest) := by
  simp only [writeUInt32, toByte, List.cons_append, List.nil_append, readUInt32,
    Prod.mk.injEq, and_true]
  omega

theorem readInt32_write (v : Int) (rest : QByteArray)
    (h : -2147483648 ≤ v ∧ v < 2147483648) :
    readInt32 (writeInt32 v ++ rest) = (v, rest) := by
  have hlt : (v % 4294967296).toNat < 4294967296 := by omega
  simp only [readInt32, writeInt32, readUInt32_write _ rest hlt, Prod.mk.injEq, and_true]
  split <;> omega

theorem readBool_write (b : Bool) (rest : QByteArray) :
    readBool (writeBool b ++ rest) = (b, rest) := by
  cases b <;> simp [writeBool, readBool, toByte]

theorem readQByteArray_write (ba rest : QByteArray) (h : ba.length < 4294967295) :
    readQByteArray (writeQByteArray ba ++ rest) = (ba, rest) := by
  have h1 : ba.length < 4294967296 := by omega
  have h2 : ba.length ≠ 4294967295 := by omega
  simp [readQByteArray, writeQByteArray, List.append_assoc, readUInt32_write _ _ h1, h2]

theorem length_writeUtf16 (s : QString) : (writeUtf16 s).length = 2 * s.length := by
  induction s with
  | nil => rfl
  | cons ch rest ih => simp [writeUtf16, ih]; omega

theorem readUtf16_write (s : QString) : readUtf16 (writeUtf16 s) = s := by
  induction s with
  | nil => rfl
  | cons ch rest ih =>
    simp only [writeUtf16, readUtf16, ih, toByte, List.cons.injEq, and_true]
    apply Fin.ext
    have := ch.isLt
    simp only
    omega

theorem readQString_write (s : QString) (rest : QByteArray) (h : 2 * s.length < 4294967295) :
    readQString (writeQString s ++ rest) = (s, rest) := by
  have h1 : 2 * s.length < 4294967296 := by omega
  have h2 : 2 * s.length ≠ 4294967295 := by omega
  have h3 : ¬ (2 * s.length % 2 = 1) := by omega
  have h4 : 2 * s.length = (writeUtf16 s).length := (length_writeUtf16 s).symm
  simp only [readQString, writeQString, List.append_assoc, readUInt32_write _ _ h1, h2, h3,
    if_false, List.length_append]
  rw [if_pos (by omega), h4, List.take_left, List.drop_left, readUtf16_write]

theorem writeInt32_ne_nil (v : Int) : writeInt32 v ≠ [] := by
  simp [writeInt32, writeUInt32]

theorem readInts_write (l : List Int) (rest : QByteArray)
    (h : ∀ v ∈ l, -2147483648 ≤ v ∧ v < 2147483648) :
    readInts l.length (writeInts l ++ rest) = (l, rest) := by
  induction l with
  | nil => rfl
  | cons v vs ih =>
    have hv := h v (by simp)
    have ih' := ih (fun x hx => h x (by simp [hx]))
    simp only [List.length_cons, readInts, writeInts, List.append_assoc,
      readInt32_write v _ hv]
    cases hvs : vs with
    | nil =>
      subst hvs
      cases rest with
      | nil => simp [writeInts]
      | cons b bs => simp [writeInts, readInts]
    | cons w ws =>
      have hne : (writeInts (w :: ws) ++ rest).isEmpty = false := by
        simp only [writeInts, writeInt32, writeUInt32]
        rfl
      rw [hne]
      rw [hvs] at ih'
      simp only [List.length_cons] at ih'
      simp [ih']

theorem readIntList_write (l : List Int) (rest : QByteArray) (hl : l.length < 4294967296)
    (h : ∀ v ∈ l, -2147483648 ≤ v ∧ v < 2147483648) :
    readIntList (writeIntList l ++ rest) = (l, rest) := by
  simp only [readIntList, writeIntList, List.append_assoc, readUInt32_write _ _ hl,
    readInts_write l rest h]

/-! ### The restore never runs past its bound -/

theorem readUInt32_length (s : QByteArray) : (readUInt32 s).2.length ≤ s.length := by
  unfold readUInt32
  split <;> simp
  omega

theorem readUInt32_length_lt (s : QByteArray) (h : (readUInt32 s).1 ≠ 0) :
    (readUInt32 s).2.length < s.length := by
  unfold readUInt32 at h ⊢
  split
  · simp only [List.length_cons]; omega
  · simp at h

theorem readInt32_length (s : QByteArray) : (readInt32 s).2.length ≤ s.length :=
  readUInt32_length s

theorem readInt32_length_lt (s : QByteArray) (h : (readInt32 s).1 ≠ 0) :
    (readInt32 s).2.length < s.length := by
  apply readUInt32_length_lt
  intro e
  apply h
  simp [readInt32, e]

theorem readQString_length (s : QByteArray) : (readQString s).2.length ≤ s.length := by
  have := readUInt32_length s
  unfold readQString
  simp only
  split
  · exact this
  · split
    · exact this
    · split
      · simp only [List.length_drop]; omega
      · simp

theorem readInts_length (n : Nat) (s : QByteArray) : (readInts n s).2.length ≤ s.length := by
  induction n generalizing s with
  | zero => simp [readInts]
  | succ k ih =>
    have h1 := readInt32_length s
    simp only [readInts]
    split
    · exact h1
    · exact le_trans (ih _) h1

theorem readIntList_length (s : QByteArray) : (readIntList s).2.length ≤ s.length :=
  le_trans (readInts_length _ _) (readUInt32_length s)

theorem takeContent_layout (c : ContainerWidget) (sc : SectionContent) :
    (c.takeContent sc).2.2._mainLayout = c._mainLayout ∧
    (c.takeContent sc).2.2._splitter = c._splitter ∧
    (c.takeContent sc).2.2.nextId = c.nextId := by
  unfold ContainerWidget.takeContent
  cases takeContentSections sc.uid c._sections <;> simp

theorem restoreContents_frame (reg : QString → Option SectionContent) (n : Nat) :
    ∀ (inp : QByteArray) (sw : SectionWidget) (c : ContainerWidget),
      (restoreContents reg n inp sw c).1.length ≤ inp.length ∧
      (restoreContents reg n inp sw c).2.2._mainLayout = c._mainLayout ∧
      (restoreContents reg n inp sw c).2.2._splitter = c._splitter := by
  induction n with
  | zero => intro inp sw c; simp [restoreContents]
  | succ k ih =>
    intro inp sw c
    have h1 := readQString_length inp
    simp only [restoreContents]
    cases hr : reg (readQString inp).1 with
    | none =>
      obtain ⟨a, b, d⟩ := ih (readQString inp).2 sw c
      exact ⟨le_trans a h1, b, d⟩
    | some sc =>
      obtain ⟨t1, t2, _⟩ := takeContent_layout c sc
      simp only
      split
      · obtain ⟨a, b, d⟩ := ih (readQString inp).2 (sw.addContentRef sc) (c.takeContent sc).2.2
        exact ⟨le_trans a h1, b.trans t1, d.trans t2⟩
      · obtain ⟨a, b, d⟩ := ih (readQString inp).2 sw (c.takeContent sc).2.2
        exact ⟨le_trans a h1, b.trans t1, d.trans t2⟩

/-- What a call of `restoreSectionWidgets` below a splitter guarantees. -/
theorem restoreChildren_total (f : RestoreFrame → Option (Bool × RestoreFrame)) (bound : Nat)
    (hf : ∀ fr : RestoreFrame, fr.inp.length ≤ bound → fr.currentSplitter.isSome = true →
      ∃ fr', f fr = some (true, fr') ∧ fr'.inp.length ≤ fr.inp.length ∧
        fr'.c._mainLayout = fr.c._mainLayout ∧ fr'.currentSplitter.isSome = true ∧
        fr'.root = fr.root ∧ fr'.c._splitter = fr.c._splitter) (n : Nat) :
    ∀ fr : RestoreFrame, fr.inp.length ≤ bound → fr.currentSplitter.isSome = true →
      ∃ fr', restoreChildren f n fr = some (true, fr') ∧ fr'.inp.length ≤ fr.inp.length ∧
        fr'.c._mainLayout = fr.c._mainLayout ∧ fr'.currentSplitter.isSome = true ∧
        fr'.root = fr.root ∧ fr'.c._splitter = fr.c._splitter := by
  induction n with
  | zero => intro fr _ h; exact ⟨fr, rfl, le_refl _, rfl, h, rfl, rfl⟩
  | succ k ih =>
    intro fr hb hs
    obtain ⟨fr1, e1, a1, b1, c1, d1, g1⟩ := hf fr hb hs
    obtain ⟨fr2, e2, a2, b2, c2, d2, g2⟩ := ih fr1 (le_trans a1 hb) c1
    refine ⟨fr2, ?_, le_trans a2 a1, b2.trans b1, c2, d2.trans d1, g2.trans g1⟩
    simp only [restoreChildren, e1, e2]

theorem addChild_isSome (cur w : Widget) : (some (cur.addChild w)).isSome = true := rfl

/-- With a bound above the length of the stream, `restoreSectionWidgets` returns; below a
splitter it returns true; at the top it returns true for a splitter and then `_splitter`
designates the splitter it built. -/
theorem restoreSectionWidgets_total (reg : QString → Option SectionContent) (fuel : Nat) :
    ∀ fr : RestoreFrame, fr.inp.length < fuel →
      ∃ b fr', restoreSectionWidgets reg fuel fr = some (b, fr') ∧
        fr'.inp.length ≤ fr.inp.length ∧ fr'.c._mainLayout = fr.c._mainLayout ∧
        (fr.currentSplitter.isSome = true →
          b = true ∧ fr'.currentSplitter.isSome = true ∧ fr'.root = fr.root ∧
            fr'.c._splitter = fr.c._splitter) ∧
        (fr.currentSplitter = none → (readInt32 fr.inp).1 = 1 →
          b = true ∧ ∃ w, fr'.root = some w ∧ fr'.c._splitter = some w.id) := by
  induction fuel with
  | zero => intro fr h; exact absurd h (by omega)
  | succ k ih =>
    intro fr hlen
    have ht := readInt32_length fr.inp
    by_cases h1 : (readInt32 fr.inp).1 = 1
    · have hlt := readInt32_length_lt fr.inp (by rw [h1]; decide)
      have ho := readInt32_length (readInt32 fr.inp).2
      have hc := readInt32_length (readInt32 (readInt32 fr.inp).2).2
      have hz := readIntList_length (readInt32 (readInt32 (readInt32 fr.inp).2).2).2
      have hf : ∀ fr0 : RestoreFrame, fr0.inp.length ≤ k - 1 →
          fr0.currentSplitter.isSome = true →
          ∃ fr', restoreSectionWidgets reg k fr0 = some (true, fr') ∧
            fr'.inp.length ≤ fr0.inp.length ∧ fr'.c._mainLayout = fr0.c._mainLayout ∧
            fr'.currentSplitter.isSome = true ∧ fr'.root = fr0.root ∧
            fr'.c._splitter = fr0.c._splitter := by
        intro fr0 hb hs
        obtain ⟨b, fr', e, a, l, hsome, _⟩ := ih fr0 (by omega)
        obtain ⟨rfl, p, q, r⟩ := hsome hs
        exact ⟨fr', e, a, l, p, q, r⟩
      obtain ⟨fr1, e1, a1, b1, c1, d1, g1⟩ :=
        restoreChildren_total (restoreSectionWidgets reg k) (k - 1) hf
          (readInt32 (readInt32 (readInt32 fr.inp).2).2).1.toNat
          { fr with
            inp := (readIntList (readInt32 (readInt32 (readInt32 fr.inp).2).2).2).2
            currentSplitter := some (newSplitter fr.c.nextId (readInt32 (readInt32 fr.inp).2).1)
            c := { fr.c with nextId := fr.c.nextId + 1 } }
          (by simp only; omega) rfl
      simp only [restoreSectionWidgets, h1, if_true, e1]
      cases hcur : fr.currentSplitter with
      | none =>
        refine ⟨true, _, rfl, ?_, ?_, ?_, ?_⟩
        · simp only at a1 ⊢; omega
        · simpa using b1
        · intro h; simp at h
        · intro _ _; exact ⟨rfl, _, rfl, rfl⟩
      | some cur =>
        refine ⟨true, _, rfl, ?_, ?_, ?_, ?_⟩
        · simp only at a1 ⊢; omega
        · simpa using b1
        · intro _; exact ⟨rfl, rfl, by simpa using d1, by simpa using g1⟩
        · intro h; simp at h
    · by_cases h2 : (readInt32 fr.inp).1 = 2
      · have h21 : ¬ ((2 : Int) = 1) := by decide
        simp only [restoreSectionWidgets, h2, h21, if_false, if_true]
        cases hcur : fr.currentSplitter with
        | none =>
          refine ⟨false, _, rfl, by simpa using ht, rfl, ?_, ?_⟩
          · intro h; simp at h
          · intro _ h; exact h.elim
        | some cur =>
          have hi := readInt32_length (readInt32 fr.inp).2
          have hn := readInt32_length (readInt32 (readInt32 fr.inp).2).2
          obtain ⟨a, b, d⟩ := restoreContents_frame reg
            (readInt32 (readInt32 (readInt32 fr.inp).2).2).1.toNat
            (readInt32 (readInt32 (readInt32 fr.inp).2).2).2 (SectionWidget.new fr.c.nextId)
            { fr.c with nextId := fr.c.nextId + 1 }
          refine ⟨true, _, rfl, ?_, ?_, ?_, ?_⟩
          · exact le_trans a (by omega)
          · simpa using b
          · intro _; exact ⟨rfl, rfl, rfl, by simpa using d⟩
          · intro h; simp at h
      · simp only [restoreSectionWidgets, h1, h2, if_false]
        refine ⟨true, _, rfl, by simpa using ht, rfl, ?_, ?_⟩
        · intro h; exact ⟨rfl, h, rfl, rfl⟩
        · intro _ h; exact h.elim

/-! ### Taking a content that a section holds -/

theorem takeFirst_of_mem (uid : Int) (l : List InternalContentData)
    (h : ∃ d ∈ l, d.content.uid = uid) :
    ∃ i d rest, takeFirst uid l = some (i, d, rest) ∧ d ∈ l ∧
      (∀ x ∈ rest, x ∈ l) ∧ (∀ x ∈ l, x.content.uid ≠ uid → x ∈ rest) := by
  induction l with
  | nil => obtain ⟨d, hd, _⟩ := h; simp at hd
  | cons a rest ih =>
    by_cases ha : a.content.uid = uid
    · exact ⟨0, a, rest, by simp [takeFirst, ha], by simp, fun x hx => by simp [hx],
        fun x hx hne => by
          simp at hx
          rcases hx with rfl | hx
          · exact absurd ha hne
          · exact hx⟩
    · have h' : ∃ d ∈ rest, d.content.uid = uid := by
        obtain ⟨d, hd, e⟩ := h
        simp at hd
        rcases hd with rfl | hd
        · exact absurd e ha
        · exact ⟨d, hd, e⟩
      obtain ⟨i, d, r, e, m, s1, s2⟩ := ih h'
      refine ⟨i + 1, d, a :: r, by simp [takeFirst, ha, e], by simp [m], ?_, ?_⟩
      · intro x hx
        simp at hx ⊢
        rcases hx with rfl | hx
        · exact Or.inl rfl
        · exact Or.inr (s1 x hx)
      · intro x hx hne
        simp at hx ⊢
        rcases hx with rfl | hx
        · exact Or.inl rfl
        · exact Or.inr (s2 x hx hne)

theorem takeFirst_none (uid : Int) (l : List InternalContentData)
    (h : ∀ d ∈ l, d.content.uid ≠ uid) : takeFirst uid l = none := by
  induction l with
  | nil => rfl
  | cons a rest ih =>
    have ha : a.content.uid ≠ uid := h a (by simp)
    simp [takeFirst, ha, ih (fun d hd => h d (by simp [hd]))]

theorem takeContentSections_of_held (uid : Int) (secs : List SectionWidget)
    (h : holdsContent secs uid) :
    ∃ d secs', takeContentSections uid secs = some (d, secs') ∧ d ∈ allContents secs ∧
      (∀ x ∈ allContents secs', x ∈ allContents secs) ∧
      (∀ x ∈ allContents secs, x.content.uid ≠ uid → x ∈ allContents secs') := by
  induction secs with
  | nil => obtain ⟨d, hd, _⟩ := h; simp [allContents] at hd
  | cons s rest ih =>
    by_cases hs : ∃ d ∈ s.contents, d.content.uid = uid
    · obtain ⟨i, d, r, e, m, s1, s2⟩ := takeFirst_of_mem uid s.contents hs
      have hs' : ∃ s', s.takeContent uid = some (d, s') ∧ s'.contents = r := by
        simp [SectionWidget.takeContent, e]
      obtain ⟨s', e', rfl⟩ := hs'
      refine ⟨d, s' :: rest, by simp [takeContentSections, e'], ?_, ?_, ?_⟩
      · simp [allContents, m]
      · intro x hx
        simp only [allContents, List.mem_append] at hx ⊢
        rcases hx with hx | hx
        · exact Or.inl (s1 x hx)
        · exact Or.inr hx
      · intro x hx hne
        simp only [allContents, List.mem_append] at hx ⊢
        rcases hx with hx | hx
        · exact Or.inl (s2 x hx hne)
        · exact Or.inr hx
    · have hn : takeFirst uid s.contents = none :=
        takeFirst_none uid s.contents (fun d hd e => hs ⟨d, hd, e⟩)
      have h' : holdsContent rest uid := by
        obtain ⟨d, hd, e⟩ := h
        simp only [allContents, List.mem_append] at hd
        rcases hd with hd | hd
        · exact absurd ⟨d, hd, e⟩ hs
        · exact ⟨d, hd, e⟩
      obtain ⟨d, secs', e, m, s1, s2⟩ := ih h'
      have hn' : s.takeContent uid = none := by simp [SectionWidget.takeContent, hn]
      refine ⟨d, s :: secs', by simp [takeContentSections, hn', e], ?_, ?_, ?_⟩
      · simp [allContents, m]
      · intro x hx
        simp only [allContents, List.mem_append] at hx ⊢
        rcases hx with hx | hx
        · exact Or.inl hx
        · exact Or.inr (s1 x hx)
      · intro x hx hne
        simp only [allContents, List.mem_append] at hx ⊢
        rcases hx with hx | hx
        · exact Or.inl hx
        · exact Or.inr (s2 x hx hne)

/-- Taking a content that a section holds succeeds, returns a triple of the sections, and
touches no other content and no floating widget. -/
theorem takeContent_of_held (c : ContainerWidget) (sc : SectionContent)
    (h : holdsContent c._sections sc.uid) :
    ∃ d secs', c.takeContent sc = (true, some d, { c with _sections := secs' }) ∧
      d ∈ allContents c._sections ∧
      (∀ x ∈ allContents secs', x ∈ allContents c._sections) ∧
      (∀ x ∈ allContents c._sections, x.content.uid ≠ sc.uid → x ∈ allContents secs') ∧
      secs'.map (fun s => s.id) = c._sections.map (fun s => s.id) := by
  obtain ⟨d, secs', e, m, s1, s2⟩ := takeContentSections_of_held sc.uid c._sections h
  exact ⟨d, secs', by simp [ContainerWidget.takeContent, e], m, s1, s2,
    takeContentSections_ids sc.uid c._sections d secs' e⟩

/-! ### Restoring the floating widgets -/

theorem restoreFloatingLoop_spec (reg : QString → Option SectionContent) :
    ∀ (fs : List FloatingWidget) (rest : QByteArray) (floatings : List FloatingWidget)
      (c : ContainerWidget),
      (∀ f ∈ fs, 2 * f.content.uniqueName.length < 4294967295 ∧
        f.geometry.length < 4294967295) →
      (∀ f ∈ fs, ∀ sc, reg f.content.uniqueName = some sc →
        holdsContent c._sections sc.uid) →
      ((fs.filterMap (fun f => reg f.content.uniqueName)).map (fun sc => sc.uid)).Nodup →
      (∀ d ∈ allContents c._sections, d.titleWidget = true) →
      ∃ fl' c', restoreFloatingLoop reg fs.length (saveFloatings fs ++ rest) floatings c
          = some (rest, fl', c') ∧
        fl'.length = floatings.length +
          (fs.filter (fun f => (reg f.content.uniqueName).isSome)).length ∧
        c'._mainLayout = c._mainLayout := by
  intro fs
  induction fs with
  | nil => intro rest floatings c _ _ _ _; exact ⟨floatings, c, rfl, by simp, rfl⟩
  | cons f fs ih =>
    intro rest floatings c hfit hheld hnd hviews
    obtain ⟨hf1, hf2⟩ := hfit f (by simp)
    have hfit' : ∀ g ∈ fs, 2 * g.content.uniqueName.length < 4294967295 ∧
        g.geometry.length < 4294967295 := fun g hg => hfit g (by simp [hg])
    simp only [List.length_cons, restoreFloatingLoop, saveFloatings, List.append_assoc,
      readQString_write _ _ hf1, readQByteArray_write _ _ hf2, readBool_write]
    cases hr : reg f.content.uniqueName with
    | none =>
      have hnd' : ((fs.filterMap (fun f => reg f.content.uniqueName)).map
          (fun sc => sc.uid)).Nodup := by
        simpa [List.filterMap_cons, hr] using hnd
      obtain ⟨fl', c', e, l, m⟩ := ih rest floatings c hfit'
        (fun g hg => hheld g (by simp [hg])) hnd' hviews
      exact ⟨fl', c', e, by simp [List.filter_cons, hr, l], m⟩
    | some sc =>
      have hnd0 : (sc.uid :: (fs.filterMap (fun f => reg f.content.uniqueName)).map
          (fun sc => sc.uid)).Nodup := by
        simpa [List.filterMap_cons, hr] using hnd
      obtain ⟨hnotin, hnd'⟩ := List.nodup_cons.1 hnd0
      obtain ⟨d, secs', e, m, s1, s2, _⟩ := takeContent_of_held c sc (hheld f (by simp) sc hr)
      have hd : d.titleWidget = true := hviews d m
      have hheld' : ∀ g ∈ fs, ∀ sc', reg g.content.uniqueName = some sc' →
          holdsContent secs' sc'.uid := by
        intro g hg sc' hg'
        obtain ⟨x, hx, ex⟩ := hheld g (by simp [hg]) sc' hg'
        have hne : x.content.uid ≠ sc.uid := by
          intro e'
          apply hnotin
          rw [← e', ex]
          exact List.mem_map.2 ⟨sc', List.mem_filterMap.2 ⟨g, hg, hg'⟩, rfl⟩
        exact ⟨x, s2 x hx hne, ex⟩
      obtain ⟨fl', c', e', l, m'⟩ := ih rest
        (floatings ++
          [⟨c.nextId, sc, d.titleWidget, d.contentWidget, f.geometry, f.visible⟩])
        { c with _sections := secs', nextId := c.nextId + 1 } hfit' hheld' hnd'
        (fun x hx => hviews x (s1 x hx))
      refine ⟨fl', c', ?_, ?_, m'⟩
      · rw [hd] at e'
        simp only [e, hd, if_true]
        exact e'
      · simp only [List.filter_cons, hr, Option.isSome_some, if_true, List.length_cons, l,
          List.length_append, List.length_nil]
        omega

theorem findWidget_self (w : Widget) : w.findWidget w.id = some w := by
  cases w <;> simp [Widget.findWidget, Widget.id]

theorem filter_some_none_length (reg : QString → Option SectionContent)
    (fs : List FloatingWidget) :
    (fs.filter (fun f => (reg f.content.uniqueName).isSome)).length +
      (fs.filter (fun f => (reg f.content.uniqueName).isNone)).length = fs.length := by
  induction fs with
  | nil => rfl
  | cons f fs ih =>
    cases h : reg f.content.uniqueName <;> simp [List.filter_cons, h] <;> omega

/-- C3, as amended: for a stream saved from a container with a top-level split node that
lists N floating contents, of which exactly one name cannot be resolved while the others
resolve to contents with distinct ids held by sections of the restoring container,
`restoreState` ends with exactly N-1 floating windows and returns true: the unresolved name
is skipped without being reported as a failure. -/
theorem restoreState_unresolved_floating (reg : QString → Option SectionContent)
    (sizes : Nat → List Int) (c0 c : ContainerWidget)
    (hroot : ∃ id o cs rest, c0._mainLayout = .splitter id o cs :: rest)
    (hN : c0._floatings.length < 2147483648)
    (hfit : ∀ f ∈ c0._floatings, 2 * f.content.uniqueName.length < 4294967295 ∧
      f.geometry.length < 4294967295)
    (hone : (c0._floatings.filter (fun f => (reg f.content.uniqueName).isNone)).length = 1)
    (hheld : ∀ f ∈ c0._floatings, ∀ sc, reg f.content.uniqueName = some sc →
      holdsContent c._sections sc.uid)
    (hnd : ((c0._floatings.filterMap (fun f => reg f.content.uniqueName)).map
      (fun sc => sc.uid)).Nodup)
    (hviews : ∀ d ∈ allContents c._sections, d.titleWidget = true) :
    ∃ c', c.restoreState reg (c0.saveState sizes) = some (true, c') ∧
      c'._floatings.length + 1 = c0._floatings.length := by
  obtain ⟨rid, ro, rcs, rrest, hl⟩ := hroot
  have hcount := filter_some_none_length reg c0._floatings
  have hpos : (0 : Int) < (c0._floatings.length : Int) := by omega
  have hNr : -2147483648 ≤ (c0._floatings.length : Int) ∧
      (c0._floatings.length : Int) < 2147483648 := by omega
  obtain ⟨fl', c1, e1, l1, m1⟩ := restoreFloatingLoop_spec reg c0._floatings
    (saveGeometryWalkList sizes c0._sections c0._mainLayout) [] c hfit hheld hnd hviews
  have hfw : c.restoreFloatingWidgets reg
      (writeInt32 c0._floatings.length ++ (saveFloatings c0._floatings ++
        saveGeometryWalkList sizes c0._sections c0._mainLayout))
      = some (true, saveGeometryWalkList sizes c0._sections c0._mainLayout, fl', c1) := by
    simp only [ContainerWidget.restoreFloatingWidgets, readInt32_write _ _ hNr,
      Int.toNat_ofNat, e1, Option.map_some']
    rw [if_neg (by omega)]
  have htype : (readInt32 (saveGeometryWalkList sizes c0._sections c0._mainLayout)).1 = 1 := by
    rw [hl]
    simp only [saveGeometryWalkList, saveGeometryWalk, List.append_assoc]
    rw [readInt32_write _ _ (by decide)]
  obtain ⟨b, fr', e2, _, lay, _, hnone⟩ := restoreSectionWidgets_total reg
    ((saveGeometryWalkList sizes c0._sections c0._mainLayout).length + 1)
    { inp := saveGeometryWalkList sizes c0._sections c0._mainLayout, currentSplitter := none,
      sections := [], c := c1, root := none } (by simp)
  obtain ⟨rfl, w, hw1, hw2⟩ := hnone rfl htype
  have key : ∃ c', c.restoreState reg (c0.saveState sizes) = some (true, c') ∧
      c'._floatings = fl' := by
    simp only [ContainerWidget.restoreState, ContainerWidget.saveState, List.append_assoc,
      readUInt32_write _ _ (show 0x00001337 < 4294967296 by decide),
      readUInt32_write _ _ (show 1 < 4294967296 by decide), ne_eq, not_true_eq_false,
      if_false, hfw, e2, hw1, hw2, Option.toList, List.cons_append, findWidgetList,
      findWidget_self]
    exact ⟨_, rfl, rfl⟩
  obtain ⟨c', hc, hfl⟩ := key
  refine ⟨c', hc, ?_⟩
  rw [hfl, l1]
  simp only [List.length_nil]
  omega

theorem restoreState_unresolved_floating_witness :
    ∃ c', twoSections.restoreState exampleRegistry (savedWithFloatings.saveState (fun _ => []))
        = some (true, c') ∧
      c'._floatings.length + 1 = savedWithFloatings._floatings.length :=
  restoreState_unresolved_floating exampleRegistry (fun _ => []) savedWithFloatings twoSections
    ⟨1, Qt.Horizontal, [.section 0], [], rfl⟩ (by decide) (by decide) (by decide)
    (by
      intro f hf sc h
      simp only [savedWithFloatings, List.mem_cons, List.mem_singleton, List.not_mem_nil,
        or_false] at hf
      rcases hf with rfl | rfl
      · have e : sc = exampleContent 1 := by
          have : exampleRegistry (exampleContent 1).uniqueName = some (exampleContent 1) := rfl
          rw [this] at h
          exact (Option.some.inj h).symm
        subst e
        exact ⟨exampleData 1, by decide, rfl⟩
      · have : exampleRegistry (exampleContent 11).uniqueName = none := rfl
        rw [this] at h
        exact absurd h (by simp))
    (by decide) (by decide)

/-- C3, as the claim states it, fails: a saved stream that lists two floating contents, one of
them unresolvable, leaves one floating window and `restoreState` returns true. -/
theorem restoreState_unresolved_returns_true :
    (twoSections.restoreState exampleRegistry
        (savedWithFloatings.saveState (fun _ => []))).map
      (fun r => (r.1, r.2._floatings.length)) = some (true, 1) := by
  decide

/-! ### The round trip: what the restore of a saved tree computes -/

theorem takeContent_eq_of_held (c : ContainerWidget) (sc : SectionContent)
    (h : holdsContent c._sections sc.uid) :
    (c.takeContent sc).1 = true ∧
      (c.takeContent sc).2.2 = { c with _sections := sectionsAfterTake sc.uid c._sections } := by
  obtain ⟨d, secs', e, _⟩ := takeContentSections_of_held sc.uid c._sections h
  simp [ContainerWidget.takeContent, sectionsAfterTake, e]

theorem holds_after_take (u v : Int) (secs : List SectionWidget) (h : holdsContent secs v)
    (hne : v ≠ u) : holdsContent (sectionsAfterTake u secs) v := by
  unfold sectionsAfterTake
  cases e : takeContentSections u secs with
  | none => exact h
  | some r =>
    obtain ⟨r1, r2⟩ := r
    have hu : holdsContent secs u := by
      by_contra hc
      have : takeContentSections u secs = none := by
        clear e h
        induction secs with
        | nil => rfl
        | cons s rest ih =>
          have hs : takeFirst u s.contents = none :=
            takeFirst_none u s.contents (fun d hd e' => hc ⟨d, by simp [allContents, hd], e'⟩)
          have hr : ¬ holdsContent rest u := by
            rintro ⟨d, hd, e'⟩
            exact hc ⟨d, by simp [allContents, hd], e'⟩
          simp [takeContentSections, SectionWidget.takeContent, hs, ih hr]
      rw [this] at e
      exact absurd e (by simp)
    obtain ⟨d, secs', e', _, _, s2⟩ := takeContentSections_of_held u secs hu
    rw [e'] at e
    simp only [Option.some.injEq, Prod.mk.injEq] at e
    obtain ⟨_, rfl⟩ := e
    obtain ⟨x, hx, ex⟩ := h
    exact ⟨x, s2 x hx (by rw [ex]; exact hne), ex⟩

theorem holds_after_takeAll (us : List Int) (v : Int) :
    ∀ secs : List SectionWidget, holdsContent secs v → v ∉ us →
      holdsContent (takeAll us secs) v := by
  induction us with
  | nil => intro secs h _; exact h
  | cons u us ih =>
    intro secs h hv
    simp only [List.mem_cons, not_or] at hv
    exact ih _ (holds_after_take u v secs h hv.1) hv.2

theorem takeAll_append (us vs : List Int) (secs : List SectionWidget) :
    takeAll (us ++ vs) secs = takeAll vs (takeAll us secs) := by
  simp [takeAll, List.foldl_append]

/-- The content loop on the saved names of a section whose contents the sections hold. -/
theorem restoreContents_saved (reg : QString → Option SectionContent) :
    ∀ (ds : List InternalContentData) (rest : QByteArray) (sw : SectionWidget)
      (c : ContainerWidget),
      (∀ d ∈ ds, 2 * d.content.uniqueName.length < 4294967295) →
      (∀ d ∈ ds, reg d.content.uniqueName = some d.content) →
      (∀ d ∈ ds, holdsContent c._sections d.content.uid) →
      (ds.map (fun d => d.content.uid)).Nodup →
      restoreContents reg ds.length (writeNames ds ++ rest) sw c
        = (rest, ds.foldl (fun s d => s.addContentRef d.content) sw,
            { c with _sections := takeAll (ds.map (fun d => d.content.uid)) c._sections }) := by
  intro ds
  induction ds with
  | nil => intro rest sw c _ _ _ _; rfl
  | cons d ds ih =>
    intro rest sw c hfit hreg hheld hnd
    have hd := hfit d (by simp)
    obtain ⟨t1, t2⟩ := takeContent_eq_of_held c d.content (hheld d (by simp))
    simp only [List.map_cons, List.nodup_cons] at hnd
    simp only [List.length_cons, restoreContents, writeNames, List.append_assoc,
      readQString_write _ _ hd, hreg d (by simp), t1, t2, if_true]
    rw [ih rest _ _ (fun x hx => hfit x (by simp [hx])) (fun x hx => hreg x (by simp [hx]))
      ?_ hnd.2]
    · rfl
    · intro x hx
      refine holds_after_take _ _ _ (hheld x (by simp [hx])) ?_
      intro e
      exact hnd.1 (List.mem_map.2 ⟨x, hx, e⟩)

theorem foldl_addChild (id : Nat) (o : Int) (ws cs : List Widget) :
    ws.foldl Widget.addChild (.splitter id o cs) = .splitter id o (cs ++ ws) := by
  induction ws generalizing cs with
  | nil => simp
  | cons w ws ih => simp [List.foldl_cons, Widget.addChild, addWidget, ih]

theorem length_writeInt32 (v : Int) : (writeInt32 v).length = 4 := rfl

theorem foldl_addContentRef_id (ds : List InternalContentData) (s : SectionWidget) :
    (ds.foldl (fun s d => s.addContentRef d.content) s).id = s.id := by
  induction ds generalizing s with
  | nil => rfl
  | cons d ds ih => simp only [List.foldl_cons, ih]; rfl

theorem setCurrentIndex_id (s : SectionWidget) (i : Int) : (s.setCurrentIndex i).id = s.id := by
  unfold SectionWidget.setCurrentIndex
  split <;> rfl

theorem restoredSection_id (n : Nat) (sw : SectionWidget) : (restoredSection n sw).id = n := by
  simp only [restoredSection, setCurrentIndex_id, foldl_addContentRef_id]
  rfl

/-- The restore of the saved form of a widget below a splitter: it consumes exactly that
form, appends the rebuilt widget to the splitter, and takes the saved contents out of the
sections of the container. -/
theorem restore_saved (reg : QString → Option SectionContent) (sizes : Nat → List Int)
    (S0 : List SectionWidget) :
    (∀ w : Widget, ∀ (fuel : Nat) (rest : QByteArray) (p : Widget) (acc : List SectionWidget)
        (c : ContainerWidget) (r : Option Widget),
      w.wellTyped sizes S0 → (saveGeometryWalk sizes S0 w ++ rest).length < fuel →
      (∀ d ∈ w.savedContents S0, reg d.content.uniqueName = some d.content) →
      (∀ d ∈ w.savedContents S0, holdsContent c._sections d.content.uid) →
      ((w.savedContents S0).map (fun d => d.content.uid)).Nodup →
      restoreSectionWidgets reg fuel
          { inp := saveGeometryWalk sizes S0 w ++ rest, currentSplitter := some p,
            sections := acc, c := c, root := r }
        = some (true,
            { inp := rest
              currentSplitter := some (p.addChild (w.rebuild S0 c.nextId).1)
              sections := acc ++ (w.rebuild S0 c.nextId).2.1
              c := { c with
                _sections :=
                  takeAll ((w.savedContents S0).map (fun d => d.content.uid)) c._sections
                nextId := (w.rebuild S0 c.nextId).2.2 }
              root := r })) ∧
    (∀ l : List Widget, ∀ (fuel : Nat) (rest : QByteArray) (p : Widget)
        (acc : List SectionWidget) (c : ContainerWidget) (r : Option Widget),
      wellTypedList sizes S0 l → (saveGeometryWalkList sizes S0 l ++ rest).length < fuel →
      (∀ d ∈ savedContentsList S0 l, reg d.content.uniqueName = some d.content) →
      (∀ d ∈ savedContentsList S0 l, holdsContent c._sections d.content.uid) →
      ((savedContentsList S0 l).map (fun d => d.content.uid)).Nodup →
      restoreChildren (restoreSectionWidgets reg fuel) l.length
          { inp := saveGeometryWalkList sizes S0 l ++ rest, currentSplitter := some p,
            sections := acc, c := c, root := r }
        = some (true,
            { inp := rest
              currentSplitter := some ((rebuildList S0 l c.nextId).1.foldl Widget.addChild p)
              sections := acc ++ (rebuildList S0 l c.nextId).2.1
              c := { c with
                _sections :=
                  takeAll ((savedContentsList S0 l).map (fun d => d.content.uid)) c._sections
                nextId := (rebuildList S0 l c.nextId).2.2 }
              root := r })) := by
  apply Widget.rec2
  · -- a section
    intro id fuel rest p acc c r hwt hlen hreg hheld hnd
    cases fuel with
    | zero => exact absurd hlen (by omega)
    | succ k =>
      simp only [Widget.wellTyped] at hwt
      cases hf : S0.find? (fun s => s.id = id) with
      | none => simp [hf] at hwt
      | some sw =>
        simp only [hf] at hwt
        obtain ⟨h1, h2, h3⟩ := hwt
        simp only [Widget.savedContents, hf] at hreg hheld hnd
        have hcount : (-2147483648 : Int) ≤ (sw.contents.length : Int) ∧
            (sw.contents.length : Int) < 2147483648 := by omega
        have hrc := restoreContents_saved reg sw.contents rest (SectionWidget.new c.nextId)
          { c with nextId := c.nextId + 1 } h3 hreg hheld hnd
        simp only [restoreSectionWidgets, saveGeometryWalk, hf, List.append_assoc,
          readInt32_write 2 _ (by decide), readInt32_write _ _ h2,
          readInt32_write _ _ hcount, Int.toNat_ofNat, hrc, Widget.rebuild,
          Widget.savedContents]
        have hid := restoredSection_id c.nextId sw
        simp only [restoredSection] at hid ⊢
        simp [hid]
  · -- a splitter
    intro id o cs ih fuel rest p acc c r hwt hlen hreg hheld hnd
    cases fuel with
    | zero => exact absurd hlen (by omega)
    | succ k =>
      simp only [Widget.wellTyped] at hwt
      obtain ⟨h1, h2, h3, h4⟩ := hwt
      simp only [Widget.savedContents] at hreg hheld hnd
      have hcount : (-2147483648 : Int) ≤ (cs.length : Int) ∧
          (cs.length : Int) < 2147483648 := by omega
      have ho : (-2147483648 : Int) ≤ (if o = Qt.Horizontal then 1 else 2) ∧
          ((if o = Qt.Horizontal then 1 else 2) : Int) < 2147483648 := by
        split <;> decide
      have hlen' : (saveGeometryWalkList sizes S0 cs ++ rest).length < k := by
        simp only [saveGeometryWalk, List.length_append, length_writeInt32] at hlen ⊢
        omega
      have hch := ih k rest (newSplitter c.nextId (if o = Qt.Horizontal then 1 else 2)) acc
        { c with nextId := c.nextId + 1 } r h4 hlen' hreg hheld hnd
      simp only [newSplitter] at hch
      simp only [restoreSectionWidgets, saveGeometryWalk, List.append_assoc,
        readInt32_write 1 _ (by decide), readInt32_write _ _ ho,
        readInt32_write _ _ hcount, readIntList_write _ _ h2 h3, Int.toNat_ofNat, if_true,
        hch, Widget.rebuild, Widget.savedContents, newSplitter, foldl_addChild,
        Option.getD_some, List.nil_append]
  · -- no child
    intro fuel rest p acc c r _ _ _ _ _
    simp [restoreChildren, saveGeometryWalkList, rebuildList, savedContentsList, takeAll]
  · -- a child and its siblings
    intro w ws ihw ihws fuel rest p acc c r hwt hlen hreg hheld hnd
    simp only [wellTypedList] at hwt
    simp only [savedContentsList, List.mem_append, List.map_append] at hreg hheld hnd
    obtain ⟨n1, n2, n3⟩ := List.nodup_append.1 hnd
    have hlen1 : (saveGeometryWalk sizes S0 w ++
        (saveGeometryWalkList sizes S0 ws ++ rest)).length < fuel := by
      simpa [saveGeometryWalkList, List.append_assoc] using hlen
    have hlen2 : (saveGeometryWalkList sizes S0 ws ++ rest).length < fuel := by
      simp only [List.length_append] at hlen1 ⊢
      omega
    have e1 := ihw fuel (saveGeometryWalkList sizes S0 ws ++ rest) p acc c r hwt.1 hlen1
      (fun d hd => hreg d (Or.inl hd)) (fun d hd => hheld d (Or.inl hd)) n1
    have e2 := ihws fuel rest (p.addChild (w.rebuild S0 c.nextId).1)
      (acc ++ (w.rebuild S0 c.nextId).2.1)
      { c with
        _sections := takeAll ((w.savedContents S0).map (fun d => d.content.uid)) c._sections
        nextId := (w.rebuild S0 c.nextId).2.2 } r hwt.2 hlen2
      (fun d hd => hreg d (Or.inr hd))
      (fun d hd => holds_after_takeAll _ _ _ (hheld d (Or.inr hd))
        (fun hm => n3 hm (List.mem_map.2 ⟨d, hd, rfl⟩)))
      n2
    simp only [List.length_cons, restoreChildren, saveGeometryWalkList, List.append_assoc, e1,
      e2, rebuildList, savedContentsList, List.map_append, takeAll_append, List.foldl_cons]

/-- The restore of the saved form of a top-level splitter: `_splitter` is set to the rebuilt
splitter, which is not in the layout yet. -/
theorem restore_saved_root (reg : QString → Option SectionContent) (sizes : Nat → List Int)
    (S0 : List SectionWidget) (id : Nat) (o : Int) (cs : List Widget) (fuel : Nat)
    (rest : QByteArray) (acc : List SectionWidget) (c : ContainerWidget) (r : Option Widget)
    (hwt : (Widget.splitter id o cs).wellTyped sizes S0)
    (hlen : (saveGeometryWalk sizes S0 (.splitter id o cs) ++ rest).length < fuel)
    (hreg : ∀ d ∈ (Widget.splitter id o cs).savedContents S0,
      reg d.content.uniqueName = some d.content)
    (hheld : ∀ d ∈ (Widget.splitter id o cs).savedContents S0,
      holdsContent c._sections d.content.uid)
    (hnd : (((Widget.splitter id o cs).savedContents S0).map (fun d => d.content.uid)).Nodup) :
    restoreSectionWidgets reg fuel
        { inp := saveGeometryWalk sizes S0 (.splitter id o cs) ++ rest,
          currentSplitter := none, sections := acc, c := c, root := r }
      = some (true,
          { inp := rest
            currentSplitter := none
            sections := acc ++ ((Widget.splitter id o cs).rebuild S0 c.nextId).2.1
            c := { c with
              _splitter := some c.nextId
              _sections :=
                takeAll (((Widget.splitter id o cs).savedContents S0).map
                  (fun d => d.content.uid)) c._sections
              nextId := ((Widget.splitter id o cs).rebuild S0 c.nextId).2.2 }
            root := some ((Widget.splitter id o cs).rebuild S0 c.nextId).1 }) := by
  cases fuel with
  | zero => exact absurd hlen (by omega)
  | succ k =>
    simp only [Widget.wellTyped] at hwt
    obtain ⟨h1, h2, h3, h4⟩ := hwt
    simp only [Widget.savedContents] at hreg hheld hnd
    have hcount : (-2147483648 : Int) ≤ (cs.length : Int) ∧
        (cs.length : Int) < 2147483648 := by omega
    have ho : (-2147483648 : Int) ≤ (if o = Qt.Horizontal then 1 else 2) ∧
        ((if o = Qt.Horizontal then 1 else 2) : Int) < 2147483648 := by
      split <;> decide
    have hlen' : (saveGeometryWalkList sizes S0 cs ++ rest).length < k := by
      simp only [saveGeometryWalk, List.length_append, length_writeInt32] at hlen ⊢
      omega
    have hch := (restore_saved reg sizes S0).2 cs k rest
      (newSplitter c.nextId (if o = Qt.Horizontal then 1 else 2)) acc
      { c with nextId := c.nextId + 1 } r h4 hlen' hreg hheld hnd
    simp only [newSplitter] at hch
    simp only [restoreSectionWidgets, saveGeometryWalk, List.append_assoc,
      readInt32_write 1 _ (by decide), readInt32_write _ _ ho,
      readInt32_write _ _ hcount, readIntList_write _ _ h2 h3, Int.toNat_ofNat, if_true,
      hch, Widget.rebuild, Widget.savedContents, newSplitter, foldl_addChild,
      Option.getD_some, List.nil_append, Widget.id]

/-- The widgets and sections that a rebuild creates have identities from the allocation
counter on. -/
theorem rebuild_bounds (S0 : List SectionWidget) :
    (∀ w : Widget, ∀ n, n < (w.rebuild S0 n).2.2 ∧
      (∀ i ∈ (w.rebuild S0 n).1.ids, n ≤ i) ∧
      (∀ s ∈ (w.rebuild S0 n).2.1, n ≤ s.id ∧ s.id < (w.rebuild S0 n).2.2)) ∧
    (∀ l : List Widget, ∀ n, n ≤ (rebuildList S0 l n).2.2 ∧
      (∀ i ∈ idsList (rebuildList S0 l n).1, n ≤ i) ∧
      (∀ s ∈ (rebuildList S0 l n).2.1, n ≤ s.id ∧ s.id < (rebuildList S0 l n).2.2)) := by
  apply Widget.rec2
  · intro id n
    simp only [Widget.rebuild]
    cases S0.find? (fun s => s.id = id) with
    | none => simp
    | some sw => simp [restoredSection_id]
  · intro id o cs ih n
    obtain ⟨a, b, d⟩ := ih (n + 1)
    simp only [Widget.rebuild, ids_splitter, List.mem_cons]
    refine ⟨by omega, ?_, ?_⟩
    · rintro i (rfl | hi)
      · exact le_refl _
      · have := b i hi; omega
    · intro s hs
      have := d s hs; omega
  · intro n; simp [rebuildList]
  · intro w ws ihw ihws n
    obtain ⟨a1, b1, d1⟩ := ihw n
    obtain ⟨a2, b2, d2⟩ := ihws (w.rebuild S0 n).2.2
    simp only [rebuildList, idsList_cons, List.mem_append]
    refine ⟨by omega, ?_, ?_⟩
    · rintro i (hi | hi)
      · exact b1 i hi
      · have := b2 i hi; omega
    · rintro s (hs | hs)
      · have := d1 s hs; omega
      · have := d2 s hs; omega

theorem foldl_addContentRef_contents (ds : List InternalContentData) (s : SectionWidget) :
    (ds.foldl (fun s d => s.addContentRef d.content) s).contents
      = s.contents ++ ds.map
          (fun d => { content := d.content, titleWidget := true, contentWidget := true }) := by
  induction ds generalizing s with
  | nil => simp
  | cons d ds ih =>
    simp only [List.foldl_cons, ih, List.map_cons]
    simp [SectionWidget.addContentRef, SectionWidget.addContent]

/-- The section restored from the saved form of a section with a valid current index has
the same contents in the same order and the same current index. -/
theorem restoredSection_shape (n : Nat) (sw : SectionWidget) (hv : sw.validIndex) :
    (restoredSection n sw).contentRefs = sw.contentRefs ∧
      (restoredSection n sw).currentIndex = sw.currentIndex := by
  have hc := foldl_addContentRef_contents sw.contents (SectionWidget.new n)
  have hlen : (sw.contents.foldl (fun s d => s.addContentRef d.content)
      (SectionWidget.new n)).contents.length = sw.contents.length := by
    rw [hc]; simp [SectionWidget.new]
  constructor
  · have : (restoredSection n sw).contents = sw.contents.map
        (fun d => { content := d.content, titleWidget := true, contentWidget := true }) := by
      have hc' : (SectionWidget.new n).contents = [] := rfl
      simp only [restoredSection, SectionWidget.setCurrentIndex]
      split <;> simp only [hc, hc', List.nil_append]
    simp [SectionWidget.contentRefs, this]
  · simp only [restoredSection, SectionWidget.setCurrentIndex, hlen]
    rcases hv with ⟨h1, h2⟩ | h
    · rw [if_neg (by omega), h1, h2]
      rfl
    · rw [if_pos h]

theorem find_append_new (pre post : List SectionWidget) (rs : SectionWidget) (n : Nat)
    (hpre : ∀ s ∈ pre, s.id < n) (hid : rs.id = n) :
    (pre ++ [rs] ++ post).find? (fun s => s.id = n) = some rs := by
  induction pre with
  | nil => simp [List.find?, hid]
  | cons a pre ih =>
    have ha : a.id ≠ n := Nat.ne_of_lt (hpre a (by simp))
    simp only [List.cons_append, List.find?, ha, decide_False]
    exact ih (fun s hs => hpre s (by simp [hs]))

/-- The rebuilt tree has the shape of the saved one. -/
theorem rebuild_shape (sizes : Nat → List Int) (S0 : List SectionWidget)
    (hvalid : ∀ s ∈ S0, s.validIndex) :
    (∀ w : Widget, ∀ (n : Nat) (pre post : List SectionWidget),
      w.wellTyped sizes S0 → w.validOrientation → (∀ s ∈ pre, s.id < n) →
      (w.rebuild S0 n).1.shape (pre ++ (w.rebuild S0 n).2.1 ++ post) = w.shape S0) ∧
    (∀ l : List Widget, ∀ (n : Nat) (pre post : List SectionWidget),
      wellTypedList sizes S0 l → validOrientationList l → (∀ s ∈ pre, s.id < n) →
      shapeList (pre ++ (rebuildList S0 l n).2.1 ++ post) (rebuildList S0 l n).1
        = shapeList S0 l) := by
  apply Widget.rec2
  · intro id n pre post hwt _ hpre
    simp only [Widget.wellTyped] at hwt
    cases hf : S0.find? (fun s => s.id = id) with
    | none => simp [hf] at hwt
    | some sw =>
      have hsw : sw ∈ S0 := List.mem_of_find?_eq_some hf
      obtain ⟨h1, h2⟩ := restoredSection_shape n sw (hvalid sw hsw)
      simp only [Widget.rebuild, hf, Widget.shape,
        find_append_new pre post _ n hpre (restoredSection_id n sw), h1, h2]
  · intro id o cs ih n pre post hwt hvo hpre
    simp only [Widget.wellTyped] at hwt
    simp only [Widget.validOrientation] at hvo
    have ho : (if o = Qt.Horizontal then (1 : Int) else 2) = o := by
      rcases hvo.1 with h | h
      · simp [h, Qt.Horizontal]
      · simp [h, Qt.Horizontal, Qt.Vertical]
    simp only [Widget.rebuild, Widget.shape, ho,
      ih (n + 1) pre post hwt.2.2.2 hvo.2 (fun s hs => Nat.lt_succ_of_lt (hpre s hs))]
  · intro n pre post _ _ _
    simp [rebuildList, shapeList]
  · intro w ws ihw ihws n pre post hwt hvo hpre
    simp only [wellTypedList] at hwt
    simp only [validOrientationList] at hvo
    obtain ⟨a1, _, d1⟩ := (rebuild_bounds S0).1 w n
    have e1 := ihw n pre ((rebuildList S0 ws (w.rebuild S0 n).2.2).2.1 ++ post) hwt.1 hvo.1 hpre
    have e2 := ihws (w.rebuild S0 n).2.2 (pre ++ (w.rebuild S0 n).2.1) post hwt.2 hvo.2
      (by
        intro s hs
        rcases List.mem_append.1 hs with h | h
        · exact lt_trans (hpre s h) a1
        · exact (d1 s h).2)
    simp only [rebuildList, shapeList]
    simp only [List.append_assoc] at e1 e2 ⊢
    rw [e1, e2]

theorem deleteSections_of_not_mem (old : List SectionWidget) (l : List Widget)
    (h : ∀ s ∈ old, s.id ∉ idsList l) : deleteSections old l = l := by
  induction old with
  | nil => rfl
  | cons s rest ih =>
    simp only [deleteSections, List.foldl_cons,
      (removeWidget_of_not_mem s.id).2 l (h s (by simp))]
    exact ih (fun x hx => h x (by simp [hx]))

theorem savedContents_mem (secs : List SectionWidget) :
    (∀ w : Widget, ∀ d ∈ w.savedContents secs, d ∈ allContents secs) ∧
    (∀ l : List Widget, ∀ d ∈ savedContentsList secs l, d ∈ allContents secs) := by
  have key : ∀ (ss : List SectionWidget) (sw : SectionWidget), sw ∈ ss →
      ∀ d ∈ sw.contents, d ∈ allContents ss := by
    intro ss
    induction ss with
    | nil => intro sw h; simp at h
    | cons a ss ih =>
      intro sw h d hd
      simp only [allContents, List.mem_append]
      simp only [List.mem_cons] at h
      rcases h with rfl | h
      · exact Or.inl hd
      · exact Or.inr (ih sw h d hd)
  apply Widget.rec2
  · intro id d hd
    simp only [Widget.savedContents] at hd
    cases hf : secs.find? (fun s => s.id = id) with
    | none => simp [hf] at hd
    | some sw =>
      simp only [hf] at hd
      exact key secs sw (List.mem_of_find?_eq_some hf) d hd
  · intro id o cs ih d hd
    exact ih d (by simpa [Widget.savedContents] using hd)
  · intro d hd; simp [savedContentsList] at hd
  · intro w ws ihw ihws d hd
    simp only [savedContentsList, List.mem_append] at hd
    rcases hd with h | h
    · exact ihw d h
    · exact ihws d h


/-- The round trip between two containers: a stream saved by `c0` and restored into `c`. -/
theorem restoreState_of_saved (reg : QString → Option SectionContent)
    (sizes : Nat → List Int) (c0 c : ContainerWidget) (id : Nat) (o : Int) (cs : List Widget)
    (hl : c0._mainLayout = [.splitter id o cs])
    (hfl : c0._floatings = [])
    (hwt : wellTypedList sizes c0._sections c0._mainLayout)
    (hvo : validOrientationList c0._mainLayout)
    (hvalid : ∀ s ∈ c0._sections, s.validIndex)
    (hreg : ∀ d ∈ savedContentsList c0._sections c0._mainLayout,
      reg d.content.uniqueName = some d.content)
    (hnd : ((savedContentsList c0._sections c0._mainLayout).map
      (fun d => d.content.uid)).Nodup)
    (hheld : ∀ d ∈ savedContentsList c0._sections c0._mainLayout,
      holdsContent c._sections d.content.uid)
    (hone : c._mainLayout.length ≤ 1)
    (hfresh : ∀ s ∈ c._sections, s.id < c.nextId) :
    c.restoreState reg (c0.saveState sizes) = some (true,
      { c with
        _mainLayout := [((Widget.splitter id o cs).rebuild c0._sections c.nextId).1]
        _splitter := some c.nextId
        _sections := ((Widget.splitter id o cs).rebuild c0._sections c.nextId).2.1
        _floatings := []
        nextId := ((Widget.splitter id o cs).rebuild c0._sections c.nextId).2.2 }) ∧
    shapeList ((Widget.splitter id o cs).rebuild c0._sections c.nextId).2.1
        [((Widget.splitter id o cs).rebuild c0._sections c.nextId).1]
      = shapeList c0._sections c0._mainLayout ∧
    (∀ i ∈ ((Widget.splitter id o cs).rebuild c0._sections c.nextId).1.ids, c.nextId ≤ i) ∧
    (∀ s ∈ ((Widget.splitter id o cs).rebuild c0._sections c.nextId).2.1, c.nextId ≤ s.id) := by
  rw [hl] at hwt hvo hnd hreg hheld
  simp only [wellTypedList, and_true] at hwt
  simp only [validOrientationList, and_true] at hvo
  simp only [savedContentsList, List.append_nil] at hnd hreg hheld
  have hroot := restore_saved_root reg sizes c0._sections id o cs
    ((saveGeometryWalk sizes c0._sections (.splitter id o cs) ++ []).length + 1) [] [] c none
    hwt (by omega) hreg hheld hnd
  simp only [List.append_nil, List.nil_append] at hroot
  obtain ⟨b1, b2, b3⟩ := (rebuild_bounds c0._sections).1 (.splitter id o cs) c.nextId
  have hdel : deleteSections c._sections
      [((Widget.splitter id o cs).rebuild c0._sections c.nextId).1]
      = [((Widget.splitter id o cs).rebuild c0._sections c.nextId).1] := by
    apply deleteSections_of_not_mem
    intro s hs hm
    simp only [idsList_cons, idsList_nil, List.append_nil] at hm
    have := b2 _ hm
    have := hfresh s hs
    omega
  have hshape := (rebuild_shape sizes c0._sections hvalid).1 (.splitter id o cs) c.nextId [] []
    hwt hvo (by simp)
  simp only [List.nil_append, List.append_nil] at hshape
  have hid : ((Widget.splitter id o cs).rebuild c0._sections c.nextId).1.id = c.nextId := rfl
  have hfind : ((Widget.splitter id o cs).rebuild c0._sections c.nextId).1.findWidget c.nextId
      = some ((Widget.splitter id o cs).rebuild c0._sections c.nextId).1 := by
    have := findWidget_self ((Widget.splitter id o cs).rebuild c0._sections c.nextId).1
    rwa [hid] at this
  have htail : c._mainLayout.tail = [] := by
    cases hc : c._mainLayout with
    | nil => rfl
    | cons w l =>
      cases l with
      | nil => rfl
      | cons w2 l2 =>
        rw [hc] at hone
        simp only [List.length_cons] at hone
        omega
  refine ⟨?_, ?_, b2, fun s hs => (b3 s hs).1⟩
  · simp only [ContainerWidget.restoreState, ContainerWidget.saveState, List.append_assoc,
      readUInt32_write _ _ (show 0x00001337 < 4294967296 by decide),
      readUInt32_write _ _ (show 1 < 4294967296 by decide), ne_eq, not_true_eq_false,
      if_false, hfl, List.length_nil, saveFloatings, List.nil_append,
      ContainerWidget.restoreFloatingWidgets, Nat.cast_zero,
      readInt32_write 0 _ (by decide), le_refl, if_true, hl, saveGeometryWalkList,
      List.append_nil, hroot, Option.toList, List.cons_append, findWidgetList, hfind,
      htail, removeWidgetList, hdel]
  · simp only [shapeList, hl, hshape]

/-- The round trip on one container, the case of `restoreState_of_saved` in which the
container that restores is the container that saved. -/
theorem restoreState_own_saveState (reg : QString → Option SectionContent)
    (sizes : Nat → List Int) (c : ContainerWidget) (id : Nat) (o : Int) (cs : List Widget)
    (hl : c._mainLayout = [.splitter id o cs])
    (hfl : c._floatings = [])
    (hfresh : ∀ s ∈ c._sections, s.id < c.nextId)
    (hwt : wellTypedList sizes c._sections c._mainLayout)
    (hvo : validOrientationList c._mainLayout)
    (hvalid : ∀ s ∈ c._sections, s.validIndex)
    (hreg : ∀ d ∈ allContents c._sections, reg d.content.uniqueName = some d.content)
    (hnd : ((savedContentsList c._sections c._mainLayout).map
      (fun d => d.content.uid)).Nodup) :
    c.restoreState reg (c.saveState sizes) = some (true,
      { c with
        _mainLayout := [((Widget.splitter id o cs).rebuild c._sections c.nextId).1]
        _splitter := some c.nextId
        _sections := ((Widget.splitter id o cs).rebuild c._sections c.nextId).2.1
        _floatings := []
        nextId := ((Widget.splitter id o cs).rebuild c._sections c.nextId).2.2 }) ∧
    shapeList ((Widget.splitter id o cs).rebuild c._sections c.nextId).2.1
        [((Widget.splitter id o cs).rebuild c._sections c.nextId).1]
      = shapeList c._sections c._mainLayout ∧
    (∀ i ∈ ((Widget.splitter id o cs).rebuild c._sections c.nextId).1.ids, c.nextId ≤ i) ∧
    (∀ s ∈ ((Widget.splitter id o cs).rebuild c._sections c.nextId).2.1, c.nextId ≤ s.id) := by
  have hmem := (savedContents_mem c._sections).2 c._mainLayout
  exact restoreState_of_saved reg sizes c c id o cs hl hfl hwt hvo hvalid
    (fun d hd => hreg d (hmem d hd)) hnd (fun d hd => ⟨d, hmem d hd, rfl⟩)
    (by rw [hl]; exact Nat.le_refl 1) hfresh

/-- C1: `restoreState` applied to the bytes of `saveState` returns true and rebuilds the saved
tree. The bytes are saved by a container `c0` whose layout holds a root split node with
orientations of `Qt::Orientation`, whose contents all live in its sections (no floating
window) and resolve by unique name in the registry to themselves. They are restored into a
container `c`, either `c0` itself or any container whose sections hold the saved contents and
whose layout holds at most one item. The result is determined by the bytes: the layout of `c`
becomes one new root split node, designated by `_splitter`, with new sections, every object
identity of it allocated by the restore, and it has the shape of the saved tree: same split
orientations, same child order at every split node, same tab order and same current index in
every section. -/
theorem restoreState_saveState (reg : QString → Option SectionContent)
    (sizes : Nat → List Int) (c0 c : ContainerWidget) (id : Nat) (o : Int) (cs : List Widget)
    (hl : c0._mainLayout = [.splitter id o cs])
    (hfl : c0._floatings = [])
    (hwt : wellTypedList sizes c0._sections c0._mainLayout)
    (hvo : validOrientationList c0._mainLayout)
    (hvalid : ∀ s ∈ c0._sections, s.validIndex)
    (hreg : ∀ d ∈ savedContentsList c0._sections c0._mainLayout,
      reg d.content.uniqueName = some d.content)
    (hnd : ((savedContentsList c0._sections c0._mainLayout).map
      (fun d => d.content.uid)).Nodup)
    (hheld : c = c0 ∨ ∀ d ∈ savedContentsList c0._sections c0._mainLayout,
      holdsContent c._sections d.content.uid)
    (hone : c._mainLayout.length ≤ 1)
    (hfresh : ∀ s ∈ c._sections, s.id < c.nextId) :
    c.restoreState reg (c0.saveState sizes) = some (true,
      { c with
        _mainLayout := [((Widget.splitter id o cs).rebuild c0._sections c.nextId).1]
        _splitter := some c.nextId
        _sections := ((Widget.splitter id o cs).rebuild c0._sections c.nextId).2.1
        _floatings := []
        nextId := ((Widget.splitter id o cs).rebuild c0._sections c.nextId).2.2 }) ∧
    shapeList ((Widget.splitter id o cs).rebuild c0._sections c.nextId).2.1
        [((Widget.splitter id o cs).rebuild c0._sections c.nextId).1]
      = shapeList c0._sections c0._mainLayout ∧
    (∀ i ∈ ((Widget.splitter id o cs).rebuild c0._sections c.nextId).1.ids, c.nextId ≤ i) ∧
    (∀ s ∈ ((Widget.splitter id o cs).rebuild c0._sections c.nextId).2.1, c.nextId ≤ s.id) :=
  restoreState_of_saved reg sizes c0 c id o cs hl hfl hwt hvo hvalid hreg hnd
    (hheld.elim
      (fun h d hd => ⟨d, h ▸ (savedContents_mem c0._sections).2 c0._mainLayout d hd, rfl⟩)
      (fun h => h))
    hone hfresh

theorem restoreState_saveState_witness :
    (threeTabs.restoreState exampleRegistry (staleRoot.saveState (fun _ => [100, 200]))
        = some (true,
          { threeTabs with
            _mainLayout :=
              [.splitter 2 Qt.Vertical
                [.section 3, .splitter 4 Qt.Horizontal [.section 5, .section 6]]]
            _splitter := some 2
            _sections := [{ id := 3, contents := [exampleData 3], currentIndex := 0 },
                          { id := 5, contents := [exampleData 1], currentIndex := 0 },
                          { id := 6, contents := [exampleData 2], currentIndex := 0 }]
            _floatings := []
            nextId := 7 }) ∧
      shapeList [{ id := 3, contents := [exampleData 3], currentIndex := 0 },
                 { id := 5, contents := [exampleData 1], currentIndex := 0 },
                 { id := 6, contents := [exampleData 2], currentIndex := 0 }]
          [.splitter 2 Qt.Vertical
            [.section 3, .splitter 4 Qt.Horizontal [.section 5, .section 6]]]
        = shapeList staleRoot._sections staleRoot._mainLayout ∧
      (∀ i ∈ (Widget.splitter 2 Qt.Vertical
          [.section 3, .splitter 4 Qt.Horizontal [.section 5, .section 6]]).ids, 2 ≤ i) ∧
      (∀ s ∈ ([{ id := 3, contents := [exampleData 3], currentIndex := 0 },
               { id := 5, contents := [exampleData 1], currentIndex := 0 },
               { id := 6, contents := [exampleData 2], currentIndex := 0 }] :
            List SectionWidget), 2 ≤ s.id)) ∧
    (staleRoot.restoreState exampleRegistry (staleRoot.saveState (fun _ => [100, 200]))
        = some (true,
          { staleRoot with
            _mainLayout :=
              [.splitter 5 Qt.Vertical
                [.section 6, .splitter 7 Qt.Horizontal [.section 8, .section 9]]]
            _splitter := some 5
            _sections := [{ id := 6, contents := [exampleData 3], currentIndex := 0 },
                          { id := 8, contents := [exampleData 1], currentIndex := 0 },
                          { id := 9, contents := [exampleData 2], currentIndex := 0 }]
            _floatings := []
            nextId := 10 }) ∧
      shapeList [{ id := 6, contents := [exampleData 3], currentIndex := 0 },
                 { id := 8, contents := [exampleData 1], currentIndex := 0 },
                 { id := 9, contents := [exampleData 2], currentIndex := 0 }]
          [.splitter 5 Qt.Vertical
            [.section 6, .splitter 7 Qt.Horizontal [.section 8, .section 9]]]
        = shapeList staleRoot._sections staleRoot._mainLayout ∧
      (∀ i ∈ (Widget.splitter 5 Qt.Vertical
          [.section 6, .splitter 7 Qt.Horizontal [.section 8, .section 9]]).ids, 5 ≤ i) ∧
      (∀ s ∈ ([{ id := 6, contents := [exampleData 3], currentIndex := 0 },
               { id := 8, contents := [exampleData 1], currentIndex := 0 },
               { id := 9, contents := [exampleData 2], currentIndex := 0 }] :
            List SectionWidget), 5 ≤ s.id)) :=
  ⟨restoreState_saveState exampleRegistry (fun _ => [100, 200]) staleRoot threeTabs 4
      Qt.Vertical [.section 3, .splitter 1 Qt.Horizontal [.section 0, .section 2]] rfl rfl
      (by
        simp [staleRoot, wellTypedList, Widget.wellTyped, List.find?, exampleData,
          exampleContent])
      (by
        simp only [staleRoot, validOrientationList, Widget.validOrientation]
        decide)
      (by
        intro s hs
        simp only [staleRoot, List.mem_cons, List.mem_singleton, List.not_mem_nil,
          or_false] at hs
        rcases hs with rfl | rfl | rfl <;> exact Or.inr (by decide))
      (by decide) (by decide)
      (Or.inr (by
        simp only [holdsContent]
        decide))
      (by decide) (by decide),
   restoreState_saveState exampleRegistry (fun _ => [100, 200]) staleRoot staleRoot 4
      Qt.Vertical [.section 3, .splitter 1 Qt.Horizontal [.section 0, .section 2]] rfl rfl
      (by
        simp [staleRoot, wellTypedList, Widget.wellTyped, List.find?, exampleData,
          exampleContent])
      (by
        simp only [staleRoot, validOrientationList, Widget.validOrientation]
        decide)
      (by
        intro s hs
        simp only [staleRoot, List.mem_cons, List.mem_singleton, List.not_mem_nil,
          or_false] at hs
        rcases hs with rfl | rfl | rfl <;> exact Or.inr (by decide))
      (by decide) (by decide) (Or.inl rfl) (by decide) (by decide)⟩

end ADS
